import Mathlib

/-!
Shallow embedding of the dart-tournament core (EmilVorre/DartTournamentWebApp)

Embedding conventions, applied uniformly:

* `PlayerId`/`MatchId` (`uuid::Uuid` in the source) are modelled as `Nat`.
  The process-wide UUID generator is modelled by a `next_id` counter stored in
  the `Tournament`; the only property of UUIDs the code relies on is freshness,
  which the counter provides.
* `HashMap<MatchId, Team>` is modelled as an association list with
  overwriting insert (`mapInsert`) and first-hit lookup (`mapLookup`).
* A Rust operation `fn op(&mut self, ...) -> Result<(), TournamentError>` is
  modelled as `Tournament → Tournament × Option TournamentError`: the returned
  tournament is the state of the `&mut` value when the function returns, also
  on the error path (early `return Err(..)` after partial mutation keeps the
  partial mutation, exactly as in Rust).
* Randomness (`rand::thread_rng`) is modelled by oracle parameters: a
  tie-break oracle `tb : Nat → Nat` for `rng.gen::<u32>()` and a shuffle
  oracle `sh : List Player → List Player` for `SliceRandom::shuffle`;
  theorems assume only that `sh` permutes its input.
* `src/src/models/tournament.rs` in this snapshot is stale: it lacks the
  `mode` field, the `TournamentMode` type concrete declaration and the
  threshold helpers `players_required_to_start` / `players_required_for_semi`
  that `src/src/logic/*.rs` and `src/src/bin/web.rs` use.  Those missing
  pieces are modelled from the spec, and are marked `Modelled from the spec:`
  in their doc comments.  Everything else is translated from the source.
-/

namespace Dart

/-- Which team won a match (`Team` in `src/src/models/game.rs`). -/
inductive Team where
  | one
  | two
deriving DecidableEq, Repr

/-- Phase of the tournament a match belongs to (`RoundType` in `game.rs`). -/
inductive RoundType where
  | groupPlay
  | semiFinals
  | finals
  | grandFinals
deriving DecidableEq, Repr

/-- A player (`Player` in `src/src/models/player.rs`); the unused `seed`
field is omitted. -/
structure Player where
  id : Nat
  name : String
  losses : Nat
  wins : Nat
  times_sat_out : Nat
  internal_times_sat_out : Int
  eliminated : Bool
deriving DecidableEq, Repr

/-- Embeds `Player::new` (`player.rs`), with the fresh UUID passed in explicitly. -/
def mkPlayer (id : Nat) (name : String) : Player :=
  { id := id, name := name, losses := 0, wins := 0, times_sat_out := 0,
    internal_times_sat_out := 0, eliminated := false }

/-- Embeds `Player::add_win`. -/
def Player.addWin (p : Player) : Player := { p with wins := p.wins + 1 }

/-- Embeds `Player::add_loss`. -/
def Player.addLoss (p : Player) : Player := { p with losses := p.losses + 1 }

/-- Embeds `Player::eliminate`. -/
def Player.eliminate (p : Player) : Player := { p with eliminated := true }

/-- Embeds `Player::record_sat_out`. -/
def Player.recordSatOut (p : Player) : Player :=
  { p with times_sat_out := p.times_sat_out + 1,
           internal_times_sat_out := p.internal_times_sat_out + 1 }

/-- A match (`GameMatch` in `game.rs`). -/
structure GameMatch where
  id : Nat
  team_1 : List Nat
  team_2 : List Nat
  winner : Option Team
  round : RoundType
deriving DecidableEq, Repr

/-- Embeds `TournamentState` in `src/src/models/tournament.rs`. -/
inductive TournamentState where
  | setup
  | groupPlay
  | finalSelection
  | semiFinals
  | finals
  | completed
deriving DecidableEq, Repr

/-- Modelled from the spec: the `TournamentMode` configuration (1v1 or 2v2);
its concrete declaration is missing from the stale `tournament.rs`, but its
two variants `OneVOne` / `TwoVTwo` appear in `src/src/logic/group_play.rs`
and `src/src/bin/web.rs`. -/
inductive TournamentMode where
  | oneVOne
  | twoVTwo
deriving DecidableEq, Repr

/-- Embeds `TournamentError` in `tournament.rs`; the `required` payload of
`NotEnoughPlayersToStart` is taken from its use in `src/src/logic/setup.rs`
(the stale `tournament.rs` enum lacks it). -/
inductive TournamentError where
  | incompleteResults
  | notEnoughPlayers
  | notEnoughPlayersToStart (required : Nat)
  | invalidState
  | playerNotFound (id : Nat)
  | duplicatePlayerName
  | wrongNumberOfPlayers (needed : Nat) (selected : Nat)
  | playerNotInLastEliminated (id : Nat)
deriving DecidableEq, Repr

/-- Association-list lookup modelling `HashMap::get` / indexing. -/
def mapLookup (m : List (Nat × Team)) (k : Nat) : Option Team :=
  (m.find? (fun e => e.1 == k)).map (fun e => e.2)

/-- Association-list insert modelling `HashMap::insert` (overwrites). -/
def mapInsert (m : List (Nat × Team)) (k : Nat) (v : Team) : List (Nat × Team) :=
  (k, v) :: m.filter (fun e => ¬ e.1 == k)

/-- The tournament aggregate (`Tournament` in `tournament.rs`), plus the
`mode` field (modelled from the spec, see module header) and the `next_id`
counter modelling the process-wide UUID generator. -/
structure Tournament where
  players : List Player
  eliminated_players : List Player
  last_eliminated_players : List Player
  matches_ : List GameMatch
  unused_players : List Player
  max_losses : Nat
  state : TournamentState
  mode : TournamentMode
  match_results : List (Nat × Team)
  final_match_results : List (Nat × Team)
  bracket_semi_final_matches : Option (List GameMatch)
  bracket_semi_final_results : Option (List (Nat × Team))
  bracket_finals_match : Option GameMatch
  bracket_finals_result : Option Team
  bracket_semi_final_players : Option (List Player)
  next_id : Nat
deriving DecidableEq, Repr

/-- Embeds `Tournament::new` (`tournament.rs`), with the mode argument used by
`src/src/bin/web.rs` (`Tournament::new(max_losses, mode)`). -/
def Tournament.new (max_losses : Nat) (mode : TournamentMode) : Tournament :=
  { players := [], eliminated_players := [], last_eliminated_players := [],
    matches_ := [], unused_players := [], max_losses := max_losses,
    state := .setup, mode := mode, match_results := [],
    final_match_results := [], bracket_semi_final_matches := none,
    bracket_semi_final_results := none, bracket_finals_match := none,
    bracket_finals_result := none, bracket_semi_final_players := none,
    next_id := 0 }

/-- Ids of a list of players. -/
def ids (ps : List Player) : List Nat := ps.map (fun p => p.id)

/-- First player with the given id (`iter().find(|p| p.id == id)`). -/
def findP (ps : List Player) (pid : Nat) : Option Player :=
  ps.find? (fun p => p.id == pid)

/-- Apply `f` to the first player with the given id, modelling mutation
through `get_player_mut`-style references. -/
def updateFirstP (ps : List Player) (pid : Nat) (f : Player → Player) : List Player :=
  match ps with
  | [] => []
  | p :: rest =>
      if p.id == pid then f p :: rest else p :: updateFirstP rest pid f

/-- Embeds `Tournament::get_player_mut_any` as a functional update: update the
player in `players`, else in `unused_players`, else `none`. -/
def Tournament.updateAny (t : Tournament) (pid : Nat) (f : Player → Player) :
    Option Tournament :=
  if (findP t.players pid).isSome then
    some { t with players := updateFirstP t.players pid f }
  else if (findP t.unused_players pid).isSome then
    some { t with unused_players := updateFirstP t.unused_players pid f }
  else none

/-- ASCII lower-casing of one character, as `u8::to_ascii_lowercase`. -/
def asciiLower (c : Char) : Char :=
  if 65 ≤ c.toNat ∧ c.toNat ≤ 90 then Char.ofNat (c.toNat + 32) else c

/-- Embeds `str::eq_ignore_ascii_case`: equality after ASCII lower-casing
(written on the character lists so that it evaluates by kernel
reduction). -/
def eqIgnoreCase (a b : String) : Bool :=
  a.data.map asciiLower == b.data.map asciiLower

/-- Embeds `str::trim`: drop leading and trailing whitespace (written on the
character list so that it evaluates by kernel reduction). -/
def strTrim (s : String) : String :=
  String.mk (((s.data.dropWhile Char.isWhitespace).reverse.dropWhile
    Char.isWhitespace).reverse)

/-- Embeds `Tournament::add_player` (`tournament.rs`). -/
def Tournament.add_player (t : Tournament) (name : String) :
    Tournament × Option TournamentError :=
  match t.state with
  | .setup | .groupPlay | .finalSelection =>
      let name_trimmed := strTrim name
      if name_trimmed = "" then (t, some .invalidState)
      else if t.players.any (fun p => eqIgnoreCase p.name name_trimmed) then
        (t, some .duplicatePlayerName)
      else
        ({ t with players := t.players ++ [mkPlayer t.next_id name_trimmed],
                  next_id := t.next_id + 1 }, none)
  | _ => (t, some .invalidState)

/-- Embeds `Tournament::remove_player` (`tournament.rs`); `Vec::remove(idx)` of the
first position with the id is `List.eraseP`. -/
def Tournament.remove_player (t : Tournament) (pid : Nat) :
    Tournament × Option TournamentError :=
  if t.state ≠ .setup then (t, some .invalidState)
  else
    match findP t.players pid with
    | none => (t, some (.playerNotFound pid))
    | some _ => ({ t with players := t.players.eraseP (fun p => p.id == pid) }, none)

/-- Embeds `Tournament::set_max_losses` (`tournament.rs`). -/
def Tournament.set_max_losses (t : Tournament) (n : Nat) :
    Tournament × Option TournamentError :=
  if t.state ≠ .setup then (t, some .invalidState)
  else ({ t with max_losses := n }, none)

/-- The in-place mutation done by `set_player_losses` on the found player. -/
def setLossesUpdate (losses max_losses : Nat) (has_matches : Bool) (p : Player) : Player :=
  let p1 := { p with losses := losses }
  if has_matches ∧ max_losses ≤ losses then { p1 with eliminated := true } else p1

/-- Embeds `Tournament::set_player_losses` (`tournament.rs`): sets the raw loss
count; flags elimination only when `has_matches` (the current `matches` list
is non-empty) and the new count reaches `max_losses`. -/
def Tournament.set_player_losses (t : Tournament) (pid : Nat) (losses : Nat) :
    Tournament × Option TournamentError :=
  if t.state ≠ .groupPlay ∧ t.state ≠ .finalSelection then (t, some .invalidState)
  else
    let has_matches := ¬ t.matches_.isEmpty
    match t.updateAny pid (setLossesUpdate losses t.max_losses has_matches) with
    | none => (t, some (.playerNotFound pid))
    | some t1 => (t1, none)

/-- Embeds `Tournament::eliminate_player` (`tournament.rs`). -/
def Tournament.eliminate_player (t : Tournament) (pid : Nat) :
    Tournament × Option TournamentError :=
  if t.state ≠ .groupPlay ∧ t.state ≠ .finalSelection then (t, some .invalidState)
  else
    match findP (t.players ++ t.unused_players) pid with
    | none => (t, some (.playerNotFound pid))
    | some p =>
        ({ t with players := t.players.filter (fun x => ¬ x.id == pid),
                  unused_players := t.unused_players.filter (fun x => ¬ x.id == pid),
                  eliminated_players := t.eliminated_players ++ [p.eliminate] }, none)

/-- Embeds `Tournament::restart_tournament` (`tournament.rs`): back to Setup with
the same names.  The fresh tournament keeps the `next_id` counter (the UUID
generator is process-wide) and the mode. -/
def Tournament.restart_tournament (t : Tournament) :
    Tournament × Option TournamentError :=
  if t.state ≠ .groupPlay ∧ t.state ≠ .finalSelection then (t, some .invalidState)
  else
    let names := (t.players ++ t.unused_players ++ t.eliminated_players).map (fun p => p.name)
    let t0 := { Tournament.new t.max_losses t.mode with next_id := t.next_id }
    (names.foldl (fun acc n => (acc.add_player n).1) t0, none)

/-- Modelled from the spec: the mode-dependent start threshold (4 for 1v1,
8 for 2v2); `players_required_to_start` is missing from the stale
`tournament.rs` though `setup.rs` calls it. -/
def Tournament.players_required_to_start (t : Tournament) : Nat :=
  match t.mode with
  | .oneVOne => 4
  | .twoVTwo => 8

/-- Modelled from the spec: the mode-dependent semi-final bracket size
(4 for 1v1, 8 for 2v2); `players_required_for_semi` is missing from the
stale `tournament.rs` though the logic modules call it. -/
def Tournament.players_required_for_semi (t : Tournament) : Nat :=
  match t.mode with
  | .oneVOne => 4
  | .twoVTwo => 8

/-- Embeds `start_tournament` (`src/src/logic/setup.rs`). -/
def start_tournament (t : Tournament) : Tournament × Option TournamentError :=
  if t.state ≠ .setup then (t, some .invalidState)
  else
    let required := t.players_required_to_start
    if t.players.length < required then
      (t, some (.notEnoughPlayersToStart required))
    else if required < t.players.length then
      ({ t with state := .groupPlay }, none)
    else
      ({ t with state := .finalSelection }, none)

/-- Embeds `api_set_match_winner` (`src/src/bin/web.rs`): record a group-play match
winner; rejects unknown match ids (an HTTP 400 there, modelled as
`invalidState`). -/
def Tournament.set_match_winner (t : Tournament) (mid : Nat) (team : Team) :
    Tournament × Option TournamentError :=
  if t.matches_.any (fun m => m.id == mid) then
    ({ t with match_results := mapInsert t.match_results mid team }, none)
  else (t, some .invalidState)

/-- The `(min_players, chunk_size, excess_mod)` triple from
`generate_group_play_matches` (`src/src/logic/group_play.rs`). -/
def modeParams (m : TournamentMode) : Nat × Nat × Nat :=
  match m with
  | .oneVOne => (2, 2, 2)
  | .twoVTwo => (4, 4, 4)

/-- Lexicographic order on the `(internal_times_sat_out, tiebreak)` sort
key used by `sort_by_key` in `generate_group_play_matches`. -/
def sortKeyLE (a b : Player × Nat) : Prop :=
  a.1.internal_times_sat_out < b.1.internal_times_sat_out ∨
    (a.1.internal_times_sat_out = b.1.internal_times_sat_out ∧ a.2 ≤ b.2)

instance : DecidableRel sortKeyLE := fun a b => by
  unfold sortKeyLE
  infer_instance

/-- Fuel-driven worker for `chunksExact` (structural recursion so that it
evaluates by kernel reduction). -/
def chunksExactGo (k : Nat) (fuel : Nat) (l : List α) : List (List α) :=
  match fuel with
  | 0 => []
  | fuel + 1 =>
      if k = 0 ∨ l.length < k then []
      else l.take k :: chunksExactGo k fuel (l.drop k)

/-- Embeds `slice::chunks_exact(k)`: chunks of size exactly `k`, remainder
dropped. -/
def chunksExact (k : Nat) (l : List α) : List (List α) :=
  chunksExactGo k l.length l

/-- Build one group-play match from a chunk of player ids
(`GameMatch::new(team_1, team_2, RoundType::GroupPlay)` with the teams taken
from `chunk[0..]` per mode, and the fresh UUID passed in explicitly). -/
def mkGroupMatch (mode : TournamentMode) (mid : Nat) (chunk : List Nat) : GameMatch :=
  match mode with
  | .oneVOne =>
      { id := mid, team_1 := [chunk.getD 0 0], team_2 := [chunk.getD 1 0],
        winner := none, round := .groupPlay }
  | .twoVTwo =>
      { id := mid, team_1 := [chunk.getD 0 0, chunk.getD 1 0],
        team_2 := [chunk.getD 2 0, chunk.getD 3 0],
        winner := none, round := .groupPlay }

/-- Stage 1 of `generate_group_play_matches` (`src/src/logic/group_play.rs`):
the non-eliminated roster. -/
def gpAvailable (t : Tournament) : List Player :=
  t.players.filter (fun p => ¬ p.eliminated)

/-- Stage 2: attach the tie-break oracle values and stable-sort by
`(internal_times_sat_out, tiebreak)`.  The stable `sort_by_key` is modelled
by `insertionSort` (stable; any two stable sorts by the same total key
order agree). -/
def gpSorted (tb : Nat → Nat) (t : Tournament) : List Player :=
  (List.insertionSort sortKeyLE ((gpAvailable t).map (fun p => (p, tb p.id)))).map
    (fun e => e.1)

/-- Stage 3: `excess = n % excess_mod` players sit out. -/
def gpExcess (tb : Nat → Nat) (t : Tournament) : Nat :=
  (gpSorted tb t).length % (modeParams t.mode).2.2

/-- Stage 4: the sitting-out players, with `record_sat_out` applied. -/
def gpUnused (tb : Nat → Nat) (t : Tournament) : List Player :=
  ((gpSorted tb t).take (gpExcess tb t)).map Player.recordSatOut

/-- Stage 5: the remaining players, shuffled by the oracle. -/
def gpPlaying (tb : Nat → Nat) (sh : List Player → List Player)
    (t : Tournament) : List Player :=
  sh ((gpSorted tb t).drop (gpExcess tb t))

/-- Stage 6: `chunks_exact(chunk_size)` over the playing players.  The
source chunks the players and reads `chunk[i].id`; chunking the id list is
the same because `chunks_exact` commutes with `map`. -/
def gpChunks (tb : Nat → Nat) (sh : List Player → List Player)
    (t : Tournament) : List (List Nat) :=
  chunksExact (modeParams t.mode).2.1 (ids (gpPlaying tb sh t))

/-- Stage 7: one GroupPlay match per chunk, with fresh ids from the
counter. -/
def gpMatches (tb : Nat → Nat) (sh : List Player → List Player)
    (t : Tournament) : List GameMatch :=
  (gpChunks tb sh t).enum.map (fun e => mkGroupMatch t.mode (t.next_id + e.1) e.2)

/-- Stage 8: write the updated sit-out counters of the sitting-out players
back into the roster (the source mutates `tournament.players` through
`iter_mut().find`). -/
def gpPlayers (tb : Nat → Nat) (t : Tournament) : List Player :=
  (gpUnused tb t).foldl
    (fun ps u => updateFirstP ps u.id
      (fun q => { q with times_sat_out := u.times_sat_out,
                         internal_times_sat_out := u.internal_times_sat_out }))
    t.players

/-- Embeds `generate_group_play_matches` (`src/src/logic/group_play.rs`).
`tb` is the tie-break oracle (one `rng.gen::<u32>()` per player), `sh` the
shuffle oracle; the pipeline stages are the `gp*` definitions above. -/
def generate_group_play_matches (tb : Nat → Nat) (sh : List Player → List Player)
    (t : Tournament) : Tournament × Option TournamentError :=
  if t.state ≠ .groupPlay then (t, some .invalidState)
  else if (gpAvailable t).length < (modeParams t.mode).1 then
    (t, some .notEnoughPlayers)
  else
    ({ t with players := gpPlayers tb t,
              matches_ := gpMatches tb sh t,
              unused_players := gpUnused tb t,
              match_results := [],
              next_id := t.next_id + (gpChunks tb sh t).length }, none)

/-- The per-loser step of `apply_match_result`: `add_loss`, then flag
eliminated when the new count reaches `max_losses`. -/
def loseStep (max_losses : Nat) (p : Player) : Player :=
  let p1 := p.addLoss
  if max_losses ≤ p1.losses then p1.eliminate else p1

/-- The losing-team loop of `apply_match_result` (`group_play.rs`): each
loser found in `players` gets a loss and is flagged and collected when at
`max_losses`; a missing player aborts with `PlayerNotFound`, keeping the
mutations made so far. -/
def applyLoserIds (max_losses : Nat) (pids : List Nat) (t : Tournament)
    (acc : List Player) : Tournament × List Player × Option TournamentError :=
  match pids with
  | [] => (t, acc, none)
  | pid :: rest =>
      match findP t.players pid with
      | none => (t, acc, some (.playerNotFound pid))
      | some p =>
          if max_losses ≤ p.addLoss.losses then
            applyLoserIds max_losses rest
              { t with players := updateFirstP t.players pid (fun _ => loseStep max_losses p) }
              (acc ++ [loseStep max_losses p])
          else
            applyLoserIds max_losses rest
              { t with players := updateFirstP t.players pid (fun _ => loseStep max_losses p) }
              acc

/-- The winning-team loop of `apply_match_result`: each winner found in
`players` gets a win. -/
def applyWinnerIds (pids : List Nat) (t : Tournament) :
    Tournament × Option TournamentError :=
  match pids with
  | [] => (t, none)
  | pid :: rest =>
      match findP t.players pid with
      | none => (t, some (.playerNotFound pid))
      | some _ =>
          applyWinnerIds rest
            { t with players := updateFirstP t.players pid Player.addWin }

/-- Embeds `apply_match_result` (`group_play.rs`): losers of the losing team first,
then winners; returns the clones of players eliminated by this match. -/
def apply_match_result (t : Tournament) (team_1 team_2 : List Nat) (winner : Team)
    (max_losses : Nat) : Tournament × Except TournamentError (List Player) :=
  match winner with
  | .one =>
      match applyLoserIds max_losses team_2 t [] with
      | (t1, _, some e) => (t1, .error e)
      | (t1, elim, none) =>
          match applyWinnerIds team_1 t1 with
          | (t2, some e) => (t2, .error e)
          | (t2, none) => (t2, .ok elim)
  | .two =>
      match applyLoserIds max_losses team_1 t [] with
      | (t1, _, some e) => (t1, .error e)
      | (t1, elim, none) =>
          match applyWinnerIds team_2 t1 with
          | (t2, some e) => (t2, .error e)
          | (t2, none) => (t2, .ok elim)

/-- The per-match loop of `process_group_play_results`: apply each match
result, extending `last_eliminated_players` with the eliminations of that match;
an error aborts, keeping the effects of earlier matches. -/
def processMatches (max_losses : Nat) (md : List (List Nat × List Nat × Team))
    (t : Tournament) : Tournament × Option TournamentError :=
  match md with
  | [] => (t, none)
  | (team_1, team_2, w) :: rest =>
      match apply_match_result t team_1 team_2 w max_losses with
      | (t1, .error e) => (t1, some e)
      | (t1, .ok elim) =>
          processMatches max_losses rest
            { t1 with last_eliminated_players := t1.last_eliminated_players ++ elim }

/-- Embeds `process_group_play_results` (`src/src/logic/group_play.rs`). -/
def process_group_play_results (t : Tournament) :
    Tournament × Option TournamentError :=
  if t.state ≠ .groupPlay then (t, some .invalidState)
  else if t.matches_.any (fun m => (mapLookup t.match_results m.id).isNone) then
    (t, some .incompleteResults)
  else
    let max_losses := t.max_losses
    let match_data := t.matches_.map
      (fun m => (m.team_1, m.team_2, (mapLookup t.match_results m.id).getD .one))
    let t0 := { t with last_eliminated_players := [] }
    match processMatches max_losses match_data t0 with
    | (t1, some e) => (t1, some e)
    | (t1, none) =>
        let t2 := { t1 with
          eliminated_players := t1.eliminated_players ++ t1.last_eliminated_players,
          players := t1.players.filter (fun p => ¬ p.eliminated),
          matches_ := [], unused_players := [], match_results := [] }
        if t2.players.length ≤ t2.players_required_for_semi then
          ({ t2 with state := .finalSelection }, none)
        else (t2, none)

/-- Embeds `add_players_back_from_last_eliminated`
(`src/src/logic/final_selection.rs`).  Note `drain(..)` empties
`last_eliminated_players`; only the selected players survive (into the
roster), the rest are dropped from that list. -/
def add_players_back_from_last_eliminated (t : Tournament) (player_ids : List Nat) :
    Tournament × Option TournamentError :=
  if t.state ≠ .finalSelection then (t, some .invalidState)
  else
    let required := t.players_required_for_semi
    let current := t.players.length
    if required ≤ current then (t, some .invalidState)
    else
      let needed := required - current
      if player_ids.length ≠ needed then
        (t, some (.wrongNumberOfPlayers needed player_ids.length))
      else
        match player_ids.find? (fun pid => ¬ t.last_eliminated_players.any (fun p => p.id == pid)) with
        | some pid => (t, some (.playerNotInLastEliminated pid))
        | none =>
            let to_add := (t.last_eliminated_players.filter
                (fun p => player_ids.contains p.id)).map
                (fun p => { p with eliminated := false })
            let players1 := t.players ++ to_add
            ({ t with players := players1,
                      last_eliminated_players := [],
                      eliminated_players := t.eliminated_players.filter
                        (fun p => ¬ player_ids.contains p.id),
                      state := if players1.length = required then .semiFinals
                               else t.state }, none)

/-- Embeds `start_semi_finals` (`final_selection.rs`). -/
def start_semi_finals (t : Tournament) : Tournament × Option TournamentError :=
  if t.state ≠ .finalSelection then (t, some .invalidState)
  else if t.players.length ≠ t.players_required_for_semi then (t, some .invalidState)
  else ({ t with state := .semiFinals }, none)

/-- A placeholder player for the out-of-bounds indexing that would panic in
Rust (`p[i]`); never reached under the hypotheses of the theorems below. -/
def dummyPlayer : Player := mkPlayer 0 ""

/-- Embeds `p[i].id` on a player list. -/
def idAt (l : List Player) (i : Nat) : Nat := (l.getD i dummyPlayer).id

/-- Embeds `generate_semi_final_matches` (`src/src/logic/finals.rs`); `sh` is the
shuffle oracle. -/
def generate_semi_final_matches (sh : List Player → List Player) (t : Tournament) :
    Tournament × Option TournamentError :=
  if t.state ≠ .semiFinals then (t, some .invalidState)
  else if t.players.length ≠ 8 then (t, some .invalidState)
  else
    let ps := sh t.players
    let m1 : GameMatch :=
      { id := t.next_id, team_1 := [idAt ps 0, idAt ps 1],
        team_2 := [idAt ps 2, idAt ps 3], winner := none, round := .semiFinals }
    let m2 : GameMatch :=
      { id := t.next_id + 1, team_1 := [idAt ps 4, idAt ps 5],
        team_2 := [idAt ps 6, idAt ps 7], winner := none, round := .semiFinals }
    ({ t with players := ps, matches_ := [m1, m2], final_match_results := [],
              next_id := t.next_id + 2 }, none)

/-- Embeds `set_finals_match_winner` (`finals.rs`). -/
def set_finals_match_winner (t : Tournament) (mid : Nat) (team : Team) :
    Tournament × Option TournamentError :=
  if t.matches_.any (fun m => m.id == mid) then
    ({ t with final_match_results := mapInsert t.final_match_results mid team }, none)
  else (t, some .invalidState)

/-- One loop of `apply_playoff_match_result` (`finals.rs`): apply `f` to
each listed player through `get_player_mut_any`; a missing player aborts
with `PlayerNotFound`, keeping earlier updates. -/
def playoffFold (f : Player → Player) (pids : List Nat) (t : Tournament) :
    Tournament × Option TournamentError :=
  match pids with
  | [] => (t, none)
  | pid :: rest =>
      match t.updateAny pid f with
      | none => (t, some (.playerNotFound pid))
      | some t1 => playoffFold f rest t1

/-- Embeds `apply_playoff_match_result` (`finals.rs`): losers get a loss, then
winners get a win. -/
def apply_playoff_match_result (t : Tournament) (team_1 team_2 : List Nat)
    (winner : Team) : Tournament × Option TournamentError :=
  let wl : List Nat × List Nat :=
    match winner with
    | .one => (team_1, team_2)
    | .two => (team_2, team_1)
  match playoffFold Player.addLoss wl.2 t with
  | (t1, some e) => (t1, some e)
  | (t1, none) => playoffFold Player.addWin wl.1 t1

/-- The per-match loop of `process_semi_final_results`. -/
def playoffMatches (md : List (List Nat × List Nat × Team)) (t : Tournament) :
    Tournament × Option TournamentError :=
  match md with
  | [] => (t, none)
  | (team_1, team_2, w) :: rest =>
      match apply_playoff_match_result t team_1 team_2 w with
      | (t1, some e) => (t1, some e)
      | (t1, none) => playoffMatches rest t1

/-- Ids of the winning team of a match under a result. -/
def winnerIds (m : GameMatch) (w : Team) : List Nat :=
  match w with
  | .one => m.team_1
  | .two => m.team_2

/-- Embeds `process_semi_final_results` (`src/src/logic/finals.rs`). -/
def process_semi_final_results (t : Tournament) :
    Tournament × Option TournamentError :=
  if t.state ≠ .semiFinals then (t, some .invalidState)
  else if t.matches_.length ≠ 2 then (t, some .invalidState)
  else if t.matches_.any (fun m => (mapLookup t.final_match_results m.id).isNone) then
    (t, some .incompleteResults)
  else
    let match_data := t.matches_.map
      (fun m => (m.team_1, m.team_2, (mapLookup t.final_match_results m.id).getD .one))
    match playoffMatches match_data t with
    | (t1, some e) => (t1, some e)
    | (t1, none) =>
        let winner_ids := t1.matches_.flatMap
          (fun m => winnerIds m ((mapLookup t1.final_match_results m.id).getD .one))
        let t2 := { t1 with
          bracket_semi_final_players := some t1.players,
          bracket_semi_final_matches := some t1.matches_,
          bracket_semi_final_results := some t1.final_match_results,
          matches_ := [], final_match_results := [] }
        let advancing := t2.players.filter (fun p => winner_ids.contains p.id)
        let fm : GameMatch :=
          { id := t2.next_id, team_1 := [idAt advancing 0, idAt advancing 1],
            team_2 := [idAt advancing 2, idAt advancing 3],
            winner := none, round := .finals }
        ({ t2 with players := advancing, matches_ := [fm], state := .finals,
                   next_id := t2.next_id + 1 }, none)

/-- A placeholder match for `matches[0]` indexing; never reached under the
length guards. -/
def dummyMatch : GameMatch :=
  { id := 0, team_1 := [], team_2 := [], winner := none, round := .finals }

/-- Embeds `process_finals_results` (`src/src/logic/finals.rs`). -/
def process_finals_results (t : Tournament) :
    Tournament × Option TournamentError :=
  if t.state ≠ .finals then (t, some .invalidState)
  else if t.matches_.length ≠ 1 then (t, some .invalidState)
  else
    let m := t.matches_.getD 0 dummyMatch
    match mapLookup t.final_match_results m.id with
    | none => (t, some .incompleteResults)
    | some w =>
        match apply_playoff_match_result t m.team_1 m.team_2 w with
        | (t1, some e) => (t1, some e)
        | (t1, none) =>
            ({ t1 with bracket_finals_match := some m,
                       bracket_finals_result := some w,
                       matches_ := [], final_match_results := [],
                       state := .completed }, none)

/-!
Core-operation step relation and reachability.  A step applies one core
operation (spec section 6) to the tournament; the post-state is the state of
the `&mut Tournament` when the call returns, whether the call succeeded or
failed (a failed call may have partially mutated the value).  The two
generation steps carry their randomness oracles; the shuffle oracle is
constrained to permute its input.
-/

/-- One core-operation invocation, successful or failed. -/
inductive Step : Tournament → Tournament → Prop where
  | add_player (t : Tournament) (name : String) :
      Step t (t.add_player name).1
  | remove_player (t : Tournament) (pid : Nat) :
      Step t (t.remove_player pid).1
  | set_max_losses (t : Tournament) (n : Nat) :
      Step t (t.set_max_losses n).1
  | set_player_losses (t : Tournament) (pid n : Nat) :
      Step t (t.set_player_losses pid n).1
  | eliminate_player (t : Tournament) (pid : Nat) :
      Step t (t.eliminate_player pid).1
  | restart_tournament (t : Tournament) :
      Step t t.restart_tournament.1
  | start_tournament (t : Tournament) :
      Step t (start_tournament t).1
  | set_match_winner (t : Tournament) (mid : Nat) (team : Team) :
      Step t (t.set_match_winner mid team).1
  | generate_group_play (t : Tournament) (tb : Nat → Nat)
      (sh : List Player → List Player) (hsh : ∀ l : List Player, (sh l).Perm l) :
      Step t (generate_group_play_matches tb sh t).1
  | process_group_play (t : Tournament) :
      Step t (process_group_play_results t).1
  | add_players_back (t : Tournament) (pids : List Nat) :
      Step t (add_players_back_from_last_eliminated t pids).1
  | start_semi_finals (t : Tournament) :
      Step t (start_semi_finals t).1
  | generate_semi_finals (t : Tournament)
      (sh : List Player → List Player) (hsh : ∀ l : List Player, (sh l).Perm l) :
      Step t (generate_semi_final_matches sh t).1
  | set_finals_match_winner (t : Tournament) (mid : Nat) (team : Team) :
      Step t (set_finals_match_winner t mid team).1
  | process_semi_finals (t : Tournament) :
      Step t (process_semi_final_results t).1
  | process_finals (t : Tournament) :
      Step t (process_finals_results t).1

/-- States reachable from a freshly created tournament by core operations. -/
def Reachable (t : Tournament) : Prop :=
  ∃ max_losses mode, Relation.ReflTransGen Step (Tournament.new max_losses mode) t

/-- Claim C2 as stated: a player id appears in at most one of
`players`, `unused_players`, `eliminated_players`. -/
def MutualExclusion (t : Tournament) : Prop :=
  (∀ pid ∈ ids t.players,
      pid ∉ ids t.unused_players ∧ pid ∉ ids t.eliminated_players) ∧
  (∀ pid ∈ ids t.unused_players, pid ∉ ids t.eliminated_players)

/-- All player ids mentioned by the current round of matches. -/
def teamIds (t : Tournament) : List Nat :=
  t.matches_.flatMap (fun m => m.team_1 ++ m.team_2)

/-- The state invariant maintained by every core operation (proved below):
roster ids are distinct; the roster and the eliminated record are disjoint;
sit-out entries are copies of roster players; all ids are below the
freshness counter; in FinalSelection the last-eliminated list is
duplicate-free and disjoint from the roster; in GroupPlay the current
matches mention each player at most once; Setup has no round state;
outside GroupPlay the sit-out list is empty. -/
def Inv (t : Tournament) : Prop :=
  (ids t.players).Nodup ∧
  (∀ pid ∈ ids t.players, pid ∉ ids t.eliminated_players) ∧
  (∀ pid ∈ ids t.unused_players, pid ∈ ids t.players) ∧
  (∀ p ∈ t.players ++ t.unused_players ++ t.eliminated_players ++
      t.last_eliminated_players, p.id < t.next_id) ∧
  (t.state = .finalSelection →
    (ids t.last_eliminated_players).Nodup ∧
    ∀ pid ∈ ids t.last_eliminated_players, pid ∉ ids t.players) ∧
  (t.state = .groupPlay → (teamIds t).Nodup) ∧
  (t.state = .setup → t.matches_ = [] ∧ t.last_eliminated_players = []) ∧
  (t.state ≠ .groupPlay → t.unused_players = [])

/-- Pointwise evolution of a player list under the in-place mutations the
operations perform: lookups stay defined, loss counts never drop, and the
eliminated flag is never cleared. -/
def PMono (a b : List Player) : Prop :=
  (∀ q, (findP b q).isSome = (findP a q).isSome) ∧
  ∀ q p p', findP a q = some p → findP b q = some p' →
    p.losses ≤ p'.losses ∧ (p.eliminated = true → p'.eliminated = true)


/-- Loss count of a player as observed through the authoritative
collections, in the lookup order the code itself uses (`players` first,
then `unused_players`, then `eliminated_players`). -/
def lossesOf (t : Tournament) (pid : Nat) : Option Nat :=
  (findP (t.players ++ t.unused_players ++ t.eliminated_players) pid).map
    (fun p => p.losses)

/-- Loss counts, as observed through `lossesOf`, never decrease from `t`
to `t1` for any player visible in both. -/
def LossesMonoAt (t t1 : Tournament) : Prop :=
  ∀ q l l1, lossesOf t q = some l → lossesOf t1 q = some l1 → l ≤ l1

/-!
Concrete states used by counterexamples and witnesses.  `exT0 .. exT6` is a
five-player 1v1 run: create, add five players, start, generate one round
(identity shuffle, constant tie-break), record both winners, process.
-/

/-- Fresh 1v1 tournament with `max_losses = 3`. -/
def exT0 : Tournament := Tournament.new 3 .oneVOne

/-- After adding five players (ids 0..4). -/
def exT1 : Tournament :=
  (((((exT0.add_player "Ann").1.add_player "Ben").1.add_player "Cal").1.add_player
      "Dan").1.add_player "Eva").1

/-- After `start_tournament` (five players exceed the 1v1 threshold 4). -/
def exT2 : Tournament := (start_tournament exT1).1

/-- After one `generate_group_play_matches` with the identity shuffle:
player 0 sits out, matches 5 and 6 pair ids 1–2 and 3–4. -/
def exT3 : Tournament :=
  (generate_group_play_matches (fun _ => 0) (fun l => l) exT2).1

/-- After recording team one as winner of match 5. -/
def exT4 : Tournament := (exT3.set_match_winner 5 .one).1

/-- After recording team one as winner of match 6. -/
def exT5 : Tournament := (exT4.set_match_winner 6 .one).1

/-- After processing the round: back to an empty `matches_` while still in
GroupPlay, with one full round generated and processed. -/
def exT6 : Tournament := (process_group_play_results exT5).1

/-- A GroupPlay state whose single recorded match names a player id (7)
absent from the roster, while `last_eliminated_players` is non-empty. -/
def cexC3 : Tournament :=
  { Tournament.new 3 .oneVOne with
    state := .groupPlay,
    players := [mkPlayer 0 "Ann", mkPlayer 1 "Ben"],
    last_eliminated_players := [mkPlayer 9 "Zoe"],
    matches_ := [{ id := 50, team_1 := [0], team_2 := [7], winner := none,
                   round := .groupPlay }],
    match_results := [(50, Team.one)],
    next_id := 100 }

/-- A GroupPlay state with no matches but one roster player already flagged
eliminated (as `set_player_losses` can leave it). -/
def cexC4 : Tournament :=
  { Tournament.new 3 .oneVOne with
    state := .groupPlay,
    players := [(mkPlayer 0 "Ann").eliminate, mkPlayer 1 "Ben"],
    next_id := 100 }

/-- A FinalSelection state (1v1, bracket size 4) with three roster players
and two last-eliminated players, ids 10 and 11. -/
def cexC6 : Tournament :=
  { Tournament.new 3 .oneVOne with
    state := .finalSelection,
    players := [mkPlayer 0 "Ann", mkPlayer 1 "Ben", mkPlayer 2 "Cal"],
    eliminated_players := [(mkPlayer 10 "Xan").eliminate,
                           (mkPlayer 11 "Yve").eliminate],
    last_eliminated_players := [(mkPlayer 10 "Xan").eliminate,
                                (mkPlayer 11 "Yve").eliminate],
    next_id := 100 }

/-- A SemiFinals state with two resolved matches whose teams name ids
absent from the roster. -/
def cexC9 : Tournament :=
  { Tournament.new 3 .twoVTwo with
    state := .semiFinals,
    players := [mkPlayer 0 "Ann", mkPlayer 1 "Ben", mkPlayer 2 "Cal",
                mkPlayer 3 "Dan", mkPlayer 4 "Eva", mkPlayer 5 "Fay",
                mkPlayer 6 "Gus", mkPlayer 7 "Hal"],
    matches_ := [{ id := 60, team_1 := [20, 21], team_2 := [22, 23],
                   winner := none, round := .semiFinals },
                 { id := 61, team_1 := [24, 25], team_2 := [26, 27],
                   winner := none, round := .semiFinals }],
    final_match_results := [(60, Team.one), (61, Team.two)],
    next_id := 100 }

/-- First semi-final match of the well-formed SemiFinals state below. -/
def cexSemiM1 : GameMatch :=
  { id := 60, team_1 := [0, 1], team_2 := [2, 3], winner := none, round := .semiFinals }

/-- Second semi-final match of the well-formed SemiFinals state below. -/
def cexSemiM2 : GameMatch :=
  { id := 61, team_1 := [4, 5], team_2 := [6, 7], winner := none, round := .semiFinals }

/-- A well-formed SemiFinals state: eight players with ids 0-7, two matches
pairing them four and four, and both results recorded (match 60 to team one,
match 61 to team two). -/
def cexSemiOk : Tournament :=
  { Tournament.new 3 .twoVTwo with
    state := .semiFinals,
    players := [mkPlayer 0 "Ann", mkPlayer 1 "Ben", mkPlayer 2 "Cal",
                mkPlayer 3 "Dan", mkPlayer 4 "Eva", mkPlayer 5 "Fay",
                mkPlayer 6 "Gus", mkPlayer 7 "Hal"],
    matches_ := [cexSemiM1, cexSemiM2],
    final_match_results := [(60, Team.one), (61, Team.two)],
    next_id := 100 }

/-- A GroupPlay state with one roster player holding one loss already
(losses can be edited downwards from here). -/
def cexC7 : Tournament :=
  { Tournament.new 3 .oneVOne with
    state := .groupPlay,
    players := [{ mkPlayer 0 "Ann" with losses := 1 }],
    next_id := 100 }

/-!
Theorems.
-/

/-- C8: in Setup, `start_tournament` fails with `NotEnoughPlayersToStart`
carrying the mode-dependent threshold exactly when the roster is strictly
below it; at exactly the threshold it moves to FinalSelection, above it to
GroupPlay. -/
theorem C8_start_tournament_thresholds (t : Tournament)
    (hs : t.state = TournamentState.setup) :
    (t.players.length < t.players_required_to_start →
      start_tournament t =
        (t, some (.notEnoughPlayersToStart t.players_required_to_start))) ∧
    (t.players.length = t.players_required_to_start →
      (start_tournament t).2 = none ∧
      (start_tournament t).1.state = .finalSelection) ∧
    (t.players_required_to_start < t.players.length →
      (start_tournament t).2 = none ∧
      (start_tournament t).1.state = .groupPlay) ∧
    (∀ r, (start_tournament t).2 = some (.notEnoughPlayersToStart r) →
      r = t.players_required_to_start ∧
      t.players.length < t.players_required_to_start) := by
  have hne : ¬ t.state ≠ TournamentState.setup := by simp [hs]
  unfold start_tournament
  rw [if_neg hne]
  refine ⟨?_, ?_, ?_, ?_⟩
  · intro hlt
    rw [if_pos hlt]
  · intro heq
    rw [if_neg (by omega), if_neg (by omega)]
    exact ⟨rfl, rfl⟩
  · intro hgt
    rw [if_neg (by omega), if_pos hgt]
    exact ⟨rfl, rfl⟩
  · intro r hr
    by_cases h1 : t.players.length < t.players_required_to_start
    · rw [if_pos h1] at hr
      simp only [Option.some.injEq, TournamentError.notEnoughPlayersToStart.injEq] at hr
      exact ⟨hr.symm, h1⟩
    · rw [if_neg h1] at hr
      by_cases h2 : t.players_required_to_start < t.players.length
      · rw [if_pos h2] at hr
        simp at hr
      · rw [if_neg h2] at hr
        simp at hr

/-- Witness for C8 at the concrete five-player 1v1 setup state. -/
theorem C8_start_tournament_thresholds_witness :
    (start_tournament exT1).2 = none ∧
    (start_tournament exT1).1.state = .groupPlay :=
  (C8_start_tournament_thresholds exT1 (by decide)).2.2.1 (by decide)

/-- C10: in GroupPlay with no matches, `process_group_play_results`
succeeds, clears `last_eliminated_players`, keeps the surviving roster
records (hence wins and losses) unchanged, and moves to FinalSelection
exactly when the resulting roster is at or below the semi-final
threshold. -/
theorem C10_process_empty_round (t : Tournament)
    (hs : t.state = TournamentState.groupPlay) (hm : t.matches_ = []) :
    (process_group_play_results t).2 = none ∧
    (process_group_play_results t).1.last_eliminated_players = [] ∧
    (process_group_play_results t).1.players =
      t.players.filter (fun p => ¬ p.eliminated) ∧
    (∀ p ∈ t.players, p.eliminated = false →
      p ∈ (process_group_play_results t).1.players) ∧
    ((process_group_play_results t).1.state = .finalSelection ∨
      (process_group_play_results t).1.state = .groupPlay) ∧
    ((process_group_play_results t).1.state = .finalSelection ↔
      (process_group_play_results t).1.players.length ≤
        t.players_required_for_semi) := by
  have hne : ¬ t.state ≠ TournamentState.groupPlay := by simp [hs]
  have hmem : ∀ p ∈ t.players, p.eliminated = false →
      p ∈ t.players.filter (fun p => ¬ p.eliminated) := by
    intro p hp he
    simp [List.mem_filter, hp, he]
  unfold process_group_play_results
  rw [if_neg hne]
  rw [hm]
  simp only [List.any_nil, List.map_nil, Bool.false_eq_true, if_false, processMatches]
  split_ifs with hlen
  · refine ⟨rfl, rfl, rfl, fun p hp he => hmem p hp he, Or.inl rfl,
      iff_of_true rfl ?_⟩
    simpa [Tournament.players_required_for_semi] using hlen
  · refine ⟨rfl, rfl, rfl, fun p hp he => hmem p hp he, Or.inr hs,
      iff_of_false (by simp [hs]) ?_⟩
    simpa [Tournament.players_required_for_semi] using hlen

/-- Witness for C10 at the post-round GroupPlay state with empty matches. -/
theorem C10_process_empty_round_witness :
    (process_group_play_results exT6).2 = none ∧
    (process_group_play_results exT6).1.last_eliminated_players = [] :=
  ⟨(C10_process_empty_round exT6 (by decide) (by decide)).1,
   (C10_process_empty_round exT6 (by decide) (by decide)).2.1⟩

/-- C3 is false as stated: on a GroupPlay state whose recorded match names
a missing player id, `process_group_play_results` fails with
`PlayerNotFound` yet has already cleared `last_eliminated_players`, so the
tournament after the failed call differs from the one before it. -/
theorem C3_counterexample :
    (process_group_play_results cexC3).2 =
      some (TournamentError.playerNotFound 7) ∧
    (process_group_play_results cexC3).1 ≠ cexC3 := by decide

/-- C6 is false as stated: reviving id 10 from `cexC6` succeeds, but the
non-selected player id 11 does not remain in `last_eliminated_players`
(the list is drained empty); it only survives in `eliminated_players`. -/
theorem C6_counterexample :
    (add_players_back_from_last_eliminated cexC6 [10]).2 = none ∧
    11 ∈ ids cexC6.last_eliminated_players ∧
    11 ∉ ids (add_players_back_from_last_eliminated cexC6 [10]).1.last_eliminated_players ∧
    11 ∈ ids (add_players_back_from_last_eliminated cexC6 [10]).1.eliminated_players := by
  decide

/-- C6 amended: a successful
`add_players_back_from_last_eliminated(ids)` appends exactly the selected
last-eliminated players to the roster with their eliminated flag cleared,
removes exactly the selected ids from `eliminated_players`, and empties
`last_eliminated_players` entirely (non-selected entries are dropped from
that list rather than retained). -/
theorem C6_amended_add_back_effects (t : Tournament) (pids : List Nat)
    (h : (add_players_back_from_last_eliminated t pids).2 = none) :
    (add_players_back_from_last_eliminated t pids).1.players =
      t.players ++ (t.last_eliminated_players.filter
        (fun p => pids.contains p.id)).map (fun p => { p with eliminated := false }) ∧
    (add_players_back_from_last_eliminated t pids).1.last_eliminated_players = [] ∧
    (add_players_back_from_last_eliminated t pids).1.eliminated_players =
      t.eliminated_players.filter (fun p => ¬ pids.contains p.id) := by
  unfold add_players_back_from_last_eliminated at h
  by_cases h1 : t.state ≠ TournamentState.finalSelection
  · rw [if_pos h1] at h
    simp at h
  rw [if_neg h1] at h
  by_cases h2 : t.players_required_for_semi ≤ t.players.length
  · rw [if_pos h2] at h
    simp at h
  rw [if_neg h2] at h
  by_cases h3 : pids.length ≠ t.players_required_for_semi - t.players.length
  · rw [if_pos h3] at h
    simp at h
  rw [if_neg h3] at h
  split at h
  · simp at h
  · rename_i heq
    unfold add_players_back_from_last_eliminated
    rw [if_neg h1, if_neg h2, if_neg h3, heq]
    exact ⟨rfl, rfl, rfl⟩

/-- Witness for the amended C6 at the concrete FinalSelection state. -/
theorem C6_amended_add_back_effects_witness :
    (add_players_back_from_last_eliminated cexC6 [10]).1.last_eliminated_players = [] :=
  (C6_amended_add_back_effects cexC6 [10] (by decide)).2.1

/-- C5 is a code bug: after a round has been generated (and processed, so
`matches` is empty again), `set_player_losses` with a count at or beyond
`max_losses` still leaves the eliminated flag false, because the code tests
emptiness of the current `matches` list instead of whether a round has ever
been generated (which its own comments and the spec describe). -/
theorem C5_set_player_losses_code_bug :
    (generate_group_play_matches (fun _ => 0) (fun l => l) exT2).2 = none ∧
    (process_group_play_results exT5).2 = none ∧
    exT6.state = TournamentState.groupPlay ∧
    exT6.matches_ = [] ∧
    exT6.max_losses = 3 ∧
    (exT6.set_player_losses 2 7).2 = none ∧
    (findP (exT6.set_player_losses 2 7).1.players 2).map
      (fun p => (p.losses, p.eliminated)) = some (7, false) := by decide

/-- C4 is false as stated: a GroupPlay state with an already-flagged roster
player and no matches processes successfully, but the flagged player is
dropped from the roster without entering `eliminated_players`, so the
roster-plus-eliminated total shrinks. -/
theorem C4_counterexample :
    cexC4.state = TournamentState.groupPlay ∧
    (process_group_play_results cexC4).2 = none ∧
    (process_group_play_results cexC4).1.players.length +
        (process_group_play_results cexC4).1.eliminated_players.length ≠
      cexC4.players.length + cexC4.eliminated_players.length := by decide

/-- C9 is false as stated: a SemiFinals state with two resolved matches
whose teams name ids missing from the roster makes
`process_semi_final_results` fail with `PlayerNotFound` instead of
succeeding. -/
theorem C9_counterexample :
    cexC9.state = TournamentState.semiFinals ∧
    cexC9.matches_.length = 2 ∧
    (∀ m ∈ cexC9.matches_, (mapLookup cexC9.final_match_results m.id).isSome) ∧
    (process_semi_final_results cexC9).2 ≠ none := by decide

/-- The group-play trace `exT0 → exT3` is a run of core operations. -/
theorem reach_exT3 : Reachable exT3 := by
  refine ⟨3, .oneVOne, ?_⟩
  exact Relation.ReflTransGen.tail
    (Relation.ReflTransGen.tail
      (Relation.ReflTransGen.tail
        (Relation.ReflTransGen.tail
          (Relation.ReflTransGen.tail
            (Relation.ReflTransGen.tail
              (Relation.ReflTransGen.tail Relation.ReflTransGen.refl
                (Step.add_player exT0 "Ann"))
              (Step.add_player _ "Ben"))
            (Step.add_player _ "Cal"))
          (Step.add_player _ "Dan"))
        (Step.add_player _ "Eva"))
      (Step.start_tournament _))
    (Step.generate_group_play _ (fun _ => 0) (fun l => l) (fun l => List.Perm.refl l))

/-- C2 is false as stated: in the reachable state `exT3` (five players,
one generated 1v1 round) the sitting-out player id 0 is simultaneously in
`players` and in `unused_players` — `generate_group_play_matches` stores
copies of roster players in `unused_players` without removing them from the
roster. -/
theorem C2_counterexample : Reachable exT3 ∧ ¬ MutualExclusion exT3 := by
  refine ⟨reach_exT3, ?_⟩
  intro h
  unfold MutualExclusion at h
  exact ((h.1 0 (by decide)).1) (by decide)

/-!
List lemmas about the chunking, sorting and update helpers.
-/

theorem chunksExactGo_length_mem {α : Type} {k : Nat} :
    ∀ (fuel : Nat) (l c : List α), c ∈ chunksExactGo k fuel l → c.length = k := by
  intro fuel
  induction fuel with
  | zero =>
      intro l c hc
      simp [chunksExactGo] at hc
  | succ fuel ih =>
      intro l c hc
      unfold chunksExactGo at hc
      split at hc
      · simp at hc
      · rename_i hcond
        push_neg at hcond
        rcases List.mem_cons.mp hc with hc | hc
        · subst hc
          simp [List.length_take]
          omega
        · exact ih _ _ hc

theorem chunksExactGo_join {α : Type} {k : Nat} (fuel : Nat) (l : List α)
    (hk : k ≠ 0) (hfuel : l.length ≤ fuel) (hdvd : k ∣ l.length) :
    (chunksExactGo k fuel l).flatten = l := by
  induction fuel generalizing l with
  | zero =>
      have : l.length = 0 := Nat.le_zero.mp hfuel
      simp [chunksExactGo, List.eq_nil_of_length_eq_zero this]
  | succ fuel ih =>
      unfold chunksExactGo
      split
      · rename_i hcond
        rcases hcond with hcond | hcond
        · exact absurd hcond hk
        · have hlen0 : l.length = 0 := Nat.eq_zero_of_dvd_of_lt hdvd hcond
          simp [List.eq_nil_of_length_eq_zero hlen0]
      · rename_i hcond
        push_neg at hcond
        have hklen : k ≤ l.length := hcond.2
        have hdrop : (l.drop k).length = l.length - k := by simp
        have ihh := ih (l.drop k) (by omega)
          (by rw [hdrop]; exact (Nat.dvd_sub' hdvd dvd_rfl))
        simp only [List.flatten_cons, ihh]
        exact List.take_append_drop k l

theorem chunksExact_join {α : Type} {k : Nat} (l : List α)
    (hk : k ≠ 0) (hdvd : k ∣ l.length) :
    (chunksExact k l).flatten = l :=
  chunksExactGo_join l.length l hk le_rfl hdvd

theorem chunksExact_length_mem {α : Type} {k : Nat} {l c : List α}
    (hc : c ∈ chunksExact k l) : c.length = k :=
  chunksExactGo_length_mem l.length l c hc

theorem mem_snd_of_mem_enumFrom {α : Type} {e : Nat × α} :
    ∀ {n : Nat} {l : List α}, e ∈ l.enumFrom n → e.2 ∈ l := by
  intro n l
  induction l generalizing n with
  | nil => simp
  | cons a l ih =>
      intro he
      rcases List.mem_cons.mp he with he | he
      · simp_all
      · exact List.mem_cons_of_mem a (ih (by simpa using he))

theorem mem_snd_of_mem_enum {α : Type} {e : Nat × α} {l : List α}
    (he : e ∈ l.enum) : e.2 ∈ l :=
  mem_snd_of_mem_enumFrom (by simpa [List.enum] using he)

theorem mkGroupMatch_teams (mode : TournamentMode) (mid : Nat) (c : List Nat)
    (hc : c.length = (modeParams mode).2.1) :
    (mkGroupMatch mode mid c).team_1 ++ (mkGroupMatch mode mid c).team_2 = c := by
  cases mode
  · simp only [modeParams] at hc
    rcases c with _ | ⟨a, _ | ⟨b, rest⟩⟩ <;> simp_all [mkGroupMatch]
  · simp only [modeParams] at hc
    rcases c with _ | ⟨a, _ | ⟨b, _ | ⟨x, _ | ⟨y, rest⟩⟩⟩⟩ <;> simp_all [mkGroupMatch]

theorem ids_map_recordSatOut (l : List Player) :
    ids (l.map Player.recordSatOut) = ids l := by
  simp [ids, Player.recordSatOut, Function.comp]

theorem gpSorted_perm (tb : Nat → Nat) (t : Tournament) :
    (gpSorted tb t).Perm (gpAvailable t) := by
  unfold gpSorted
  have h := List.perm_insertionSort sortKeyLE
    ((gpAvailable t).map (fun p => (p, tb p.id)))
  have h2 := h.map (fun e : Player × Nat => e.1)
  have h3 : List.map ((fun e : Player × Nat => e.1) ∘ fun p => (p, tb p.id))
      (gpAvailable t) = gpAvailable t := by
    rw [show ((fun e : Player × Nat => e.1) ∘ fun p => (p, tb p.id)) = id from rfl]
    exact List.map_id (gpAvailable t)
  simpa [List.map_map, h3] using h2

theorem gpSorted_length (tb : Nat → Nat) (t : Tournament) :
    (gpSorted tb t).length = (gpAvailable t).length :=
  (gpSorted_perm tb t).length_eq

theorem flatMap_map_list {α β γ : Type} (l : List α) (f : α → β) (g : β → List γ) :
    (l.map f).flatMap g = l.flatMap (fun a => g (f a)) := by
  induction l with
  | nil => rfl
  | cons a l ih => simp only [List.map_cons, List.flatMap_cons, ih]

theorem flatMap_congr_mem {α β : Type} {l : List α} {f g : α → List β}
    (h : ∀ a ∈ l, f a = g a) : l.flatMap f = l.flatMap g := by
  induction l with
  | nil => rfl
  | cons a l ih =>
      simp only [List.flatMap_cons, h a (List.mem_cons_self a l),
        ih (fun x hx => h x (List.mem_cons_of_mem a hx))]

theorem flatMap_eq_flatten_map {α β : Type} (l : List α) (f : α → List β) :
    l.flatMap f = (l.map f).flatten := by
  induction l with
  | nil => rfl
  | cons a l ih => simp only [List.map_cons, List.flatMap_cons, ih, List.flatten_cons]

theorem gpMatches_flatMap (tb : Nat → Nat) (sh : List Player → List Player)
    (t : Tournament) :
    (gpMatches tb sh t).flatMap (fun m => m.team_1 ++ m.team_2) =
      (gpChunks tb sh t).flatten := by
  unfold gpMatches
  rw [flatMap_map_list]
  rw [flatMap_congr_mem (g := fun e : Nat × List Nat => e.2) ?hc]
  case hc =>
    intro e he
    exact mkGroupMatch_teams t.mode (t.next_id + e.1) e.2
      (chunksExact_length_mem (mem_snd_of_mem_enum he))
  rw [flatMap_eq_flatten_map]
  congr 1
  exact List.enum_map_snd (gpChunks tb sh t)

theorem gp_partition_perm (tb : Nat → Nat) (sh : List Player → List Player)
    (t : Tournament) (hsh : ∀ l : List Player, (sh l).Perm l) :
    ((gpMatches tb sh t).flatMap (fun m => m.team_1 ++ m.team_2) ++
      ids (gpUnused tb t)).Perm (ids (gpAvailable t)) := by
  rw [gpMatches_flatMap]
  have hk0 : (modeParams t.mode).2.1 ≠ 0 := by
    cases t.mode <;> simp [modeParams]
  have hkeq : (modeParams t.mode).2.1 = (modeParams t.mode).2.2 := by
    cases t.mode <;> rfl
  have hdvd : (modeParams t.mode).2.1 ∣ (ids (gpPlaying tb sh t)).length := by
    have hlenp : (ids (gpPlaying tb sh t)).length =
        (gpSorted tb t).length - gpExcess tb t := by
      unfold gpPlaying ids
      rw [List.length_map, (hsh _).length_eq, List.length_drop]
    rw [hlenp, hkeq]
    unfold gpExcess
    have := Nat.div_add_mod (gpSorted tb t).length (modeParams t.mode).2.2
    exact ⟨(gpSorted tb t).length / (modeParams t.mode).2.2, by omega⟩
  unfold gpChunks
  rw [chunksExact_join _ hk0 hdvd]
  have hplay : (ids (gpPlaying tb sh t)).Perm
      (ids ((gpSorted tb t).drop (gpExcess tb t))) := by
    unfold gpPlaying ids
    exact (hsh _).map (fun p => p.id)
  have hunused : ids (gpUnused tb t) = ids ((gpSorted tb t).take (gpExcess tb t)) := by
    unfold gpUnused
    exact ids_map_recordSatOut _
  have p1 : (ids (gpPlaying tb sh t) ++ ids (gpUnused tb t)).Perm
      (ids ((gpSorted tb t).drop (gpExcess tb t)) ++
        ids ((gpSorted tb t).take (gpExcess tb t))) := by
    rw [hunused]
    exact hplay.append_right _
  have p2 : (ids ((gpSorted tb t).drop (gpExcess tb t)) ++
      ids ((gpSorted tb t).take (gpExcess tb t))).Perm
      (ids ((gpSorted tb t).take (gpExcess tb t)) ++
        ids ((gpSorted tb t).drop (gpExcess tb t))) := List.perm_append_comm
  have e3 : ids ((gpSorted tb t).take (gpExcess tb t) ++
      (gpSorted tb t).drop (gpExcess tb t)) =
      ids ((gpSorted tb t).take (gpExcess tb t)) ++
        ids ((gpSorted tb t).drop (gpExcess tb t)) := by
    unfold ids
    rw [List.map_append]
  have p3 : (ids ((gpSorted tb t).take (gpExcess tb t) ++
      (gpSorted tb t).drop (gpExcess tb t))).Perm (ids (gpAvailable t)) := by
    rw [List.take_append_drop]
    exact (gpSorted_perm tb t).map (fun p => p.id)
  exact p1.trans (p2.trans (e3 ▸ p3))

/-- C1: a successful `generate_group_play_matches` partitions exactly the
non-eliminated pre-call roster between the match teams and
`unused_players`: the combined id list is a permutation of the
non-eliminated roster ids, has no duplicate (given the data-model
invariant that roster ids are distinct), and the sit-out count is
`n mod k`. -/
theorem C1_generate_partitions_roster (t : Tournament) (tb : Nat → Nat)
    (sh : List Player → List Player) (hsh : ∀ l : List Player, (sh l).Perm l)
    (hs : t.state = TournamentState.groupPlay)
    (hnd : (ids t.players).Nodup)
    (hok : (generate_group_play_matches tb sh t).2 = none) :
    (teamIds (generate_group_play_matches tb sh t).1 ++
      ids (generate_group_play_matches tb sh t).1.unused_players).Perm
      (ids (t.players.filter (fun p => ¬ p.eliminated))) ∧
    (teamIds (generate_group_play_matches tb sh t).1 ++
      ids (generate_group_play_matches tb sh t).1.unused_players).Nodup ∧
    (generate_group_play_matches tb sh t).1.unused_players.length =
      (t.players.filter (fun p => ¬ p.eliminated)).length %
        (modeParams t.mode).2.2 := by
  have h1 : ¬ t.state ≠ TournamentState.groupPlay := by simp [hs]
  by_cases hlen : (gpAvailable t).length < (modeParams t.mode).1
  · exfalso
    unfold generate_group_play_matches at hok
    rw [if_neg h1, if_pos hlen] at hok
    simp at hok
  have hres : generate_group_play_matches tb sh t =
      ({ t with players := gpPlayers tb t,
                matches_ := gpMatches tb sh t,
                unused_players := gpUnused tb t,
                match_results := [],
                next_id := t.next_id + (gpChunks tb sh t).length }, none) := by
    unfold generate_group_play_matches
    rw [if_neg h1, if_neg hlen]
  rw [hres]
  have hperm := gp_partition_perm tb sh t hsh
  refine ⟨hperm, ?_, ?_⟩
  · have hsub : (ids (gpAvailable t)).Sublist (ids t.players) := by
      unfold ids gpAvailable
      exact (List.filter_sublist t.players).map (fun p => p.id)
    exact hperm.nodup_iff.mpr (hnd.sublist hsub)
  · show (gpUnused tb t).length = _
    unfold gpUnused
    rw [List.length_map, List.length_take]
    have hle : gpExcess tb t ≤ (gpSorted tb t).length := by
      unfold gpExcess
      exact Nat.mod_le _ _
    rw [min_eq_left hle]
    unfold gpExcess
    rw [gpSorted_length]
    rfl

/-!
Error-shape lemmas: the only error the stat-application loops can produce
is `PlayerNotFound`.
-/

theorem applyLoserIds_err_shape {ml : Nat} :
    ∀ (pids : List Nat) (t : Tournament) (acc : List Player) (e : TournamentError),
      (applyLoserIds ml pids t acc).2.2 = some e →
      ∃ pid, e = TournamentError.playerNotFound pid := by
  intro pids
  induction pids with
  | nil =>
      intro t acc e h
      simp [applyLoserIds] at h
  | cons pid rest ih =>
      intro t acc e h
      unfold applyLoserIds at h
      rcases hf : findP t.players pid with _ | p
      · simp only [hf] at h
        simp at h
        exact ⟨pid, h.symm⟩
      · simp only [hf] at h
        by_cases hml : ml ≤ p.addLoss.losses
        · rw [if_pos hml] at h
          exact ih _ _ _ h
        · rw [if_neg hml] at h
          exact ih _ _ _ h

theorem applyWinnerIds_err_shape :
    ∀ (pids : List Nat) (t : Tournament) (e : TournamentError),
      (applyWinnerIds pids t).2 = some e →
      ∃ pid, e = TournamentError.playerNotFound pid := by
  intro pids
  induction pids with
  | nil =>
      intro t e h
      simp [applyWinnerIds] at h
  | cons pid rest ih =>
      intro t e h
      unfold applyWinnerIds at h
      rcases hf : findP t.players pid with _ | p
      · simp only [hf] at h
        simp at h
        exact ⟨pid, h.symm⟩
      · simp only [hf] at h
        exact ih _ _ h

theorem apply_match_result_err_shape {t : Tournament} {t1 t2 : List Nat}
    {w : Team} {ml : Nat} {e : TournamentError}
    (h : (apply_match_result t t1 t2 w ml).2 = Except.error e) :
    ∃ pid, e = TournamentError.playerNotFound pid := by
  unfold apply_match_result at h
  rcases w with _ | _
  · rcases hl : applyLoserIds ml t2 t [] with ⟨ta, acca, ea⟩
    rcases ea with _ | ea
    · simp only [hl] at h
      rcases hw : applyWinnerIds t1 ta with ⟨tw, ew⟩
      rcases ew with _ | ew
      · simp only [hw] at h
        simp at h
      · simp only [hw] at h
        simp at h
        subst h
        exact applyWinnerIds_err_shape _ _ _ (by rw [hw])
    · simp only [hl] at h
      simp at h
      subst h
      exact applyLoserIds_err_shape _ _ _ _ (by rw [hl])
  · rcases hl : applyLoserIds ml t1 t [] with ⟨ta, acca, ea⟩
    rcases ea with _ | ea
    · simp only [hl] at h
      rcases hw : applyWinnerIds t2 ta with ⟨tw, ew⟩
      rcases ew with _ | ew
      · simp only [hw] at h
        simp at h
      · simp only [hw] at h
        simp at h
        subst h
        exact applyWinnerIds_err_shape _ _ _ (by rw [hw])
    · simp only [hl] at h
      simp at h
      subst h
      exact applyLoserIds_err_shape _ _ _ _ (by rw [hl])

theorem processMatches_err_shape {ml : Nat} :
    ∀ (md : List (List Nat × List Nat × Team)) (t : Tournament)
      (e : TournamentError),
      (processMatches ml md t).2 = some e →
      ∃ pid, e = TournamentError.playerNotFound pid := by
  intro md
  induction md with
  | nil =>
      intro t e h
      simp [processMatches] at h
  | cons hd rest ih =>
      intro t e h
      unfold processMatches at h
      rcases hd with ⟨t1, t2, w⟩
      rcases ha : apply_match_result t t1 t2 w ml with ⟨ta, ra⟩
      rcases ra with ea | elim
      · simp only [ha] at h
        simp at h
        subst h
        exact apply_match_result_err_shape (by rw [ha])
      · simp only [ha] at h
        exact ih _ _ h

theorem playoffFold_err_shape {f : Player → Player} :
    ∀ (pids : List Nat) (t : Tournament) (e : TournamentError),
      (playoffFold f pids t).2 = some e →
      ∃ pid, e = TournamentError.playerNotFound pid := by
  intro pids
  induction pids with
  | nil =>
      intro t e h
      simp [playoffFold] at h
  | cons pid rest ih =>
      intro t e h
      unfold playoffFold at h
      rcases hu : t.updateAny pid f with _ | t1
      · simp only [hu] at h
        simp at h
        exact ⟨pid, h.symm⟩
      · simp only [hu] at h
        exact ih _ _ h

theorem apply_playoff_err_shape {t : Tournament} {t1 t2 : List Nat} {w : Team}
    {e : TournamentError}
    (h : (apply_playoff_match_result t t1 t2 w).2 = some e) :
    ∃ pid, e = TournamentError.playerNotFound pid := by
  unfold apply_playoff_match_result at h
  rcases hl : playoffFold Player.addLoss
      (match w with | .one => (t1, t2) | .two => (t2, t1)).2 t with ⟨ta, ea⟩
  rcases ea with _ | ea
  · simp only [hl] at h
    exact playoffFold_err_shape _ _ _ h
  · simp only [hl] at h
    simp at h
    subst h
    exact playoffFold_err_shape _ _ _ (by rw [hl])

theorem playoffMatches_err_shape :
    ∀ (md : List (List Nat × List Nat × Team)) (t : Tournament)
      (e : TournamentError),
      (playoffMatches md t).2 = some e →
      ∃ pid, e = TournamentError.playerNotFound pid := by
  intro md
  induction md with
  | nil =>
      intro t e h
      simp [playoffMatches] at h
  | cons hd rest ih =>
      intro t e h
      unfold playoffMatches at h
      rcases hd with ⟨t1, t2, w⟩
      rcases ha : apply_playoff_match_result t t1 t2 w with ⟨ta, ra⟩
      rcases ra with _ | ea
      · simp only [ha] at h
        exact ih _ _ h
      · simp only [ha] at h
        simp at h
        subst h
        exact apply_playoff_err_shape (by rw [ha])

/-!
Atomicity case lemmas: each operation either leaves the tournament
unchanged or succeeds — except the three result-processing operations,
which can also fail with `PlayerNotFound` after partial mutation.
-/

theorem add_player_cases (t : Tournament) (name : String) :
    (t.add_player name).1 = t ∨ (t.add_player name).2 = none := by
  unfold Tournament.add_player
  split <;>
    first
      | (simp only []
         split_ifs <;> simp)
      | simp

theorem remove_player_cases (t : Tournament) (pid : Nat) :
    (t.remove_player pid).1 = t ∨ (t.remove_player pid).2 = none := by
  unfold Tournament.remove_player
  split_ifs
  · simp
  · split <;> simp

theorem set_max_losses_cases (t : Tournament) (n : Nat) :
    (t.set_max_losses n).1 = t ∨ (t.set_max_losses n).2 = none := by
  unfold Tournament.set_max_losses
  split_ifs <;> simp

theorem set_player_losses_cases (t : Tournament) (pid n : Nat) :
    (t.set_player_losses pid n).1 = t ∨ (t.set_player_losses pid n).2 = none := by
  unfold Tournament.set_player_losses
  split_ifs
  · simp
  · simp only []
    split <;> simp

theorem eliminate_player_cases (t : Tournament) (pid : Nat) :
    (t.eliminate_player pid).1 = t ∨ (t.eliminate_player pid).2 = none := by
  unfold Tournament.eliminate_player
  split_ifs
  · simp
  · split <;> simp

theorem restart_tournament_cases (t : Tournament) :
    t.restart_tournament.1 = t ∨ t.restart_tournament.2 = none := by
  unfold Tournament.restart_tournament
  split_ifs <;> simp

theorem start_tournament_cases (t : Tournament) :
    (start_tournament t).1 = t ∨ (start_tournament t).2 = none := by
  unfold start_tournament
  simp only []
  split_ifs <;> simp

theorem set_match_winner_cases (t : Tournament) (mid : Nat) (team : Team) :
    (t.set_match_winner mid team).1 = t ∨ (t.set_match_winner mid team).2 = none := by
  unfold Tournament.set_match_winner
  split_ifs <;> simp

theorem generate_group_play_cases (tb : Nat → Nat) (sh : List Player → List Player)
    (t : Tournament) :
    (generate_group_play_matches tb sh t).1 = t ∨
      (generate_group_play_matches tb sh t).2 = none := by
  unfold generate_group_play_matches
  split_ifs <;> simp

theorem add_players_back_cases (t : Tournament) (pids : List Nat) :
    (add_players_back_from_last_eliminated t pids).1 = t ∨
      (add_players_back_from_last_eliminated t pids).2 = none := by
  unfold add_players_back_from_last_eliminated
  simp only []
  split_ifs <;>
    first
      | (split <;> simp)
      | simp

theorem start_semi_finals_cases (t : Tournament) :
    (start_semi_finals t).1 = t ∨ (start_semi_finals t).2 = none := by
  unfold start_semi_finals
  split_ifs <;> simp

theorem generate_semi_finals_cases (sh : List Player → List Player)
    (t : Tournament) :
    (generate_semi_final_matches sh t).1 = t ∨
      (generate_semi_final_matches sh t).2 = none := by
  unfold generate_semi_final_matches
  split_ifs <;> simp

theorem set_finals_match_winner_cases (t : Tournament) (mid : Nat) (team : Team) :
    (set_finals_match_winner t mid team).1 = t ∨
      (set_finals_match_winner t mid team).2 = none := by
  unfold set_finals_match_winner
  split_ifs <;> simp

theorem process_group_play_cases (t : Tournament) :
    (process_group_play_results t).1 = t ∨
      (process_group_play_results t).2 = none ∨
      ∃ pid, (process_group_play_results t).2 =
        some (TournamentError.playerNotFound pid) := by
  unfold process_group_play_results
  split_ifs
  · left
    rfl
  · left
    rfl
  · simp only []
    split
    · rename_i t1 e heq
      right
      right
      obtain ⟨pid, hpid⟩ := processMatches_err_shape _ _ _ (by rw [heq])
      exact ⟨pid, by simp [hpid]⟩
    · right
      left
      split_ifs <;> rfl

theorem process_semi_final_cases (t : Tournament) :
    (process_semi_final_results t).1 = t ∨
      (process_semi_final_results t).2 = none ∨
      ∃ pid, (process_semi_final_results t).2 =
        some (TournamentError.playerNotFound pid) := by
  unfold process_semi_final_results
  split_ifs
  · left
    rfl
  · left
    rfl
  · left
    rfl
  · simp only []
    split
    · rename_i t1 e heq
      right
      right
      obtain ⟨pid, hpid⟩ := playoffMatches_err_shape _ _ _ (by rw [heq])
      exact ⟨pid, by simp [hpid]⟩
    · right
      left
      rfl

theorem process_finals_cases (t : Tournament) :
    (process_finals_results t).1 = t ∨
      (process_finals_results t).2 = none ∨
      ∃ pid, (process_finals_results t).2 =
        some (TournamentError.playerNotFound pid) := by
  unfold process_finals_results
  split_ifs
  · left
    rfl
  · left
    rfl
  · simp only []
    split
    · left
      rfl
    · rename_i w hw
      split
      · rename_i t1 e heq
        right
        right
        obtain ⟨pid, hpid⟩ := apply_playoff_err_shape (by rw [heq])
        exact ⟨pid, by simp [hpid]⟩
      · right
        left
        rfl

/-- C3 amended: every core operation other than the three result-processing
operations leaves the tournament unchanged whenever it returns an error,
and the result-processing operations (`process_group_play_results`,
`process_semi_final_results`, `process_finals_results`) leave it unchanged
on every error other than `PlayerNotFound`; a `PlayerNotFound` failure of
those three may keep a partial mutation (the C3 counterexample shows it
does). -/
theorem C3_amended_atomicity :
    (∀ t name e, (Tournament.add_player t name).2 = some e →
      (Tournament.add_player t name).1 = t) ∧
    (∀ t pid e, (Tournament.remove_player t pid).2 = some e →
      (Tournament.remove_player t pid).1 = t) ∧
    (∀ t n e, (Tournament.set_max_losses t n).2 = some e →
      (Tournament.set_max_losses t n).1 = t) ∧
    (∀ t pid n e, (Tournament.set_player_losses t pid n).2 = some e →
      (Tournament.set_player_losses t pid n).1 = t) ∧
    (∀ t pid e, (Tournament.eliminate_player t pid).2 = some e →
      (Tournament.eliminate_player t pid).1 = t) ∧
    (∀ t e, (Tournament.restart_tournament t).2 = some e →
      (Tournament.restart_tournament t).1 = t) ∧
    (∀ t e, (start_tournament t).2 = some e → (start_tournament t).1 = t) ∧
    (∀ t mid team e, (Tournament.set_match_winner t mid team).2 = some e →
      (Tournament.set_match_winner t mid team).1 = t) ∧
    (∀ t tb sh e, (generate_group_play_matches tb sh t).2 = some e →
      (generate_group_play_matches tb sh t).1 = t) ∧
    (∀ t pids e, (add_players_back_from_last_eliminated t pids).2 = some e →
      (add_players_back_from_last_eliminated t pids).1 = t) ∧
    (∀ t e, (start_semi_finals t).2 = some e → (start_semi_finals t).1 = t) ∧
    (∀ t sh e, (generate_semi_final_matches sh t).2 = some e →
      (generate_semi_final_matches sh t).1 = t) ∧
    (∀ t mid team e, (set_finals_match_winner t mid team).2 = some e →
      (set_finals_match_winner t mid team).1 = t) ∧
    (∀ t e, (process_group_play_results t).2 = some e →
      (∀ pid, e ≠ TournamentError.playerNotFound pid) →
      (process_group_play_results t).1 = t) ∧
    (∀ t e, (process_semi_final_results t).2 = some e →
      (∀ pid, e ≠ TournamentError.playerNotFound pid) →
      (process_semi_final_results t).1 = t) ∧
    (∀ t e, (process_finals_results t).2 = some e →
      (∀ pid, e ≠ TournamentError.playerNotFound pid) →
      (process_finals_results t).1 = t) := by
  refine ⟨?_, ?_, ?_, ?_, ?_, ?_, ?_, ?_, ?_, ?_, ?_, ?_, ?_, ?_, ?_, ?_⟩
  · intro t name e h
    rcases add_player_cases t name with hc | hc
    · exact hc
    · rw [hc] at h
      exact absurd h (by simp)
  · intro t pid e h
    rcases remove_player_cases t pid with hc | hc
    · exact hc
    · rw [hc] at h
      exact absurd h (by simp)
  · intro t n e h
    rcases set_max_losses_cases t n with hc | hc
    · exact hc
    · rw [hc] at h
      exact absurd h (by simp)
  · intro t pid n e h
    rcases set_player_losses_cases t pid n with hc | hc
    · exact hc
    · rw [hc] at h
      exact absurd h (by simp)
  · intro t pid e h
    rcases eliminate_player_cases t pid with hc | hc
    · exact hc
    · rw [hc] at h
      exact absurd h (by simp)
  · intro t e h
    rcases restart_tournament_cases t with hc | hc
    · exact hc
    · rw [hc] at h
      exact absurd h (by simp)
  · intro t e h
    rcases start_tournament_cases t with hc | hc
    · exact hc
    · rw [hc] at h
      exact absurd h (by simp)
  · intro t mid team e h
    rcases set_match_winner_cases t mid team with hc | hc
    · exact hc
    · rw [hc] at h
      exact absurd h (by simp)
  · intro t tb sh e h
    rcases generate_group_play_cases tb sh t with hc | hc
    · exact hc
    · rw [hc] at h
      exact absurd h (by simp)
  · intro t pids e h
    rcases add_players_back_cases t pids with hc | hc
    · exact hc
    · rw [hc] at h
      exact absurd h (by simp)
  · intro t e h
    rcases start_semi_finals_cases t with hc | hc
    · exact hc
    · rw [hc] at h
      exact absurd h (by simp)
  · intro t sh e h
    rcases generate_semi_finals_cases sh t with hc | hc
    · exact hc
    · rw [hc] at h
      exact absurd h (by simp)
  · intro t mid team e h
    rcases set_finals_match_winner_cases t mid team with hc | hc
    · exact hc
    · rw [hc] at h
      exact absurd h (by simp)
  · intro t e h hnf
    rcases process_group_play_cases t with hc | hc | ⟨pid, hc⟩
    · exact hc
    · rw [hc] at h
      exact absurd h (by simp)
    · rw [hc] at h
      exact absurd (Option.some.inj h).symm (hnf pid)
  · intro t e h hnf
    rcases process_semi_final_cases t with hc | hc | ⟨pid, hc⟩
    · exact hc
    · rw [hc] at h
      exact absurd h (by simp)
    · rw [hc] at h
      exact absurd (Option.some.inj h).symm (hnf pid)
  · intro t e h hnf
    rcases process_finals_cases t with hc | hc | ⟨pid, hc⟩
    · exact hc
    · rw [hc] at h
      exact absurd h (by simp)
    · rw [hc] at h
      exact absurd (Option.some.inj h).symm (hnf pid)

/-- Witness for the amended C3: adding an empty name fails and leaves the
tournament unchanged. -/
theorem C3_amended_atomicity_witness : (Tournament.add_player exT0 "").1 = exT0 :=
  C3_amended_atomicity.1 exT0 "" TournamentError.invalidState (by decide)

/-!
Pointwise lemmas about `updateFirstP` and `findP`, used by the
result-processing proofs.  `updateFirstP` rewrites exactly the entry that
`findP` returns.
-/

theorem findP_cons (p : Player) (rest : List Player) (pid : Nat) :
    findP (p :: rest) pid =
      if p.id == pid then some p else findP rest pid := by
  unfold findP
  rw [List.find?_cons]
  cases hb : (p.id == pid) <;> simp [hb]

theorem updateFirstP_length (ps : List Player) (pid : Nat) (f : Player → Player) :
    (updateFirstP ps pid f).length = ps.length := by
  induction ps with
  | nil => rfl
  | cons p rest ih =>
      unfold updateFirstP
      split_ifs <;> simp [ih]

theorem updateFirstP_ids :
    ∀ (ps : List Player) (pid : Nat) (f : Player → Player) (p : Player),
      findP ps pid = some p → (f p).id = p.id →
      ids (updateFirstP ps pid f) = ids ps := by
  intro ps
  induction ps with
  | nil =>
      intro pid f p hfind
      simp [findP] at hfind
  | cons a rest ih =>
      intro pid f p hfind hid
      rw [findP_cons] at hfind
      unfold updateFirstP
      split_ifs with h1
      · rw [if_pos h1] at hfind
        obtain rfl := Option.some.inj hfind
        simp [ids, hid]
      · rw [if_neg h1] at hfind
        have := ih pid f p hfind hid
        unfold ids at this ⊢
        simp only [List.map_cons]
        rw [this]

theorem findP_updateFirstP_ne :
    ∀ (ps : List Player) (pid q : Nat) (f : Player → Player) (p : Player),
      findP ps pid = some p → (f p).id = p.id → q ≠ pid →
      findP (updateFirstP ps pid f) q = findP ps q := by
  intro ps
  induction ps with
  | nil =>
      intro pid q f p hfind
      simp [findP] at hfind
  | cons a rest ih =>
      intro pid q f p hfind hid hq
      rw [findP_cons] at hfind
      unfold updateFirstP
      split_ifs with h1
      · rw [if_pos h1] at hfind
        obtain rfl := Option.some.inj hfind
        have hpid : a.id = pid := by simpa using h1
        have hq2 : (a.id == q) = false :=
          beq_eq_false_iff_ne.mpr (by rw [hpid]; exact Ne.symm hq)
        have hq1 : ((f a).id == q) = false := by rw [hid]; exact hq2
        rw [findP_cons, findP_cons, hq1, hq2]
        simp
      · rw [if_neg h1] at hfind
        rw [findP_cons, findP_cons]
        split_ifs with h2
        · rfl
        · exact ih pid q f p hfind hid hq

theorem findP_updateFirstP_self :
    ∀ (ps : List Player) (pid : Nat) (f : Player → Player) (p : Player),
      findP ps pid = some p → (f p).id = p.id →
      findP (updateFirstP ps pid f) pid = some (f p) := by
  intro ps
  induction ps with
  | nil =>
      intro pid f p hfind
      simp [findP] at hfind
  | cons a rest ih =>
      intro pid f p hfind hid
      rw [findP_cons] at hfind
      unfold updateFirstP
      split_ifs with h1
      · rw [if_pos h1] at hfind
        obtain rfl := Option.some.inj hfind
        rw [findP_cons]
        have hpid : a.id = pid := by simpa using h1
        rw [if_pos (show ((f a).id == pid) = true by simp [hid, hpid])]
      · rw [if_neg h1] at hfind
        rw [findP_cons, if_neg h1]
        exact ih pid f p hfind hid

theorem countP_updateFirstP (pred : Player → Bool) :
    ∀ (ps : List Player) (pid : Nat) (f : Player → Player) (p : Player),
      findP ps pid = some p →
      (updateFirstP ps pid f).countP pred + (if pred p then 1 else 0) =
        ps.countP pred + (if pred (f p) then 1 else 0) := by
  intro ps
  induction ps with
  | nil =>
      intro pid f p hfind
      simp [findP] at hfind
  | cons a rest ih =>
      intro pid f p hfind
      rw [findP_cons] at hfind
      unfold updateFirstP
      by_cases h1 : (a.id == pid) = true
      · rw [if_pos h1] at hfind ⊢
        obtain rfl := Option.some.inj hfind
        rw [List.countP_cons, List.countP_cons]
        omega
      · rw [if_neg h1] at hfind ⊢
        rw [List.countP_cons, List.countP_cons]
        have := ih pid f p hfind
        omega

theorem loseStep_id (ml : Nat) (p : Player) : (loseStep ml p).id = p.id := by
  unfold loseStep Player.addLoss Player.eliminate
  simp only []
  split_ifs <;> rfl

theorem loseStep_flag_of_le {ml : Nat} {p : Player} (h : ml ≤ p.addLoss.losses) :
    (loseStep ml p).eliminated = true := by
  unfold loseStep Player.eliminate
  rw [if_pos h]

theorem loseStep_flag_of_lt {ml : Nat} {p : Player} (h : ¬ ml ≤ p.addLoss.losses) :
    (loseStep ml p).eliminated = p.eliminated := by
  unfold loseStep
  rw [if_neg h]
  rfl

/-- Roster bookkeeping through the losing-team loop of `apply_match_result`:
on success only `players` changes, roster ids are unchanged, the flagged
count grows by exactly the number of collected eliminations, and entries
outside the processed ids are untouched. -/
theorem applyLoserIds_spec {ml : Nat} :
    ∀ (pids : List Nat) (t : Tournament) (acc : List Player)
      (t1 : Tournament) (acc1 : List Player),
      applyLoserIds ml pids t acc = (t1, acc1, none) →
      pids.Nodup →
      (∀ pid ∈ pids, ∀ p, findP t.players pid = some p → p.eliminated = false) →
      t1 = { t with players := t1.players } ∧
      ids t1.players = ids t.players ∧
      t1.players.countP (fun p => p.eliminated) + acc.length =
        t.players.countP (fun p => p.eliminated) + acc1.length ∧
      (∀ q, q ∉ pids → findP t1.players q = findP t.players q) := by
  intro pids
  induction pids with
  | nil =>
      intro t acc t1 acc1 hrun hnd hun
      unfold applyLoserIds at hrun
      simp only [Prod.mk.injEq] at hrun
      obtain ⟨h1, h2, -⟩ := hrun
      subst h1
      subst h2
      exact ⟨rfl, rfl, rfl, fun q _ => rfl⟩
  | cons pid rest ih =>
      intro t acc t1 acc1 hrun hnd hun
      unfold applyLoserIds at hrun
      rcases hf : findP t.players pid with _ | p
      · simp only [hf] at hrun
        simp at hrun
      · simp only [hf] at hrun
        have hpflag : p.eliminated = false :=
          hun pid (List.mem_cons_self pid rest) p hf
        have hid : ((fun _ : Player => loseStep ml p) p).id = p.id := loseStep_id ml p
        obtain ⟨hpid_not, hnd2⟩ := List.nodup_cons.mp hnd
        have hun2 : ∀ q ∈ rest, ∀ p2,
            findP (updateFirstP t.players pid (fun _ => loseStep ml p)) q = some p2 →
            p2.eliminated = false := by
          intro q hq p2 hfq
          have hne : q ≠ pid := fun hh => hpid_not (hh ▸ hq)
          rw [findP_updateFirstP_ne t.players pid q (fun _ : Player => loseStep ml p) p hf hid hne] at hfq
          exact hun q (List.mem_cons_of_mem pid hq) p2 hfq
        have hcnt := countP_updateFirstP (fun p => p.eliminated) t.players pid
          (fun _ => loseStep ml p) p hf
        have hidsu := updateFirstP_ids t.players pid (fun _ => loseStep ml p) p hf hid
        by_cases hml : ml ≤ p.addLoss.losses
        · rw [if_pos hml] at hrun
          obtain ⟨hrec, hridss, hrcnt, hrframe⟩ := ih _ _ _ _ hrun hnd2 hun2
          refine ⟨?_, ?_, ?_, ?_⟩
          · rw [hrec]
          · rw [hridss]
            exact hidsu
          · simp only [] at hcnt
            simp only [hpflag, loseStep_flag_of_le hml] at hcnt
            simp at hcnt
            simp only [List.length_append, List.length_cons, List.length_nil] at hrcnt
            try dsimp only at hrcnt
            omega
          · intro q hq
            have hq1 : q ∉ rest := fun hh => hq (List.mem_cons_of_mem pid hh)
            have hq2 : q ≠ pid := fun hh => hq (hh ▸ List.mem_cons_self pid rest)
            rw [hrframe q hq1]
            exact findP_updateFirstP_ne t.players pid q (fun _ : Player => loseStep ml p) p hf hid hq2
        · rw [if_neg hml] at hrun
          obtain ⟨hrec, hridss, hrcnt, hrframe⟩ := ih _ _ _ _ hrun hnd2 hun2
          refine ⟨?_, ?_, ?_, ?_⟩
          · rw [hrec]
          · rw [hridss]
            exact hidsu
          · simp only [] at hcnt
            simp only [loseStep_flag_of_lt hml, hpflag] at hcnt
            simp at hcnt
            try dsimp only at hrcnt
            omega
          · intro q hq
            have hq1 : q ∉ rest := fun hh => hq (List.mem_cons_of_mem pid hh)
            have hq2 : q ≠ pid := fun hh => hq (hh ▸ List.mem_cons_self pid rest)
            rw [hrframe q hq1]
            exact findP_updateFirstP_ne t.players pid q (fun _ : Player => loseStep ml p) p hf hid hq2

/-- Roster bookkeeping through the winning-team loop: on success only
`players` changes, ids and flagged count are unchanged, and entries outside
the processed ids are untouched. -/
theorem applyWinnerIds_spec :
    ∀ (pids : List Nat) (t : Tournament) (t1 : Tournament),
      applyWinnerIds pids t = (t1, none) →
      t1 = { t with players := t1.players } ∧
      ids t1.players = ids t.players ∧
      t1.players.countP (fun p => p.eliminated) =
        t.players.countP (fun p => p.eliminated) ∧
      (∀ q, q ∉ pids → findP t1.players q = findP t.players q) := by
  intro pids
  induction pids with
  | nil =>
      intro t t1 hrun
      unfold applyWinnerIds at hrun
      have h1 : t = t1 := by
        simp only [Prod.mk.injEq] at hrun
        exact hrun.1
      subst h1
      exact ⟨rfl, rfl, rfl, fun q _ => rfl⟩
  | cons pid rest ih =>
      intro t t1 hrun
      unfold applyWinnerIds at hrun
      rcases hf : findP t.players pid with _ | p
      · simp only [hf] at hrun
        simp at hrun
      · simp only [hf] at hrun
        have hid : (Player.addWin p).id = p.id := rfl
        have hcnt := countP_updateFirstP (fun p => p.eliminated) t.players pid
          Player.addWin p hf
        have hidsu := updateFirstP_ids t.players pid Player.addWin p hf hid
        obtain ⟨hrec, hridss, hrcnt, hrframe⟩ := ih _ _ hrun
        refine ⟨?_, ?_, ?_, ?_⟩
        · rw [hrec]
        · rw [hridss]
          exact hidsu
        · simp only [] at hcnt
          simp only [Player.addWin] at hcnt
          try dsimp only at hrcnt
          rw [hrcnt]
          omega
        · intro q hq
          have hq1 : q ∉ rest := fun hh => hq (List.mem_cons_of_mem pid hh)
          have hq2 : q ≠ pid := fun hh => hq (hh ▸ List.mem_cons_self pid rest)
          rw [hrframe q hq1]
          exact findP_updateFirstP_ne t.players pid q Player.addWin p hf hid hq2

/-- Roster bookkeeping for one processed match: on success only `players`
changes, ids are unchanged, the flagged count grows by exactly the number
of returned eliminations, and players outside the two teams are
untouched. -/
theorem apply_match_result_spec {t : Tournament} {team_1 team_2 : List Nat}
    {w : Team} {ml : Nat} {t2 : Tournament} {elim : List Player}
    (hrun : apply_match_result t team_1 team_2 w ml = (t2, Except.ok elim))
    (hnd : (team_1 ++ team_2).Nodup)
    (hun : ∀ pid ∈ team_1 ++ team_2, ∀ p, findP t.players pid = some p →
      p.eliminated = false) :
    t2 = { t with players := t2.players } ∧
    ids t2.players = ids t.players ∧
    t2.players.countP (fun p => p.eliminated) =
      t.players.countP (fun p => p.eliminated) + elim.length ∧
    (∀ q, q ∉ team_1 ++ team_2 → findP t2.players q = findP t.players q) := by
  unfold apply_match_result at hrun
  rcases w with _ | _
  · rcases hl : applyLoserIds ml team_2 t [] with ⟨ta, acca, ea⟩
    rcases ea with _ | ea
    · simp only [hl] at hrun
      rcases hw : applyWinnerIds team_1 ta with ⟨tw, ew⟩
      rcases ew with _ | ew
      · simp only [hw, Prod.mk.injEq, Except.ok.injEq] at hrun
        obtain ⟨rfl, rfl⟩ := hrun
        obtain ⟨hAl, hBl, hCl, hDl⟩ := applyLoserIds_spec team_2 t [] ta acca hl
          (List.Nodup.of_append_right hnd)
          (fun pid hpid p hp => hun pid (List.mem_append_right team_1 hpid) p hp)
        obtain ⟨hAw, hBw, hCw, hDw⟩ := applyWinnerIds_spec team_1 ta tw hw
        refine ⟨?_, ?_, ?_, ?_⟩
        · have hh : tw = { ta with players := tw.players } := hAw
          rw [hAl] at hh
          exact hh
        · rw [hBw, hBl]
        · rw [hCw]
          simp only [List.length_nil, Nat.add_zero] at hCl
          exact hCl
        · intro q hq
          rw [hDw q (fun hh => hq (List.mem_append_left team_2 hh))]
          exact hDl q (fun hh => hq (List.mem_append_right team_1 hh))
      · simp only [hw] at hrun
        simp at hrun
    · simp only [hl] at hrun
      simp at hrun
  · rcases hl : applyLoserIds ml team_1 t [] with ⟨ta, acca, ea⟩
    rcases ea with _ | ea
    · simp only [hl] at hrun
      rcases hw : applyWinnerIds team_2 ta with ⟨tw, ew⟩
      rcases ew with _ | ew
      · simp only [hw, Prod.mk.injEq, Except.ok.injEq] at hrun
        obtain ⟨rfl, rfl⟩ := hrun
        obtain ⟨hAl, hBl, hCl, hDl⟩ := applyLoserIds_spec team_1 t [] ta acca hl
          (List.Nodup.of_append_left hnd)
          (fun pid hpid p hp => hun pid (List.mem_append_left team_2 hpid) p hp)
        obtain ⟨hAw, hBw, hCw, hDw⟩ := applyWinnerIds_spec team_2 ta tw hw
        refine ⟨?_, ?_, ?_, ?_⟩
        · have hh : tw = { ta with players := tw.players } := hAw
          rw [hAl] at hh
          exact hh
        · rw [hBw, hBl]
        · rw [hCw]
          simp only [List.length_nil, Nat.add_zero] at hCl
          exact hCl
        · intro q hq
          rw [hDw q (fun hh => hq (List.mem_append_right team_1 hh))]
          exact hDl q (fun hh => hq (List.mem_append_left team_2 hh))
      · simp only [hw] at hrun
        simp at hrun
    · simp only [hl] at hrun
      simp at hrun

/-- Roster bookkeeping for a whole processed round: with all mentioned
players pairwise distinct and unflagged on entry, a successful
`processMatches` keeps `eliminated_players` and the mode, keeps the roster
ids, and flags exactly as many roster players as it appends to
`last_eliminated_players`. -/
theorem processMatches_spec {ml : Nat} :
    ∀ (md : List (List Nat × List Nat × Team)) (t : Tournament)
      (t1 : Tournament),
      processMatches ml md t = (t1, none) →
      (md.flatMap (fun x => x.1 ++ x.2.1)).Nodup →
      (∀ pid ∈ md.flatMap (fun x => x.1 ++ x.2.1), ∀ p,
        findP t.players pid = some p → p.eliminated = false) →
      t1.eliminated_players = t.eliminated_players ∧
      t1.mode = t.mode ∧
      t1.state = t.state ∧
      t1.players.countP (fun p => p.eliminated) +
          t.last_eliminated_players.length =
        t.players.countP (fun p => p.eliminated) +
          t1.last_eliminated_players.length ∧
      ids t1.players = ids t.players := by
  intro md
  induction md with
  | nil =>
      intro t t1 hrun hnd hun
      unfold processMatches at hrun
      simp only [Prod.mk.injEq] at hrun
      obtain ⟨h1, -⟩ := hrun
      subst h1
      exact ⟨rfl, rfl, rfl, rfl, rfl⟩
  | cons hd rest ih =>
      intro t t1 hrun hnd hun
      unfold processMatches at hrun
      rcases hd with ⟨tm1, tm2, w⟩
      rcases ha : apply_match_result t tm1 tm2 w ml with ⟨ta, ra⟩
      rcases ra with ea | elim
      · simp only [ha] at hrun
        simp at hrun
      · simp only [ha] at hrun
        have hsplit : ((tm1 ++ tm2) ++ rest.flatMap (fun x => x.1 ++ x.2.1)).Nodup := by
          simpa [List.flatMap_cons] using hnd
        obtain ⟨hnd1, hnd2, hdisj⟩ := List.nodup_append.mp hsplit
        have hun1 : ∀ pid ∈ tm1 ++ tm2, ∀ p, findP t.players pid = some p →
            p.eliminated = false := by
          intro pid hpid p hp
          exact hun pid
            (by simp only [List.flatMap_cons]; exact List.mem_append_left _ hpid) p hp
        obtain ⟨hA, hB, hC, hD⟩ := apply_match_result_spec ha hnd1 hun1
        have hun2 : ∀ pid ∈ rest.flatMap (fun x => x.1 ++ x.2.1), ∀ p,
            findP ta.players pid = some p → p.eliminated = false := by
          intro pid hpid p hp
          have hnotin : pid ∉ tm1 ++ tm2 := fun hh => hdisj hh hpid
          rw [hD pid hnotin] at hp
          exact hun pid
            (by simp only [List.flatMap_cons]; exact List.mem_append_right _ hpid) p hp
        obtain ⟨i1, i2, i3, i4, i5⟩ := ih _ _ hrun hnd2 (by
          intro pid hpid p hp
          exact hun2 pid hpid p hp)
        have hta_elim : ta.eliminated_players = t.eliminated_players := by
          rw [hA]
        have hta_mode : ta.mode = t.mode := by rw [hA]
        have hta_state : ta.state = t.state := by rw [hA]
        have hta_last : ta.last_eliminated_players = t.last_eliminated_players := by
          rw [hA]
        refine ⟨?_, ?_, ?_, ?_, ?_⟩
        · rw [i1, hta_elim]
        · rw [i2, hta_mode]
        · rw [i3, hta_state]
        · have hlen : (ta.last_eliminated_players ++ elim).length =
              ta.last_eliminated_players.length + elim.length := by
            simp
          dsimp only at i4
          rw [hlen, hta_last] at i4
          omega
        · rw [i5, hB]

/-- C4 amended: in GroupPlay, when no roster player is already flagged
eliminated and each player is mentioned at most once across the round's
team slots (both hold for rounds produced by
`generate_group_play_matches`), a successful `process_group_play_results`
empties `matches`, `unused_players` and `match_results`, and preserves
`players.length + eliminated_players.length`. -/
theorem C4_amended_process_preserves_total (t : Tournament)
    (hs : t.state = TournamentState.groupPlay)
    (hflag : ∀ p ∈ t.players, p.eliminated = false)
    (hndt : (teamIds t).Nodup)
    (hok : (process_group_play_results t).2 = none) :
    (process_group_play_results t).1.matches_ = [] ∧
    (process_group_play_results t).1.unused_players = [] ∧
    (process_group_play_results t).1.match_results = [] ∧
    (process_group_play_results t).1.players.length +
        (process_group_play_results t).1.eliminated_players.length =
      t.players.length + t.eliminated_players.length := by
  have h1 : ¬ t.state ≠ TournamentState.groupPlay := by simp [hs]
  unfold process_group_play_results at hok ⊢
  rw [if_neg h1] at hok ⊢
  by_cases h2 : (t.matches_.any fun m => (mapLookup t.match_results m.id).isNone) = true
  · rw [if_pos h2] at hok
    simp at hok
  rw [if_neg h2] at hok ⊢
  simp only [] at hok ⊢
  rcases hp : processMatches t.max_losses
      (t.matches_.map (fun m =>
        (m.team_1, m.team_2, (mapLookup t.match_results m.id).getD Team.one)))
      { t with last_eliminated_players := [] } with ⟨t1, e1⟩
  rcases e1 with _ | e1
  · simp only [hp] at hok ⊢
    have hmd : ((t.matches_.map (fun m =>
        (m.team_1, m.team_2, (mapLookup t.match_results m.id).getD Team.one))).flatMap
          (fun x => x.1 ++ x.2.1)) = teamIds t := by
      rw [flatMap_map_list]
      rfl
    have hspec := processMatches_spec
      (t.matches_.map (fun m =>
        (m.team_1, m.team_2, (mapLookup t.match_results m.id).getD Team.one)))
      { t with last_eliminated_players := [] } t1 hp
      (by rw [hmd]; exact hndt)
      (by
        rw [hmd]
        intro pid hpid p hpf
        exact hflag p (List.mem_of_find?_eq_some hpf))
    obtain ⟨i1, i2, i3, i4, i5⟩ := hspec
    dsimp only at i1 i2 i3 i4 i5
    have hcnt0 : t.players.countP (fun p => p.eliminated) = 0 :=
      List.countP_eq_zero.mpr (by
        intro p hpmem
        simp [hflag p hpmem])
    have hcnt1 : t1.players.countP (fun p => p.eliminated) =
        t1.last_eliminated_players.length := by
      simp only [List.length_nil] at i4
      omega
    have hlen1 : t1.players.length = t.players.length := by
      have := congrArg List.length i5
      simpa [ids] using this
    have hh := List.length_eq_countP_add_countP
      (p := fun p : Player => p.eliminated) t1.players
    have hfl := (List.countP_eq_length_filter
      (p := fun a : Player => ¬ a.eliminated) t1.players).symm
    split_ifs with h3
    · refine ⟨rfl, rfl, rfl, ?_⟩
      simp only [List.length_append, i1]
      rw [hfl]
      omega
    · refine ⟨rfl, rfl, rfl, ?_⟩
      simp only [List.length_append, i1]
      rw [hfl]
      omega
  · simp only [hp] at hok
    simp at hok

/-- Witness for the amended C4 at the concrete recorded round. -/
theorem C4_amended_process_preserves_total_witness :
    (process_group_play_results exT5).1.players.length +
        (process_group_play_results exT5).1.eliminated_players.length =
      exT5.players.length + exT5.eliminated_players.length :=
  (C4_amended_process_preserves_total exT5 (by decide) (by decide) (by decide)
    (by decide)).2.2.2

theorem findP_isSome_of_mem {ps : List Player} {pid : Nat}
    (h : pid ∈ ids ps) : (findP ps pid).isSome := by
  induction ps with
  | nil => simp [ids] at h
  | cons a rest ih =>
      rw [findP_cons]
      by_cases ha : (a.id == pid) = true
      · rw [if_pos ha]
        rfl
      · rw [if_neg ha]
        apply ih
        simp only [ids, List.map_cons, List.mem_cons] at h
        rcases h with h | h
        · exact absurd (by simp [h]) ha
        · exact h

/-- A playoff stat loop applied to ids that are all in the roster succeeds,
changes only the roster entries (pointwise, keeping ids), and touches no
other field. -/
theorem playoffFold_total {f : Player → Player} (hfid : ∀ p, (f p).id = p.id) :
    ∀ (pids : List Nat) (t : Tournament),
      (∀ pid ∈ pids, pid ∈ ids t.players) →
      ∃ t1, playoffFold f pids t = (t1, none) ∧
        t1 = { t with players := t1.players } ∧
        ids t1.players = ids t.players := by
  intro pids
  induction pids with
  | nil =>
      intro t hall
      exact ⟨t, rfl, rfl, rfl⟩
  | cons pid rest ih =>
      intro t hall
      have hmem : pid ∈ ids t.players := hall pid (List.mem_cons_self pid rest)
      have hsome : (findP t.players pid).isSome := findP_isSome_of_mem hmem
      rcases hfp : findP t.players pid with _ | p
      · rw [hfp] at hsome
        simp at hsome
      have hupd : t.updateAny pid f =
          some { t with players := updateFirstP t.players pid f } := by
        unfold Tournament.updateAny
        rw [if_pos (by rw [hfp]; rfl)]
      have hids : ids (updateFirstP t.players pid f) = ids t.players :=
        updateFirstP_ids t.players pid f p hfp (hfid p)
      obtain ⟨t1, hrun1, hopc, hids1⟩ := ih
        { t with players := updateFirstP t.players pid f }
        (by
          intro q hq
          dsimp only
          rw [hids]
          exact hall q (List.mem_cons_of_mem pid hq))
      refine ⟨t1, ?_, ?_, ?_⟩
      · unfold playoffFold
        rw [hupd]
        exact hrun1
      · rw [hopc]
      · rw [hids1]
        exact hids

/-- One playoff match whose participants are all in the roster processes
successfully and changes only the roster entries. -/
theorem apply_playoff_total {team_1 team_2 : List Nat} {w : Team}
    (t : Tournament)
    (hall : ∀ pid ∈ team_1 ++ team_2, pid ∈ ids t.players) :
    ∃ t1, apply_playoff_match_result t team_1 team_2 w = (t1, none) ∧
      t1 = { t with players := t1.players } ∧
      ids t1.players = ids t.players := by
  unfold apply_playoff_match_result
  rcases w with _ | _
  · obtain ⟨ta, hrun1, hopc1, hids1⟩ :=
      playoffFold_total (f := Player.addLoss) (fun p => rfl) team_2 t
      (fun pid hp => hall pid (List.mem_append_right team_1 hp))
    obtain ⟨tb, hrun2, hopc2, hids2⟩ :=
      playoffFold_total (f := Player.addWin) (fun p => rfl) team_1 ta
      (fun pid hp => by
        rw [hids1]
        exact hall pid (List.mem_append_left team_2 hp))
    refine ⟨tb, ?_, ?_, ?_⟩
    · simp only [hrun1]
      exact hrun2
    · have hh : tb = { ta with players := tb.players } := hopc2
      rw [hopc1] at hh
      exact hh
    · rw [hids2]
      exact hids1
  · obtain ⟨ta, hrun1, hopc1, hids1⟩ :=
      playoffFold_total (f := Player.addLoss) (fun p => rfl) team_1 t
      (fun pid hp => hall pid (List.mem_append_left team_2 hp))
    obtain ⟨tb, hrun2, hopc2, hids2⟩ :=
      playoffFold_total (f := Player.addWin) (fun p => rfl) team_2 ta
      (fun pid hp => by
        rw [hids1]
        exact hall pid (List.mem_append_right team_1 hp))
    refine ⟨tb, ?_, ?_, ?_⟩
    · simp only [hrun1]
      exact hrun2
    · have hh : tb = { ta with players := tb.players } := hopc2
      rw [hopc1] at hh
      exact hh
    · rw [hids2]
      exact hids1

/-- A round of playoff matches whose participants are all in the roster
processes successfully and changes only the roster entries. -/
theorem playoffMatches_total :
    ∀ (md : List (List Nat × List Nat × Team)) (t : Tournament),
      (∀ x ∈ md, ∀ pid ∈ x.1 ++ x.2.1, pid ∈ ids t.players) →
      ∃ t1, playoffMatches md t = (t1, none) ∧
        t1 = { t with players := t1.players } ∧
        ids t1.players = ids t.players := by
  intro md
  induction md with
  | nil =>
      intro t hall
      exact ⟨t, rfl, rfl, rfl⟩
  | cons hd rest ih =>
      intro t hall
      rcases hd with ⟨tm1, tm2, w⟩
      obtain ⟨ta, hrun1, hopc1, hids1⟩ := apply_playoff_total (w := w) t
        (fun pid hp => hall (tm1, tm2, w) (List.mem_cons_self _ rest) pid hp)
      obtain ⟨tb, hrun2, hopc2, hids2⟩ := ih ta
        (fun x hx pid hp => by
          rw [hids1]
          exact hall x (List.mem_cons_of_mem _ hx) pid hp)
      refine ⟨tb, ?_, ?_, ?_⟩
      · unfold playoffMatches
        simp only [hrun1]
        exact hrun2
      · have hh : tb = { ta with players := tb.players } := hopc2
        rw [hopc1] at hh
        exact hh
      · rw [hids2]
        exact hids1

theorem ids_filter_by_id (l : List Player) (g : Nat → Bool) :
    ids (l.filter (fun p => g p.id)) = (ids l).filter g := by
  induction l with
  | nil => rfl
  | cons a rest ih =>
      unfold ids at ih ⊢
      rw [List.filter_cons, List.map_cons, List.filter_cons]
      cases hg : g a.id <;> simp [hg, ih]

theorem filter_contains_sublist :
    ∀ {l sel : List Nat}, l.Nodup → sel.Sublist l →
      l.filter (fun i => sel.contains i) = sel := by
  intro l
  induction l with
  | nil =>
      intro sel hnd hsub
      simp [List.sublist_nil.mp hsub]
  | cons a rest ih =>
      intro sel hnd hsub
      obtain ⟨hnota, hndr⟩ := List.nodup_cons.mp hnd
      cases hsub with
      | cons _ hsub2 =>
          rw [List.filter_cons]
          have hna : sel.contains a = false := by
            have : a ∉ sel := fun hmem => hnota (hsub2.subset hmem)
            simpa using this
          rw [hna]
          simp only [Bool.false_eq_true, if_false]
          exact ih hndr hsub2
      | cons₂ _ hsub2 =>
          rename_i sel2
          rw [List.filter_cons]
          have hya : ((a :: sel2).contains a) = true := by simp
          rw [hya]
          simp only [if_true]
          congr 1
          have hcong : ∀ i ∈ rest,
              ((a :: sel2).contains i) = (sel2.contains i) := by
            intro i hi
            have hia : i ≠ a := fun hh => hnota (hh ▸ hi)
            simp [hia]
          rw [List.filter_congr hcong]
          exact ih hndr hsub2

theorem getD_ids (l : List Player) (i : Nat) :
    (ids l).getD i dummyPlayer.id = (l.getD i dummyPlayer).id := by
  induction l generalizing i with
  | nil => simp [ids]
  | cons p rest ih =>
      cases i with
      | zero => simp [ids]
      | succ n =>
          simp only [ids, List.map_cons, List.getD_cons_succ]
          exact ih n

/-- C9 amended: for a SemiFinals tournament in the configuration produced
by `generate_semi_final_matches` — roster of eight players with distinct
ids, two matches pairing roster positions 0–3 and 4–7 — with both results
recorded, `process_semi_final_results` succeeds, the roster afterwards is
exactly the two winning pairs in match order, the single Finals match
pairs the match-one winners against the match-two winners, the pending
final results are cleared, and the state is Finals. -/
theorem C9_amended_semi_final_advancement (t : Tournament)
    (a b c d e f g h : Player) (m1 m2 : GameMatch) (w1 w2 : Team)
    (hs : t.state = TournamentState.semiFinals)
    (hpl : t.players = [a, b, c, d, e, f, g, h])
    (hnd : (ids t.players).Nodup)
    (hm : t.matches_ = [m1, m2])
    (h11 : m1.team_1 = [a.id, b.id]) (h12 : m1.team_2 = [c.id, d.id])
    (h21 : m2.team_1 = [e.id, f.id]) (h22 : m2.team_2 = [g.id, h.id])
    (hr1 : mapLookup t.final_match_results m1.id = some w1)
    (hr2 : mapLookup t.final_match_results m2.id = some w2) :
    (process_semi_final_results t).2 = none ∧
    ids (process_semi_final_results t).1.players =
      winnerIds m1 w1 ++ winnerIds m2 w2 ∧
    (process_semi_final_results t).1.matches_.map
        (fun m => (m.team_1, m.team_2, m.round)) =
      [(winnerIds m1 w1, winnerIds m2 w2, RoundType.finals)] ∧
    (process_semi_final_results t).1.final_match_results = [] ∧
    (process_semi_final_results t).1.state = TournamentState.finals := by
  have h1 : ¬ t.state ≠ TournamentState.semiFinals := by simp [hs]
  have h2 : ¬ t.matches_.length ≠ 2 := by simp [hm]
  have h3 : ¬ ((t.matches_.any
      fun m => (mapLookup t.final_match_results m.id).isNone) = true) := by
    simp [hm, hr1, hr2]
  have hmd : t.matches_.map (fun m =>
      (m.team_1, m.team_2, (mapLookup t.final_match_results m.id).getD Team.one)) =
      [(m1.team_1, m1.team_2, w1), (m2.team_1, m2.team_2, w2)] := by
    rw [hm]
    simp [hr1, hr2]
  have hidst : ids t.players =
      [a.id, b.id, c.id, d.id, e.id, f.id, g.id, h.id] := by
    rw [hpl]
    rfl
  obtain ⟨t1, hrun, hopc, hids1⟩ := playoffMatches_total
    (t.matches_.map (fun m =>
      (m.team_1, m.team_2, (mapLookup t.final_match_results m.id).getD Team.one)))
    t
    (by
      rw [hmd]
      intro x hx pid hp
      rw [hidst]
      rcases List.mem_cons.mp hx with hx1 | hx1
      · subst hx1
        simp only at hp
        rw [h11, h12] at hp
        rcases List.mem_append.mp hp with hp1 | hp1 <;> simp_all <;> tauto
      · rcases List.mem_cons.mp hx1 with hx2 | hx2
        · subst hx2
          simp only at hp
          rw [h21, h22] at hp
          rcases List.mem_append.mp hp with hp1 | hp1 <;> simp_all
        · simp at hx2)
  have hm1 : t1.matches_ = t.matches_ := by rw [hopc]
  have hfr1 : t1.final_match_results = t.final_match_results := by rw [hopc]
  have hwidlist : t1.matches_.flatMap
      (fun m => winnerIds m ((mapLookup t1.final_match_results m.id).getD Team.one)) =
      winnerIds m1 w1 ++ winnerIds m2 w2 := by
    rw [hm1, hfr1, hm]
    simp [hr1, hr2]
  obtain ⟨u1, u2, hw1⟩ : ∃ x y, winnerIds m1 w1 = [x, y] := by
    cases w1
    · exact ⟨a.id, b.id, h11⟩
    · exact ⟨c.id, d.id, h12⟩
  obtain ⟨v1, v2, hw2⟩ : ∃ x y, winnerIds m2 w2 = [x, y] := by
    cases w2
    · exact ⟨e.id, f.id, h21⟩
    · exact ⟨g.id, h.id, h22⟩
  have hsub : (winnerIds m1 w1 ++ winnerIds m2 w2).Sublist
      [a.id, b.id, c.id, d.id, e.id, f.id, g.id, h.id] := by
    cases w1 <;> cases w2 <;>
      simp only [winnerIds, h11, h12, h21, h22, List.cons_append, List.nil_append] <;>
      (repeat
        first
        | exact List.nil_sublist _
        | apply List.Sublist.cons₂
        | apply List.Sublist.cons)
  have hadv : ids (t1.players.filter (fun p =>
      (t1.matches_.flatMap (fun m =>
        winnerIds m ((mapLookup t1.final_match_results m.id).getD Team.one))).contains p.id)) =
      winnerIds m1 w1 ++ winnerIds m2 w2 := by
    have h5 : ids (t1.players.filter (fun p =>
        (t1.matches_.flatMap (fun m =>
          winnerIds m ((mapLookup t1.final_match_results m.id).getD Team.one))).contains p.id)) =
        (ids t1.players).filter (fun i =>
          (t1.matches_.flatMap (fun m =>
            winnerIds m ((mapLookup t1.final_match_results m.id).getD Team.one))).contains i) :=
      ids_filter_by_id t1.players (fun i =>
        (t1.matches_.flatMap (fun m =>
          winnerIds m ((mapLookup t1.final_match_results m.id).getD Team.one))).contains i)
    rw [h5, hwidlist, hids1, hidst]
    exact filter_contains_sublist (hidst ▸ hnd) hsub
  have hadvlist : ids (t1.players.filter (fun p =>
      (t1.matches_.flatMap (fun m =>
        winnerIds m ((mapLookup t1.final_match_results m.id).getD Team.one))).contains p.id)) =
      [u1, u2, v1, v2] := by
    rw [hadv, hw1, hw2]
    rfl
  have hAt : ∀ i, idAt (t1.players.filter (fun p =>
      (t1.matches_.flatMap (fun m =>
        winnerIds m ((mapLookup t1.final_match_results m.id).getD Team.one))).contains p.id)) i =
      [u1, u2, v1, v2].getD i dummyPlayer.id := by
    intro i
    unfold idAt
    rw [← getD_ids, hadvlist]
  unfold process_semi_final_results
  rw [if_neg h1, if_neg h2, if_neg h3]
  simp only [hrun, List.map_cons, List.map_nil]
  refine ⟨by trivial, hadv, ?_, by trivial, by trivial⟩
  rw [hw1, hw2, hAt 0, hAt 1, hAt 2, hAt 3]
  all_goals rfl

/-- Witness for the amended C9 theorem at the concrete eight-player
SemiFinals state, with team one winning match 60 and team two match 61. -/
theorem C9_amended_semi_final_advancement_witness :
    (process_semi_final_results cexSemiOk).2 = none ∧
    ids (process_semi_final_results cexSemiOk).1.players =
      winnerIds cexSemiM1 Team.one ++ winnerIds cexSemiM2 Team.two ∧
    (process_semi_final_results cexSemiOk).1.matches_.map
        (fun m => (m.team_1, m.team_2, m.round)) =
      [(winnerIds cexSemiM1 Team.one, winnerIds cexSemiM2 Team.two, RoundType.finals)] ∧
    (process_semi_final_results cexSemiOk).1.final_match_results = [] ∧
    (process_semi_final_results cexSemiOk).1.state = TournamentState.finals :=
  C9_amended_semi_final_advancement cexSemiOk
    (mkPlayer 0 "Ann") (mkPlayer 1 "Ben") (mkPlayer 2 "Cal") (mkPlayer 3 "Dan")
    (mkPlayer 4 "Eva") (mkPlayer 5 "Fay") (mkPlayer 6 "Gus") (mkPlayer 7 "Hal")
    cexSemiM1 cexSemiM2 Team.one Team.two
    rfl rfl (by decide) rfl rfl rfl rfl rfl (by decide) (by decide)

/-- Witness for C1 at the concrete five-player GroupPlay state. -/
theorem C1_generate_partitions_roster_witness :
    (generate_group_play_matches (fun _ => 0) (fun l => l) exT2).1.unused_players.length =
      (exT2.players.filter (fun p => ¬ p.eliminated)).length %
        (modeParams exT2.mode).2.2 :=
  (C1_generate_partitions_roster exT2 (fun _ => 0) (fun l => l)
    (fun l => List.Perm.refl l) (by decide) (by decide) (by decide)).2.2

/-!
Pointwise lookup toolkit used by the C2 invariant preservation and the C7
loss-monotonicity developments.
-/

/-- A successful lookup returns a member carrying the looked-up id. -/
theorem findP_mem :
    ∀ {l : List Player} {pid : Nat} {p : Player},
      findP l pid = some p → p ∈ l ∧ p.id = pid := by
  intro l
  induction l with
  | nil =>
      intro pid p h
      simp [findP] at h
  | cons a rest ih =>
      intro pid p h
      rw [findP_cons] at h
      by_cases hb : (a.id == pid) = true
      · rw [if_pos hb] at h
        obtain rfl := Option.some.inj h
        exact ⟨List.mem_cons_self a rest, eq_of_beq hb⟩
      · rw [if_neg hb] at h
        obtain ⟨h1, h2⟩ := ih h
        exact ⟨List.mem_cons_of_mem a h1, h2⟩

/-- A lookup fails exactly when no member carries the id. -/
theorem findP_eq_none (l : List Player) (pid : Nat) :
    findP l pid = none ↔ pid ∉ ids l := by
  constructor
  · intro h hmem
    have hs := findP_isSome_of_mem hmem
    rw [h] at hs
    simp at hs
  · intro h
    cases hf : findP l pid with
    | none => rfl
    | some p =>
        obtain ⟨hm, hid⟩ := findP_mem hf
        exact absurd (by rw [← hid]; exact List.mem_map_of_mem (fun p => p.id) hm) h

/-- Under distinct ids, a member with the id is the lookup result. -/
theorem findP_eq_of_mem_nodup :
    ∀ {l : List Player} {p : Player} {pid : Nat},
      (ids l).Nodup → p ∈ l → p.id = pid → findP l pid = some p := by
  intro l
  induction l with
  | nil =>
      intro p pid hnd hm hid
      simp at hm
  | cons a rest ih =>
      intro p pid hnd hm hid
      simp only [ids, List.map_cons] at hnd
      obtain ⟨hna, hndr⟩ := List.nodup_cons.mp hnd
      rw [findP_cons]
      rcases List.mem_cons.mp hm with rfl | hm2
      · rw [if_pos (by simp [hid])]
      · by_cases hb : (a.id == pid) = true
        · exfalso
          apply hna
          rw [eq_of_beq hb, ← hid]
          exact List.mem_map_of_mem (fun p => p.id) hm2
        · rw [if_neg hb]
          exact ih hndr hm2 hid

/-- Lookup in a concatenation: a hit in the first part wins. -/
theorem findP_append_left :
    ∀ {A : List Player} (B : List Player) {pid : Nat} {p : Player},
      findP A pid = some p → findP (A ++ B) pid = some p := by
  intro A
  induction A with
  | nil =>
      intro B pid p h
      simp [findP] at h
  | cons a rest ih =>
      intro B pid p h
      rw [findP_cons] at h
      rw [List.cons_append, findP_cons]
      by_cases hb : (a.id == pid) = true
      · rw [if_pos hb] at h ⊢
        exact h
      · rw [if_neg hb] at h ⊢
        exact ih B h

/-- Lookup in a concatenation: a miss in the first part falls through. -/
theorem findP_append_right :
    ∀ {A : List Player} (B : List Player) {pid : Nat},
      findP A pid = none → findP (A ++ B) pid = findP B pid := by
  intro A
  induction A with
  | nil =>
      intro B pid h
      rfl
  | cons a rest ih =>
      intro B pid h
      rw [findP_cons] at h
      rw [List.cons_append, findP_cons]
      by_cases hb : (a.id == pid) = true
      · rw [if_pos hb] at h
        exact absurd h (by simp)
      · rw [if_neg hb] at h
        rw [if_neg hb]
        exact ih B h

/-- Filtering away only members with other ids does not change a lookup. -/
theorem findP_filter_other :
    ∀ {l : List Player} {g : Player → Bool} {pid : Nat},
      (∀ x : Player, x.id = pid → g x = true) →
      findP (l.filter g) pid = findP l pid := by
  intro l
  induction l with
  | nil =>
      intro g pid h
      rfl
  | cons a rest ih =>
      intro g pid h
      rw [List.filter_cons]
      by_cases hg : g a = true
      · rw [if_pos hg, findP_cons, findP_cons]
        by_cases hb : (a.id == pid) = true
        · rw [if_pos hb, if_pos hb]
        · rw [if_neg hb, if_neg hb]
          exact ih h
      · rw [if_neg hg, findP_cons]
        have hb : ¬ (a.id == pid) = true := fun hbb => hg (h a (eq_of_beq hbb))
        rw [if_neg hb]
        exact ih h

/-- Erasing the first member with a different id does not change a lookup. -/
theorem findP_eraseP_ne :
    ∀ {l : List Player} {pid q : Nat}, q ≠ pid →
      findP (l.eraseP (fun p => p.id == pid)) q = findP l q := by
  intro l
  induction l with
  | nil =>
      intro pid q h
      rfl
  | cons a rest ih =>
      intro pid q h
      by_cases hb : (a.id == pid) = true
      · rw [List.eraseP_cons_of_pos (p := fun x : Player => x.id == pid) hb,
          findP_cons]
        have hq : ¬ (a.id == q) = true := by
          intro hqq
          have h1 := eq_of_beq hqq
          have h2 := eq_of_beq hb
          exact h (h1 ▸ h2)
        rw [if_neg hq]
      · rw [List.eraseP_cons_of_neg (p := fun x : Player => x.id == pid) hb,
          findP_cons, findP_cons]
        by_cases hq : (a.id == q) = true
        · rw [if_pos hq, if_pos hq]
        · rw [if_neg hq, if_neg hq]
          exact ih h

/-- Updating an absent id is a no-op. -/
theorem updateFirstP_of_none :
    ∀ {l : List Player} {pid : Nat} (f : Player → Player),
      findP l pid = none → updateFirstP l pid f = l := by
  intro l
  induction l with
  | nil =>
      intro pid f h
      rfl
  | cons a rest ih =>
      intro pid f h
      rw [findP_cons] at h
      unfold updateFirstP
      by_cases hb : (a.id == pid) = true
      · rw [if_pos hb] at h
        exact absurd h (by simp)
      · rw [if_neg hb] at h
        rw [if_neg hb, ih f h]

/-- An id-preserving in-place update keeps the id list. -/
theorem updateFirstP_ids_total :
    ∀ (l : List Player) (pid : Nat) (f : Player → Player),
      (∀ q : Player, (f q).id = q.id) →
      ids (updateFirstP l pid f) = ids l := by
  intro l
  induction l with
  | nil =>
      intro pid f hf
      rfl
  | cons a rest ih =>
      intro pid f hf
      unfold updateFirstP
      by_cases hb : (a.id == pid) = true
      · rw [if_pos hb]
        simp only [ids, List.map_cons, hf a]
      · rw [if_neg hb]
        simp only [ids, List.map_cons]
        have h2 := ih pid f hf
        simp only [ids] at h2
        rw [h2]

/-- Members after an in-place update are old members or the updated image
of an old member with the target id. -/
theorem mem_updateFirstP :
    ∀ {l : List Player} {pid : Nat} {f : Player → Player} {x : Player},
      x ∈ updateFirstP l pid f → x ∈ l ∨ ∃ q ∈ l, q.id = pid ∧ x = f q := by
  intro l
  induction l with
  | nil =>
      intro pid f x h
      simp [updateFirstP] at h
  | cons a rest ih =>
      intro pid f x h
      unfold updateFirstP at h
      by_cases hb : (a.id == pid) = true
      · rw [if_pos hb] at h
        rcases List.mem_cons.mp h with rfl | h2
        · exact Or.inr ⟨a, List.mem_cons_self a rest, eq_of_beq hb, rfl⟩
        · exact Or.inl (List.mem_cons_of_mem a h2)
      · rw [if_neg hb] at h
        rcases List.mem_cons.mp h with rfl | h2
        · exact Or.inl (List.mem_cons_self x rest)
        · rcases ih h2 with h3 | ⟨q, hq1, hq2, hq3⟩
          · exact Or.inl (List.mem_cons_of_mem a h3)
          · exact Or.inr ⟨q, List.mem_cons_of_mem a hq1, hq2, hq3⟩

/-- PMono is reflexive. -/
theorem PMono_refl (l : List Player) : PMono l l := by
  refine ⟨fun q => rfl, ?_⟩
  intro q p p' h1 h2
  rw [h1] at h2
  obtain rfl := Option.some.inj h2
  exact ⟨Nat.le_refl _, id⟩

/-- PMono composes. -/
theorem PMono_trans {a b c : List Player} (h1 : PMono a b) (h2 : PMono b c) :
    PMono a c := by
  obtain ⟨hs1, hm1⟩ := h1
  obtain ⟨hs2, hm2⟩ := h2
  refine ⟨fun q => (hs2 q).trans (hs1 q), ?_⟩
  intro q p p' hp hp'
  have hbsome : (findP b q).isSome := by
    rw [hs1 q, hp]
    rfl
  obtain ⟨pm, hpm⟩ := Option.isSome_iff_exists.mp hbsome
  obtain ⟨l1, f1⟩ := hm1 q p pm hp hpm
  obtain ⟨l2, f2⟩ := hm2 q pm p' hpm hp'
  exact ⟨l1.trans l2, fun he => f2 (f1 he)⟩

/-- One in-place update whose image at the hit point keeps the id, does
not lower losses and does not clear the flag is PMono. -/
theorem PMono_update {l : List Player} {pid : Nat} {f : Player → Player}
    {p : Player} (hf : findP l pid = some p) (hidp : (f p).id = p.id)
    (hlop : p.losses ≤ (f p).losses)
    (help : p.eliminated = true → (f p).eliminated = true) :
    PMono l (updateFirstP l pid f) := by
  constructor
  · intro q
    by_cases hq : q = pid
    · subst hq
      rw [findP_updateFirstP_self l q f p hf hidp, hf]
      rfl
    · rw [findP_updateFirstP_ne l pid q f p hf hidp hq]
  · intro q pp ppn h1 h2
    by_cases hq : q = pid
    · subst hq
      rw [hf] at h1
      obtain rfl := Option.some.inj h1
      rw [findP_updateFirstP_self l q f p hf hidp] at h2
      obtain rfl := Option.some.inj h2
      exact ⟨hlop, help⟩
    · rw [findP_updateFirstP_ne l pid q f p hf hidp hq] at h2
      rw [h1] at h2
      obtain rfl := Option.some.inj h2
      exact ⟨Nat.le_refl _, id⟩

/-- An update that everywhere keeps ids, never lowers losses and never
clears the flag is PMono regardless of whether the id is present. -/
theorem PMono_update_total {l : List Player} {pid : Nat} {f : Player → Player}
    (hid : ∀ q : Player, (f q).id = q.id)
    (hlo : ∀ q : Player, q.losses ≤ (f q).losses)
    (hel : ∀ q : Player, q.eliminated = true → (f q).eliminated = true) :
    PMono l (updateFirstP l pid f) := by
  cases hf : findP l pid with
  | none =>
      rw [updateFirstP_of_none f hf]
      exact PMono_refl l
  | some p => exact PMono_update hf (hid p) (hlo p) (hel p)

/-- A loss step adds exactly one loss. -/
theorem loseStep_losses (ml : Nat) (p : Player) :
    (loseStep ml p).losses = p.losses + 1 := by
  unfold loseStep Player.addLoss Player.eliminate
  simp only []
  split_ifs <;> rfl

/-- A loss step never clears the eliminated flag. -/
theorem loseStep_flag_mono (ml : Nat) (p : Player)
    (h : p.eliminated = true) : (loseStep ml p).eliminated = true := by
  unfold loseStep Player.addLoss Player.eliminate
  simp only []
  split_ifs <;> simp [h]

/-- Pointwise account of the losing-team loop on any exit: only `players`
changes, ids are kept, lookups evolve monotonically, and the collected
eliminations extend the accumulator with flagged snapshots of roster
players whose ids come from the processed list in order. -/
theorem applyLoserIds_pointwise (ml : Nat) :
    ∀ (pids : List Nat) (t : Tournament) (acc : List Player)
      (t1 : Tournament) (acc1 : List Player) (r : Option TournamentError),
      applyLoserIds ml pids t acc = (t1, acc1, r) →
      t1 = { t with players := t1.players } ∧
      ids t1.players = ids t.players ∧
      PMono t.players t1.players ∧
      ∃ ex, acc1 = acc ++ ex ∧
        (ids ex).Sublist pids ∧
        ∀ x ∈ ex, x.eliminated = true ∧
          (∃ p, findP t.players x.id = some p ∧ p.losses ≤ x.losses) ∧
          (∀ pz, findP t1.players x.id = some pz → pz.eliminated = true) := by
  intro pids
  induction pids with
  | nil =>
      intro t acc t1 acc1 r hrun
      unfold applyLoserIds at hrun
      simp only [Prod.mk.injEq] at hrun
      obtain ⟨h1, h2, -⟩ := hrun
      subst h1
      subst h2
      exact ⟨rfl, rfl, PMono_refl t.players,
        [], by simp, by simp [ids], by simp⟩
  | cons pid rest ih =>
      intro t acc t1 acc1 r hrun
      unfold applyLoserIds at hrun
      rcases hf : findP t.players pid with _ | p
      · simp only [hf] at hrun
        simp only [Prod.mk.injEq] at hrun
        obtain ⟨h1, h2, -⟩ := hrun
        subst h1
        subst h2
        exact ⟨rfl, rfl, PMono_refl t.players,
          [], by simp, by simp [ids], by simp⟩
      · simp only [hf] at hrun
        have hpid : p.id = pid := (findP_mem hf).2
        have hid : ((fun _ : Player => loseStep ml p) p).id = p.id :=
          loseStep_id ml p
        have hlo : p.losses ≤ ((fun _ : Player => loseStep ml p) p).losses := by
          rw [show ((fun _ : Player => loseStep ml p) p).losses =
            (loseStep ml p).losses from rfl, loseStep_losses]
          exact Nat.le_succ p.losses
        have hel : p.eliminated = true →
            ((fun _ : Player => loseStep ml p) p).eliminated = true :=
          loseStep_flag_mono ml p
        have hmono1 : PMono t.players
            (updateFirstP t.players pid (fun _ => loseStep ml p)) :=
          PMono_update hf hid hlo hel
        have hidsu := updateFirstP_ids t.players pid (fun _ => loseStep ml p) p hf hid
        have hself := findP_updateFirstP_self t.players pid
          (fun _ : Player => loseStep ml p) p hf hid
        by_cases hml : ml ≤ p.addLoss.losses
        · rw [if_pos hml] at hrun
          obtain ⟨hrec, hridss, hrmono, ex, hex1, hex2, hex3⟩ :=
            ih _ _ _ _ _ hrun
          refine ⟨hrec, hridss.trans hidsu,
            PMono_trans hmono1 hrmono, loseStep ml p :: ex, ?_, ?_, ?_⟩
          · rw [hex1, List.append_assoc]
            rfl
          · show (ids (loseStep ml p :: ex)).Sublist (pid :: rest)
            have : ids (loseStep ml p :: ex) = pid :: ids ex := by
              simp only [ids, List.map_cons]
              rw [loseStep_id, hpid]
            rw [this]
            exact List.Sublist.cons₂ pid hex2
          · intro x hx
            rcases List.mem_cons.mp hx with rfl | hx2
            · refine ⟨loseStep_flag_of_le hml, ⟨p, ?_, ?_⟩, ?_⟩
              · rw [loseStep_id, hpid]
                exact hf
              · rw [loseStep_losses]
                exact Nat.le_succ p.losses
              · intro pz hpz
                have hsome : (findP (updateFirstP t.players pid
                    (fun _ => loseStep ml p)) (loseStep ml p).id).isSome := by
                  rw [loseStep_id, hpid, hself]
                  rfl
                have hmid : findP (updateFirstP t.players pid
                    (fun _ => loseStep ml p)) (loseStep ml p).id =
                    some (loseStep ml p) := by
                  rw [loseStep_id, hpid]
                  exact hself
                exact (hrmono.2 (loseStep ml p).id (loseStep ml p) pz hmid hpz).2
                  (loseStep_flag_of_le hml)
            · obtain ⟨hx3a, ⟨p2, hp2f, hp2l⟩, hx3c⟩ := hex3 x hx2
              refine ⟨hx3a, ?_, hx3c⟩
              by_cases hxq : x.id = pid
              · refine ⟨p, by rw [hxq]; exact hf, ?_⟩
                rw [hxq, hself] at hp2f
                obtain rfl := Option.some.inj hp2f
                calc p.losses ≤ (loseStep ml p).losses := by
                      rw [loseStep_losses]
                      exact Nat.le_succ p.losses
                  _ ≤ x.losses := hp2l
              · rw [findP_updateFirstP_ne t.players pid x.id
                  (fun _ : Player => loseStep ml p) p hf hid hxq] at hp2f
                exact ⟨p2, hp2f, hp2l⟩
        · rw [if_neg hml] at hrun
          obtain ⟨hrec, hridss, hrmono, ex, hex1, hex2, hex3⟩ :=
            ih _ _ _ _ _ hrun
          refine ⟨hrec, hridss.trans hidsu,
            PMono_trans hmono1 hrmono, ex, hex1,
            hex2.trans (List.sublist_cons_self pid rest), ?_⟩
          intro x hx
          obtain ⟨hx3a, ⟨p2, hp2f, hp2l⟩, hx3c⟩ := hex3 x hx
          refine ⟨hx3a, ?_, hx3c⟩
          by_cases hxq : x.id = pid
          · refine ⟨p, by rw [hxq]; exact hf, ?_⟩
            rw [hxq, hself] at hp2f
            obtain rfl := Option.some.inj hp2f
            calc p.losses ≤ (loseStep ml p).losses := by
                  rw [loseStep_losses]
                  exact Nat.le_succ p.losses
              _ ≤ x.losses := hp2l
          · rw [findP_updateFirstP_ne t.players pid x.id
              (fun _ : Player => loseStep ml p) p hf hid hxq] at hp2f
            exact ⟨p2, hp2f, hp2l⟩

/-- Pointwise account of the winning-team loop on any exit: only `players`
changes, ids are kept, and lookups evolve monotonically. -/
theorem applyWinnerIds_pointwise :
    ∀ (pids : List Nat) (t t1 : Tournament) (r : Option TournamentError),
      applyWinnerIds pids t = (t1, r) →
      t1 = { t with players := t1.players } ∧
      ids t1.players = ids t.players ∧
      PMono t.players t1.players := by
  intro pids
  induction pids with
  | nil =>
      intro t t1 r hrun
      unfold applyWinnerIds at hrun
      simp only [Prod.mk.injEq] at hrun
      obtain ⟨h1, -⟩ := hrun
      subst h1
      exact ⟨rfl, rfl, PMono_refl t.players⟩
  | cons pid rest ih =>
      intro t t1 r hrun
      unfold applyWinnerIds at hrun
      rcases hf : findP t.players pid with _ | p
      · simp only [hf] at hrun
        simp only [Prod.mk.injEq] at hrun
        obtain ⟨h1, -⟩ := hrun
        subst h1
        exact ⟨rfl, rfl, PMono_refl t.players⟩
      · simp only [hf] at hrun
        have hid : (Player.addWin p).id = p.id := rfl
        obtain ⟨hrec, hridss, hrmono⟩ := ih _ _ _ hrun
        have hidsu := updateFirstP_ids t.players pid Player.addWin p hf hid
        have hmono1 : PMono t.players (updateFirstP t.players pid Player.addWin) :=
          PMono_update hf hid (Nat.le_refl p.losses) (fun h => h)
        exact ⟨hrec, hridss.trans hidsu, PMono_trans hmono1 hrmono⟩

/-- Pointwise account of one applied match result on any exit: only
`players` changes, ids are kept, lookups evolve monotonically, and on a
successful exit the returned eliminations are flagged snapshots of roster
players whose ids come from the two teams. -/
theorem apply_match_result_pointwise {t : Tournament} {c1 c2 : List Nat}
    {w : Team} {ml : Nat} {t2 : Tournament}
    {r : Except TournamentError (List Player)}
    (hrun : apply_match_result t c1 c2 w ml = (t2, r)) :
    t2 = { t with players := t2.players } ∧
    ids t2.players = ids t.players ∧
    PMono t.players t2.players ∧
    ∀ el, r = Except.ok el →
      (ids el).Sublist (c1 ++ c2) ∧
      ∀ x ∈ el, x.eliminated = true ∧
        (∃ p, findP t.players x.id = some p ∧ p.losses ≤ x.losses) ∧
        (∀ pz, findP t2.players x.id = some pz → pz.eliminated = true) := by
  unfold apply_match_result at hrun
  rcases w with _ | _
  · rcases hl : applyLoserIds ml c2 t [] with ⟨ta, acca, ea⟩
    obtain ⟨hA, hB, hC, ex, hex1, hex2, hex3⟩ :=
      applyLoserIds_pointwise ml c2 t [] ta acca ea hl
    rcases ea with _ | ea
    · simp only [hl] at hrun
      rcases hw : applyWinnerIds c1 ta with ⟨tw, ew⟩
      obtain ⟨hA2, hB2, hC2⟩ := applyWinnerIds_pointwise c1 ta tw ew hw
      rcases ew with _ | ew
      · simp only [hw, Prod.mk.injEq] at hrun
        obtain ⟨rfl, rfl⟩ := hrun
        refine ⟨?_, hB2.trans hB, PMono_trans hC hC2, ?_⟩
        · have hh : tw = { ta with players := tw.players } := hA2
          rw [hA] at hh
          exact hh
        · intro el hok
          obtain rfl : acca = el := by
            simp only [Except.ok.injEq] at hok
            exact hok
          rw [List.nil_append] at hex1
          subst hex1
          refine ⟨hex2.trans (List.sublist_append_right c1 c2), ?_⟩
          intro x hx
          obtain ⟨hf1, hf2, hf3⟩ := hex3 x hx
          refine ⟨hf1, hf2, ?_⟩
          intro pz hpz
          have hsome : (findP ta.players x.id).isSome := by
            rw [← hC2.1 x.id, hpz]
            rfl
          obtain ⟨pm, hpm⟩ := Option.isSome_iff_exists.mp hsome
          exact (hC2.2 x.id pm pz hpm hpz).2 (hf3 pm hpm)
      · simp only [hw, Prod.mk.injEq] at hrun
        obtain ⟨rfl, rfl⟩ := hrun
        refine ⟨?_, hB2.trans hB, PMono_trans hC hC2, ?_⟩
        · have hh : tw = { ta with players := tw.players } := hA2
          rw [hA] at hh
          exact hh
        · intro el hok
          exact absurd hok (by simp)
    · simp only [hl] at hrun
      simp only [Prod.mk.injEq] at hrun
      obtain ⟨rfl, rfl⟩ := hrun
      refine ⟨hA, hB, hC, ?_⟩
      intro el hok
      exact absurd hok (by simp)
  · rcases hl : applyLoserIds ml c1 t [] with ⟨ta, acca, ea⟩
    obtain ⟨hA, hB, hC, ex, hex1, hex2, hex3⟩ :=
      applyLoserIds_pointwise ml c1 t [] ta acca ea hl
    rcases ea with _ | ea
    · simp only [hl] at hrun
      rcases hw : applyWinnerIds c2 ta with ⟨tw, ew⟩
      obtain ⟨hA2, hB2, hC2⟩ := applyWinnerIds_pointwise c2 ta tw ew hw
      rcases ew with _ | ew
      · simp only [hw, Prod.mk.injEq] at hrun
        obtain ⟨rfl, rfl⟩ := hrun
        refine ⟨?_, hB2.trans hB, PMono_trans hC hC2, ?_⟩
        · have hh : tw = { ta with players := tw.players } := hA2
          rw [hA] at hh
          exact hh
        · intro el hok
          obtain rfl : acca = el := by
            simp only [Except.ok.injEq] at hok
            exact hok
          rw [List.nil_append] at hex1
          subst hex1
          refine ⟨hex2.trans (List.sublist_append_left c1 c2), ?_⟩
          intro x hx
          obtain ⟨hf1, hf2, hf3⟩ := hex3 x hx
          refine ⟨hf1, hf2, ?_⟩
          intro pz hpz
          have hsome : (findP ta.players x.id).isSome := by
            rw [← hC2.1 x.id, hpz]
            rfl
          obtain ⟨pm, hpm⟩ := Option.isSome_iff_exists.mp hsome
          exact (hC2.2 x.id pm pz hpm hpz).2 (hf3 pm hpm)
      · simp only [hw, Prod.mk.injEq] at hrun
        obtain ⟨rfl, rfl⟩ := hrun
        refine ⟨?_, hB2.trans hB, PMono_trans hC hC2, ?_⟩
        · have hh : tw = { ta with players := tw.players } := hA2
          rw [hA] at hh
          exact hh
        · intro el hok
          exact absurd hok (by simp)
    · simp only [hl] at hrun
      simp only [Prod.mk.injEq] at hrun
      obtain ⟨rfl, rfl⟩ := hrun
      refine ⟨hA, hB, hC, ?_⟩
      intro el hok
      exact absurd hok (by simp)

/-- Pointwise account of a whole processed round on any exit: only
`players` and `last_eliminated_players` change, ids are kept, lookups
evolve monotonically, and the last-eliminated list is extended with
flagged snapshots of roster players whose ids come from the processed
match data without repetition. -/
theorem processMatches_pointwise (ml : Nat) :
    ∀ (md : List (List Nat × List Nat × Team)) (t t1 : Tournament)
      (r : Option TournamentError),
      processMatches ml md t = (t1, r) →
      t1 = { t with players := t1.players,
                    last_eliminated_players := t1.last_eliminated_players } ∧
      ids t1.players = ids t.players ∧
      PMono t.players t1.players ∧
      ∃ ex, t1.last_eliminated_players = t.last_eliminated_players ++ ex ∧
        (ids ex).Sublist (md.flatMap (fun x => x.1 ++ x.2.1)) ∧
        ∀ x ∈ ex, x.eliminated = true ∧
          (∃ p, findP t.players x.id = some p ∧ p.losses ≤ x.losses) ∧
          (∀ pz, findP t1.players x.id = some pz → pz.eliminated = true) := by
  intro md
  induction md with
  | nil =>
      intro t t1 r hrun
      unfold processMatches at hrun
      simp only [Prod.mk.injEq] at hrun
      obtain ⟨h1, -⟩ := hrun
      subst h1
      exact ⟨rfl, rfl, PMono_refl t.players, [], by simp, by simp [ids], by simp⟩
  | cons hd restmd ih =>
      intro t t1 r hrun
      rcases hd with ⟨c1, c2, w⟩
      unfold processMatches at hrun
      rcases ha : apply_match_result t c1 c2 w ml with ⟨ta, ra⟩
      obtain ⟨hA, hB, hC, helprops⟩ := apply_match_result_pointwise ha
      rcases ra with ea | el
      · simp only [ha] at hrun
        simp only [Prod.mk.injEq] at hrun
        obtain ⟨h1, -⟩ := hrun
        subst h1
        refine ⟨?_, hB, hC, [], ?_, by simp [ids], by simp⟩
        · have hlast : ta.last_eliminated_players = t.last_eliminated_players := by
            rw [hA]
          rw [hlast]
          exact hA
        · rw [List.append_nil, hA]
      · simp only [ha] at hrun
        obtain ⟨hsub_el, hel3⟩ := helprops el rfl
        obtain ⟨hA2, hB2, hC2, ex2, hex1, hex2, hex3⟩ := ih _ _ _ hrun
        refine ⟨?_, ?_, ?_, el ++ ex2, ?_, ?_, ?_⟩
        · have hh := hA2
          rw [hA] at hh
          exact hh
        · exact hB2.trans hB
        · exact PMono_trans hC hC2
        · have h5 : t1.last_eliminated_players =
              (ta.last_eliminated_players ++ el) ++ ex2 := hex1
          have h6 : ta.last_eliminated_players = t.last_eliminated_players := by
            rw [hA]
          rw [h5, h6, List.append_assoc]
        · have h7 : ids (el ++ ex2) = ids el ++ ids ex2 := by
            simp [ids]
          rw [h7, List.flatMap_cons]
          exact hsub_el.append hex2
        · intro x hx
          rcases List.mem_append.mp hx with hx1 | hx2
          · obtain ⟨hf1, hf2, hf3⟩ := hel3 x hx1
            refine ⟨hf1, hf2, ?_⟩
            intro pz hpz
            have hsome : (findP ta.players x.id).isSome := by
              rw [← hC2.1 x.id, hpz]
              rfl
            obtain ⟨pm, hpm⟩ := Option.isSome_iff_exists.mp hsome
            have hpm2 : findP ta.players x.id = some pm := hpm
            exact (hC2.2 x.id pm pz hpm2 hpz).2 (hf3 pm hpm)
          · obtain ⟨hf1, hf2x, hf3⟩ := hex3 x hx2
            refine ⟨hf1, ?_, hf3⟩
            obtain ⟨pmid, hp1, hp2⟩ := hf2x
            have hp1a : findP ta.players x.id = some pmid := hp1
            have hsome0 : (findP t.players x.id).isSome := by
              rw [← hC.1 x.id, hp1a]
              rfl
            obtain ⟨p0, hp0⟩ := Option.isSome_iff_exists.mp hsome0
            exact ⟨p0, hp0, (hC.2 x.id p0 pmid hp0 hp1a).1.trans hp2⟩

/-- Pointwise account of one playoff update loop on any exit: only
`players` and `unused_players` change, both keep their ids, and lookups in
both evolve monotonically whenever the update function keeps ids, never
lowers losses and never clears the flag. -/
theorem playoffFold_pointwise (f : Player → Player)
    (hid : ∀ q : Player, (f q).id = q.id)
    (hlo : ∀ q : Player, q.losses ≤ (f q).losses)
    (hel : ∀ q : Player, q.eliminated = true → (f q).eliminated = true) :
    ∀ (pids : List Nat) (t t1 : Tournament) (r : Option TournamentError),
      playoffFold f pids t = (t1, r) →
      t1 = { t with players := t1.players,
                    unused_players := t1.unused_players } ∧
      ids t1.players = ids t.players ∧
      ids t1.unused_players = ids t.unused_players ∧
      PMono t.players t1.players ∧
      PMono t.unused_players t1.unused_players := by
  intro pids
  induction pids with
  | nil =>
      intro t t1 r hrun
      unfold playoffFold at hrun
      simp only [Prod.mk.injEq] at hrun
      obtain ⟨h1, -⟩ := hrun
      subst h1
      exact ⟨rfl, rfl, rfl, PMono_refl t.players, PMono_refl t.unused_players⟩
  | cons pid rest ih =>
      intro t t1 r hrun
      unfold playoffFold at hrun
      rcases hu : t.updateAny pid f with _ | tmid
      · simp only [hu] at hrun
        simp only [Prod.mk.injEq] at hrun
        obtain ⟨h1, -⟩ := hrun
        subst h1
        exact ⟨rfl, rfl, rfl, PMono_refl t.players, PMono_refl t.unused_players⟩
      · simp only [hu] at hrun
        obtain ⟨hA2, hBp2, hBu2, hCp2, hCu2⟩ := ih _ _ _ hrun
        unfold Tournament.updateAny at hu
        by_cases hp : (findP t.players pid).isSome
        · rw [if_pos hp] at hu
          obtain rfl := Option.some.inj hu
          refine ⟨hA2, hBp2.trans (updateFirstP_ids_total t.players pid f hid),
            hBu2, PMono_trans (PMono_update_total hid hlo hel) hCp2, hCu2⟩
        · rw [if_neg hp] at hu
          by_cases hp2 : (findP t.unused_players pid).isSome
          · rw [if_pos hp2] at hu
            obtain rfl := Option.some.inj hu
            refine ⟨hA2, hBp2,
              hBu2.trans (updateFirstP_ids_total t.unused_players pid f hid),
              hCp2, PMono_trans (PMono_update_total hid hlo hel) hCu2⟩
          · rw [if_neg hp2] at hu
            exact absurd hu (by simp)

/-- Pointwise account of one applied playoff match result on any exit. -/
theorem apply_playoff_pointwise {t : Tournament} {c1 c2 : List Nat} {w : Team}
    {t2 : Tournament} {r : Option TournamentError}
    (hrun : apply_playoff_match_result t c1 c2 w = (t2, r)) :
    t2 = { t with players := t2.players,
                  unused_players := t2.unused_players } ∧
    ids t2.players = ids t.players ∧
    ids t2.unused_players = ids t.unused_players ∧
    PMono t.players t2.players ∧
    PMono t.unused_players t2.unused_players := by
  unfold apply_playoff_match_result at hrun
  have hidL : ∀ q : Player, (Player.addLoss q).id = q.id := fun q => rfl
  have hloL : ∀ q : Player, q.losses ≤ (Player.addLoss q).losses :=
    fun q => Nat.le_succ q.losses
  have helL : ∀ q : Player, q.eliminated = true →
      (Player.addLoss q).eliminated = true := fun q h => h
  have hidW : ∀ q : Player, (Player.addWin q).id = q.id := fun q => rfl
  have hloW : ∀ q : Player, q.losses ≤ (Player.addWin q).losses :=
    fun q => Nat.le_refl q.losses
  have helW : ∀ q : Player, q.eliminated = true →
      (Player.addWin q).eliminated = true := fun q h => h
  rcases w with _ | _
  · simp only [] at hrun
    rcases hl : playoffFold Player.addLoss c2 t with ⟨ta, ea⟩
    obtain ⟨hA, hBp, hBu, hCp, hCu⟩ :=
      playoffFold_pointwise Player.addLoss hidL hloL helL c2 t ta ea hl
    rcases ea with _ | ea
    · simp only [hl] at hrun
      obtain ⟨hA2, hBp2, hBu2, hCp2, hCu2⟩ :=
        playoffFold_pointwise Player.addWin hidW hloW helW c1 ta t2 r hrun
      refine ⟨?_, hBp2.trans hBp, hBu2.trans hBu,
        PMono_trans hCp hCp2, PMono_trans hCu hCu2⟩
      have hh := hA2
      rw [hA] at hh
      exact hh
    · simp only [hl] at hrun
      simp only [Prod.mk.injEq] at hrun
      obtain ⟨rfl, -⟩ := hrun
      exact ⟨hA, hBp, hBu, hCp, hCu⟩
  · simp only [] at hrun
    rcases hl : playoffFold Player.addLoss c1 t with ⟨ta, ea⟩
    obtain ⟨hA, hBp, hBu, hCp, hCu⟩ :=
      playoffFold_pointwise Player.addLoss hidL hloL helL c1 t ta ea hl
    rcases ea with _ | ea
    · simp only [hl] at hrun
      obtain ⟨hA2, hBp2, hBu2, hCp2, hCu2⟩ :=
        playoffFold_pointwise Player.addWin hidW hloW helW c2 ta t2 r hrun
      refine ⟨?_, hBp2.trans hBp, hBu2.trans hBu,
        PMono_trans hCp hCp2, PMono_trans hCu hCu2⟩
      have hh := hA2
      rw [hA] at hh
      exact hh
    · simp only [hl] at hrun
      simp only [Prod.mk.injEq] at hrun
      obtain ⟨rfl, -⟩ := hrun
      exact ⟨hA, hBp, hBu, hCp, hCu⟩

/-- Pointwise account of the playoff round loop on any exit. -/
theorem playoffMatches_pointwise :
    ∀ (md : List (List Nat × List Nat × Team)) (t t1 : Tournament)
      (r : Option TournamentError),
      playoffMatches md t = (t1, r) →
      t1 = { t with players := t1.players,
                    unused_players := t1.unused_players } ∧
      ids t1.players = ids t.players ∧
      ids t1.unused_players = ids t.unused_players ∧
      PMono t.players t1.players ∧
      PMono t.unused_players t1.unused_players := by
  intro md
  induction md with
  | nil =>
      intro t t1 r hrun
      unfold playoffMatches at hrun
      simp only [Prod.mk.injEq] at hrun
      obtain ⟨h1, -⟩ := hrun
      subst h1
      exact ⟨rfl, rfl, rfl, PMono_refl t.players, PMono_refl t.unused_players⟩
  | cons hd restmd ih =>
      intro t t1 r hrun
      rcases hd with ⟨c1, c2, w⟩
      unfold playoffMatches at hrun
      rcases ha : apply_playoff_match_result t c1 c2 w with ⟨ta, ea⟩
      obtain ⟨hA, hBp, hBu, hCp, hCu⟩ := apply_playoff_pointwise ha
      rcases ea with _ | ea
      · simp only [ha] at hrun
        obtain ⟨hA2, hBp2, hBu2, hCp2, hCu2⟩ := ih _ _ _ hrun
        refine ⟨?_, hBp2.trans hBp, hBu2.trans hBu,
          PMono_trans hCp hCp2, PMono_trans hCu hCu2⟩
        have hh := hA2
        rw [hA] at hh
        exact hh
      · simp only [ha] at hrun
        simp only [Prod.mk.injEq] at hrun
        obtain ⟨rfl, -⟩ := hrun
        exact ⟨hA, hBp, hBu, hCp, hCu⟩

/-- Folding id-preserving, loss-preserving, flag-preserving in-place
updates over a list keeps the ids and is pointwise monotone. -/
theorem PMono_foldl_updates (g : Player → Player → Player)
    (hid : ∀ u q : Player, (g u q).id = q.id)
    (hlo : ∀ u q : Player, q.losses ≤ (g u q).losses)
    (hel : ∀ u q : Player, q.eliminated = true → (g u q).eliminated = true) :
    ∀ (us : List Player) (l : List Player),
      ids (us.foldl (fun ps u => updateFirstP ps u.id (g u)) l) = ids l ∧
      PMono l (us.foldl (fun ps u => updateFirstP ps u.id (g u)) l) := by
  intro us
  induction us with
  | nil =>
      intro l
      exact ⟨rfl, PMono_refl l⟩
  | cons u restu ih =>
      intro l
      simp only [List.foldl_cons]
      obtain ⟨hids, hmono⟩ := ih (updateFirstP l u.id (g u))
      exact ⟨hids.trans (updateFirstP_ids_total l u.id (g u) (hid u)),
        PMono_trans (PMono_update_total (hid u) (hlo u) (hel u)) hmono⟩

/-- The sit-out write-back of `generate_group_play_matches` keeps the
roster ids and is pointwise monotone (it only touches sit-out counters). -/
theorem gpPlayers_props (tb : Nat → Nat) (t : Tournament) :
    ids (gpPlayers tb t) = ids t.players ∧ PMono t.players (gpPlayers tb t) := by
  unfold gpPlayers
  exact PMono_foldl_updates
    (fun u q => { q with times_sat_out := u.times_sat_out,
                         internal_times_sat_out := u.internal_times_sat_out })
    (fun u q => rfl) (fun u q => Nat.le_refl q.losses) (fun u q h => h)
    (gpUnused tb t) t.players

/-- Every sitting-out id is a roster id. -/
theorem gpUnused_ids_sub (tb : Nat → Nat) (t : Tournament) :
    ∀ pid ∈ ids (gpUnused tb t), pid ∈ ids t.players := by
  intro pid hpid
  unfold gpUnused at hpid
  simp only [ids, List.map_map, List.mem_map] at hpid
  obtain ⟨p, hp, rfl⟩ := hpid
  have hp2 : p ∈ gpSorted tb t := List.mem_of_mem_take hp
  have hp3 : p ∈ gpAvailable t := (gpSorted_perm tb t).mem_iff.mp hp2
  have hp4 : p ∈ t.players := (List.mem_filter.mp hp3).1
  exact List.mem_map_of_mem (fun p => p.id) hp4

/-- Splitting a lookup over the three authoritative collections: roster
hit. -/
theorem lossesOf_first {t : Tournament} {q : Nat} {p : Player}
    (h : findP t.players q = some p) : lossesOf t q = some p.losses := by
  unfold lossesOf
  rw [findP_append_left _ (findP_append_left _ h)]
  rfl

/-- Splitting a lookup: sit-out hit after a roster miss. -/
theorem lossesOf_second {t : Tournament} {q : Nat} {u : Player}
    (h1 : findP t.players q = none)
    (h2 : findP t.unused_players q = some u) :
    lossesOf t q = some u.losses := by
  unfold lossesOf
  rw [findP_append_left _ ((findP_append_right _ h1).trans h2)]
  rfl

/-- Splitting a lookup: fall-through to the eliminated record. -/
theorem lossesOf_third {t : Tournament} {q : Nat}
    (h1 : findP t.players q = none)
    (h2 : findP t.unused_players q = none) :
    lossesOf t q =
      (findP t.eliminated_players q).map (fun p => p.losses) := by
  unfold lossesOf
  rw [findP_append_right _ ((findP_append_right _ h1).trans h2)]

/-- Unpacking distinctness of the ids across the three authoritative
collections. -/
theorem nodup_three {t : Tournament}
    (hnd : (ids (t.players ++ t.unused_players ++
      t.eliminated_players)).Nodup) :
    (ids t.players).Nodup ∧ (ids t.unused_players).Nodup ∧
    (ids t.eliminated_players).Nodup ∧
    (∀ q ∈ ids t.players,
      q ∉ ids t.unused_players ∧ q ∉ ids t.eliminated_players) ∧
    (∀ q ∈ ids t.unused_players, q ∉ ids t.eliminated_players) := by
  have h : ids (t.players ++ t.unused_players ++ t.eliminated_players) =
      ids t.players ++ (ids t.unused_players ++ ids t.eliminated_players) := by
    simp [ids]
  rw [h] at hnd
  obtain ⟨h1, h2, h3⟩ := List.nodup_append.mp hnd
  obtain ⟨h4, h5, h6⟩ := List.nodup_append.mp h2
  refine ⟨h1, h4, h5, ?_, ?_⟩
  · intro q hq
    have h7 := h3 hq
    exact ⟨fun hu => h7 (List.mem_append_left _ hu),
      fun he => h7 (List.mem_append_right _ he)⟩
  · intro q hq
    exact h6 hq

/-- Loss observation is reflexive-monotone. -/
theorem LossesMonoAt_refl (t : Tournament) : LossesMonoAt t t := by
  intro q l l1 h1 h2
  rw [h1] at h2
  exact Nat.le_of_eq (Option.some.inj h2)

/-- An operation leaving the three authoritative collections unchanged
preserves every loss observation. -/
theorem LossesMonoAt_of_eq {t t1 : Tournament}
    (hp : t1.players = t.players) (hu : t1.unused_players = t.unused_players)
    (he : t1.eliminated_players = t.eliminated_players) :
    LossesMonoAt t t1 := by
  intro q l l1 h1 h2
  have hsame : lossesOf t1 q = lossesOf t q := by
    unfold lossesOf
    rw [hp, hu, he]
  rw [hsame, h1] at h2
  exact Nat.le_of_eq (Option.some.inj h2)

/-- A defined loss observation exhibits a member of one of the three
collections. -/
theorem lossesOf_some_mem {t : Tournament} {q l : Nat}
    (h : lossesOf t q = some l) :
    ∃ m, m ∈ t.players ++ t.unused_players ++ t.eliminated_players ∧
      m.id = q ∧ m.losses = l := by
  unfold lossesOf at h
  cases hx : findP (t.players ++ t.unused_players ++ t.eliminated_players) q with
  | none =>
      rw [hx] at h
      simp at h
  | some m =>
      rw [hx] at h
      obtain ⟨hm1, hm2⟩ := findP_mem hx
      exact ⟨m, hm1, hm2, Option.some.inj h⟩

/-- Segmentwise monotonicity assembles to `lossesOf` monotonicity when the
roster and sit-out segments keep their ids and the eliminated record is
unchanged. -/
theorem lossesOf_mono_of_segments {t t1 : Tournament}
    (he : t1.eliminated_players = t.eliminated_players)
    (hPp : PMono t.players t1.players)
    (hPu : PMono t.unused_players t1.unused_players) :
    LossesMonoAt t t1 := by
  intro q l l1 hq hq1
  cases hfp : findP t.players q with
  | some p =>
      have hl : lossesOf t q = some p.losses := lossesOf_first hfp
      rw [hq] at hl
      obtain rfl := Option.some.inj hl
      have hsome1 : (findP t1.players q).isSome := by
        rw [hPp.1 q, hfp]
        rfl
      obtain ⟨p1, hp1⟩ := Option.isSome_iff_exists.mp hsome1
      have hl1 : lossesOf t1 q = some p1.losses := lossesOf_first hp1
      rw [hq1] at hl1
      obtain rfl := Option.some.inj hl1
      exact (hPp.2 q p p1 hfp hp1).1
  | none =>
      have hfp1 : findP t1.players q = none := by
        cases hx : findP t1.players q with
        | none => rfl
        | some xx =>
            have h7 := hPp.1 q
            rw [hx, hfp] at h7
            simp at h7
      cases hfu : findP t.unused_players q with
      | some u =>
          have hl : lossesOf t q = some u.losses := lossesOf_second hfp hfu
          rw [hq] at hl
          obtain rfl := Option.some.inj hl
          have hsome1 : (findP t1.unused_players q).isSome := by
            rw [hPu.1 q, hfu]
            rfl
          obtain ⟨u1, hu1⟩ := Option.isSome_iff_exists.mp hsome1
          have hl1 : lossesOf t1 q = some u1.losses := lossesOf_second hfp1 hu1
          rw [hq1] at hl1
          obtain rfl := Option.some.inj hl1
          exact (hPu.2 q u u1 hfu hu1).1
      | none =>
          have hfu1 : findP t1.unused_players q = none := by
            cases hx : findP t1.unused_players q with
            | none => rfl
            | some xx =>
                have h7 := hPu.1 q
                rw [hx, hfu] at h7
                simp at h7
          have hl := lossesOf_third hfp hfu
          have hl1 := lossesOf_third hfp1 hfu1
          rw [he] at hl1
          rw [hq] at hl
          rw [hq1] at hl1
          rw [← hl] at hl1
          exact Nat.le_of_eq (Option.some.inj hl1).symm

/-- Lookups over concatenations agree when they agree segmentwise. -/
theorem findP_append_congr2 {A B : List Player} (C D : List Player) {q : Nat}
    (h1 : findP A q = findP C q) (h2 : findP B q = findP D q) :
    findP (A ++ B) q = findP (C ++ D) q := by
  cases hx : findP A q with
  | some p =>
      rw [findP_append_left _ hx, findP_append_left _ (h1.symm.trans hx)]
  | none =>
      rw [findP_append_right _ hx, findP_append_right _ (h1.symm.trans hx), h2]

/-- Erasing by id under distinct ids removes the id entirely. -/
theorem findP_eraseP_self :
    ∀ {l : List Player} {pid : Nat}, (ids l).Nodup →
      findP (l.eraseP (fun x => x.id == pid)) pid = none := by
  intro l
  induction l with
  | nil =>
      intro pid hnd
      rfl
  | cons a rest ih =>
      intro pid hnd
      simp only [ids, List.map_cons] at hnd
      obtain ⟨hna, hndr⟩ := List.nodup_cons.mp hnd
      by_cases hb : (a.id == pid) = true
      · rw [List.eraseP_cons_of_pos (p := fun x : Player => x.id == pid) hb]
        rw [findP_eq_none]
        intro hmem
        apply hna
        rw [eq_of_beq hb]
        exact hmem
      · rw [List.eraseP_cons_of_neg (p := fun x : Player => x.id == pid) hb,
          findP_cons, if_neg hb]
        exact ih hndr

/-- Filtering out an id removes it entirely. -/
theorem findP_filter_self (l : List Player) (pid : Nat) :
    findP (l.filter (fun x => ¬ x.id == pid)) pid = none := by
  rw [findP_eq_none]
  intro hmem
  simp only [ids, List.mem_map] at hmem
  obtain ⟨x, hx1, hx2⟩ := hmem
  have h2 := (List.mem_filter.mp hx1).2
  simp [hx2] at h2

/-- PMono from list equality. -/
theorem PMono_of_eq {a b : List Player} (h : b = a) : PMono a b := by
  rw [h]
  exact PMono_refl a

/-- Appending a player with a different id does not change a loss
observation. -/
theorem lossesOf_append_fresh {t : Tournament} {x : Player} {t1 : Tournament}
    (hp : t1.players = t.players ++ [x])
    (hu : t1.unused_players = t.unused_players)
    (he : t1.eliminated_players = t.eliminated_players)
    (q : Nat) (hne : x.id ≠ q) :
    lossesOf t1 q = lossesOf t q := by
  have hnew : findP [x] q = none := by
    rw [findP_cons, if_neg (by simp [hne])]
    rfl
  have hinner : findP (t.players ++ [x]) q = findP t.players q := by
    cases hfp : findP t.players q with
    | some p => exact findP_append_left _ hfp
    | none =>
        rw [findP_append_right _ hfp]
        exact hnew
  unfold lossesOf
  rw [hp, hu, he]
  exact congrArg (Option.map (fun p => p.losses))
    (findP_append_congr2 (t.players ++ t.unused_players) t.eliminated_players
      (findP_append_congr2 t.players t.unused_players hinner rfl) rfl)

/-- Any loss observation defined before `add_player` is unchanged by it:
the appended player carries a fresh id. -/
theorem add_player_losses_mono (t : Tournament) (name : String)
    (hfresh : ∀ p ∈ t.players ++ t.unused_players ++ t.eliminated_players,
      p.id < t.next_id) :
    LossesMonoAt t (t.add_player name).1 := by
  have main : ∀ t1 : Tournament,
      t1.players = t.players ++ [mkPlayer t.next_id (strTrim name)] →
      t1.unused_players = t.unused_players →
      t1.eliminated_players = t.eliminated_players →
      LossesMonoAt t t1 := by
    intro t1 hp hu he q l l1 hq hq1
    obtain ⟨m, hm, hmid, hml⟩ := lossesOf_some_mem hq
    have hqlt : q < t.next_id := by
      rw [← hmid]
      exact hfresh m hm
    have hne : (mkPlayer t.next_id (strTrim name)).id ≠ q := by
      simp only [mkPlayer]
      omega
    rw [lossesOf_append_fresh hp hu he q hne, hq] at hq1
    exact Nat.le_of_eq (Option.some.inj hq1)
  unfold Tournament.add_player
  split
  all_goals
    first
      | exact LossesMonoAt_refl t
      | (simp only []
         split_ifs
         · exact LossesMonoAt_refl t
         · exact LossesMonoAt_refl t
         · exact main _ rfl rfl rfl)

/-- Any loss observation surviving `remove_player` is unchanged by it. -/
theorem remove_player_losses_mono (t : Tournament) (pid : Nat)
    (hnd : (ids (t.players ++ t.unused_players ++
      t.eliminated_players)).Nodup) :
    LossesMonoAt t (t.remove_player pid).1 := by
  obtain ⟨hndP, hndU, hndE, hdisjP, hdisjU⟩ := nodup_three hnd
  have main : ∀ t1 : Tournament,
      t1.players = t.players.eraseP (fun p => p.id == pid) →
      t1.unused_players = t.unused_players →
      t1.eliminated_players = t.eliminated_players →
      LossesMonoAt t t1 := by
    intro t1 hp hu he q l l1 hq hq1
    by_cases hqe : q = pid
    · subst hqe
      cases hfp : findP t.players q with
      | some p =>
          obtain ⟨hpmem, hpid2⟩ := findP_mem hfp
          have hqP : q ∈ ids t.players := by
            rw [← hpid2]
            exact List.mem_map_of_mem (fun p => p.id) hpmem
          obtain ⟨hnotU, hnotE⟩ := hdisjP q hqP
          have h1 : findP t1.players q = none := by
            rw [hp]
            exact findP_eraseP_self hndP
          have h2 : findP t1.unused_players q = none := by
            rw [hu]
            exact (findP_eq_none _ _).mpr hnotU
          have h4 : lossesOf t1 q = none := by
            rw [lossesOf_third h1 h2, he,
              (findP_eq_none _ _).mpr hnotE]
            rfl
          rw [h4] at hq1
          exact absurd hq1 (by simp)
      | none =>
          have h1 : findP t1.players q = none := by
            rw [hp, List.eraseP_of_forall_not]
            · exact hfp
            · intro a ha hpa
              have h7 := findP_eq_of_mem_nodup hndP ha (eq_of_beq hpa)
              rw [hfp] at h7
              exact absurd h7 (by simp)
          have hsame : lossesOf t1 q = lossesOf t q := by
            cases hfu : findP t.unused_players q with
            | some u =>
                rw [lossesOf_second h1 (by rw [hu]; exact hfu),
                  lossesOf_second hfp hfu]
            | none =>
                rw [lossesOf_third h1 (by rw [hu]; exact hfu),
                  lossesOf_third hfp hfu, he]
          rw [hsame, hq] at hq1
          exact Nat.le_of_eq (Option.some.inj hq1)
    · have h1 : findP t1.players q = findP t.players q := by
        rw [hp]
        exact findP_eraseP_ne hqe
      have hsame : lossesOf t1 q = lossesOf t q := by
        cases hfp : findP t.players q with
        | some p =>
            rw [lossesOf_first (h1.trans hfp), lossesOf_first hfp]
        | none =>
            cases hfu : findP t.unused_players q with
            | some u =>
                rw [lossesOf_second (h1.trans hfp) (by rw [hu]; exact hfu),
                  lossesOf_second hfp hfu]
            | none =>
                rw [lossesOf_third (h1.trans hfp) (by rw [hu]; exact hfu),
                  lossesOf_third hfp hfu, he]
      rw [hsame, hq] at hq1
      exact Nat.le_of_eq (Option.some.inj hq1)
  unfold Tournament.remove_player
  split_ifs
  · exact LossesMonoAt_refl t
  · split
    · exact LossesMonoAt_refl t
    · exact main _ rfl rfl rfl

/-- Loss counts observed through `lossesOf` are unchanged by
`eliminate_player`: the moved player keeps its loss count. -/
theorem eliminate_player_losses_mono (t : Tournament) (pid : Nat)
    (hnd : (ids (t.players ++ t.unused_players ++
      t.eliminated_players)).Nodup) :
    LossesMonoAt t (t.eliminate_player pid).1 := by
  obtain ⟨hndP, hndU, hndE, hdisjP, hdisjU⟩ := nodup_three hnd
  have main : ∀ p : Player, findP (t.players ++ t.unused_players) pid = some p →
      ∀ t1 : Tournament,
      t1.players = t.players.filter (fun x => ¬ x.id == pid) →
      t1.unused_players = t.unused_players.filter (fun x => ¬ x.id == pid) →
      t1.eliminated_players = t.eliminated_players ++ [p.eliminate] →
      LossesMonoAt t t1 := by
    intro p hfind t1 hp hu he q l l1 hq hq1
    by_cases hqe : q = pid
    · subst hqe
      obtain ⟨hpmem, hpid2⟩ := findP_mem hfind
      have h1 : findP t1.players q = none := by
        rw [hp]
        exact findP_filter_self t.players q
      have h2 : findP t1.unused_players q = none := by
        rw [hu]
        exact findP_filter_self t.unused_players q
      have hnotE : q ∉ ids t.eliminated_players := by
        rcases List.mem_append.mp hpmem with hmem | hmem
        · exact (hdisjP q (by rw [← hpid2]; exact List.mem_map_of_mem (fun p => p.id) hmem)).2
        · exact hdisjU q (by rw [← hpid2]; exact List.mem_map_of_mem (fun p => p.id) hmem)
      have h3 : findP t1.eliminated_players q = some p.eliminate := by
        rw [he, findP_append_right _ ((findP_eq_none _ _).mpr hnotE), findP_cons,
          if_pos (by simp [Player.eliminate, hpid2])]
      have hl1 : lossesOf t1 q = some p.eliminate.losses := by
        rw [lossesOf_third h1 h2, h3]
        rfl
      have hl : lossesOf t q = some p.losses := by
        cases hfp : findP t.players q with
        | some p0 =>
            have h9 : p0 = p := by
              have h5 := findP_append_left t.unused_players hfp
              rw [hfind] at h5
              exact (Option.some.inj h5).symm
            subst h9
            exact lossesOf_first hfp
        | none =>
            have h5 : findP t.unused_players q = some p := by
              have h6 := findP_append_right t.unused_players hfp
              rw [hfind] at h6
              exact h6.symm
            exact lossesOf_second hfp h5
      rw [hl] at hq
      rw [hl1] at hq1
      obtain rfl := Option.some.inj hq
      obtain rfl := Option.some.inj hq1
      exact Nat.le_of_eq rfl
    · have h1 : findP t1.players q = findP t.players q := by
        rw [hp]
        apply findP_filter_other
        intro x hx
        simp [hx, hqe]
      have h2 : findP t1.unused_players q = findP t.unused_players q := by
        rw [hu]
        apply findP_filter_other
        intro x hx
        simp [hx, hqe]
      have h3 : findP t1.eliminated_players q = findP t.eliminated_players q := by
        rw [he]
        cases hfe : findP t.eliminated_players q with
        | some e => exact findP_append_left _ hfe
        | none =>
            rw [findP_append_right _ hfe, findP_cons, if_neg (by
              simp only [Player.eliminate]
              intro hcc
              exact hqe ((eq_of_beq hcc) ▸ (findP_mem hfind).2))]
            rfl
      have hsame : lossesOf t1 q = lossesOf t q := by
        cases hfp : findP t.players q with
        | some p0 => rw [lossesOf_first (h1.trans hfp), lossesOf_first hfp]
        | none =>
            cases hfu : findP t.unused_players q with
            | some u =>
                rw [lossesOf_second (h1.trans hfp) (h2.trans hfu),
                  lossesOf_second hfp hfu]
            | none =>
                rw [lossesOf_third (h1.trans hfp) (h2.trans hfu),
                  lossesOf_third hfp hfu, h3]
      rw [hsame, hq] at hq1
      exact Nat.le_of_eq (Option.some.inj hq1)
  unfold Tournament.eliminate_player
  split_ifs
  · exact LossesMonoAt_refl t
  · rcases hfind : findP (t.players ++ t.unused_players) pid with _ | p
    · simp only [hfind]
      exact LossesMonoAt_refl t
    · simp only [hfind]
      exact main p hfind _ rfl rfl rfl

/-- Loss counts observed through `lossesOf` are unchanged by
`generate_group_play_matches` (it only touches sit-out counters and the
round state). -/
theorem generate_group_play_losses_mono (tb : Nat → Nat)
    (sh : List Player → List Player) (t : Tournament)
    (hnd : (ids (t.players ++ t.unused_players ++
      t.eliminated_players)).Nodup) :
    LossesMonoAt t (generate_group_play_matches tb sh t).1 := by
  obtain ⟨hndP, hndU, hndE, hdisjP, hdisjU⟩ := nodup_three hnd
  obtain ⟨hgids, hgmono⟩ := gpPlayers_props tb t
  have main : ∀ t1 : Tournament,
      t1.players = gpPlayers tb t →
      t1.unused_players = gpUnused tb t →
      t1.eliminated_players = t.eliminated_players →
      LossesMonoAt t t1 := by
    intro t1 hp hu he q l l1 hq hq1
    cases hfp : findP t.players q with
    | some p =>
        have hs1 : (findP (gpPlayers tb t) q).isSome := by
          rw [hgmono.1 q, hfp]
          rfl
        obtain ⟨p1, hp1⟩ := Option.isSome_iff_exists.mp hs1
        have hp1b : findP t1.players q = some p1 := by
          rw [hp]
          exact hp1
        rw [lossesOf_first hfp] at hq
        rw [lossesOf_first hp1b] at hq1
        obtain rfl := Option.some.inj hq
        obtain rfl := Option.some.inj hq1
        exact (hgmono.2 q p p1 hfp hp1).1
    | none =>
        have hqnot : q ∉ ids t.players := (findP_eq_none _ _).mp hfp
        have h1 : findP t1.players q = none := by
          rw [hp, findP_eq_none, hgids]
          exact hqnot
        have h2 : findP t1.unused_players q = none := by
          rw [hu, findP_eq_none]
          intro hmem
          exact hqnot (gpUnused_ids_sub tb t q hmem)
        cases hfu : findP t.unused_players q with
        | some u =>
            obtain ⟨humem, huid⟩ := findP_mem hfu
            have hqU : q ∈ ids t.unused_players := by
              rw [← huid]
              exact List.mem_map_of_mem (fun p => p.id) humem
            have hnotE := hdisjU q hqU
            have h4 : lossesOf t1 q = none := by
              rw [lossesOf_third h1 h2, he, (findP_eq_none _ _).mpr hnotE]
              rfl
            rw [h4] at hq1
            exact absurd hq1 (by simp)
        | none =>
            have hsame : lossesOf t1 q = lossesOf t q := by
              rw [lossesOf_third h1 h2, lossesOf_third hfp hfu, he]
            rw [hsame, hq] at hq1
            exact Nat.le_of_eq (Option.some.inj hq1)
  unfold generate_group_play_matches
  split_ifs
  · exact LossesMonoAt_refl t
  · exact LossesMonoAt_refl t
  · exact main _ rfl rfl rfl

/-- Loss counts observed through `lossesOf` are unchanged by
`generate_semi_final_matches` (it only shuffles the roster). -/
theorem generate_semi_finals_losses_mono (sh : List Player → List Player)
    (hsh : ∀ l : List Player, (sh l).Perm l) (t : Tournament)
    (hnd : (ids (t.players ++ t.unused_players ++
      t.eliminated_players)).Nodup) :
    LossesMonoAt t (generate_semi_final_matches sh t).1 := by
  obtain ⟨hndP, hndU, hndE, hdisjP, hdisjU⟩ := nodup_three hnd
  have hperm : (sh t.players).Perm t.players := hsh t.players
  have hidsperm : (ids (sh t.players)).Perm (ids t.players) := by
    unfold ids
    exact hperm.map (fun p => p.id)
  have main : ∀ t1 : Tournament,
      t1.players = sh t.players →
      t1.unused_players = t.unused_players →
      t1.eliminated_players = t.eliminated_players →
      LossesMonoAt t t1 := by
    intro t1 hp hu he q l l1 hq hq1
    cases hfp : findP t.players q with
    | some p =>
        obtain ⟨hpmem, hpid2⟩ := findP_mem hfp
        have h1 : findP t1.players q = some p := by
          rw [hp]
          exact findP_eq_of_mem_nodup (hidsperm.nodup_iff.mpr hndP)
            (hperm.mem_iff.mpr hpmem) hpid2
        rw [lossesOf_first hfp] at hq
        rw [lossesOf_first h1] at hq1
        exact Nat.le_of_eq ((Option.some.inj hq).symm.trans (Option.some.inj hq1))
    | none =>
        have h1 : findP t1.players q = none := by
          rw [hp, findP_eq_none]
          intro hmem
          exact (findP_eq_none _ _).mp hfp (hidsperm.mem_iff.mp hmem)
        cases hfu : findP t.unused_players q with
        | some u =>
            rw [lossesOf_second hfp hfu] at hq
            rw [lossesOf_second h1 (by rw [hu]; exact hfu)] at hq1
            exact Nat.le_of_eq ((Option.some.inj hq).symm.trans (Option.some.inj hq1))
        | none =>
            have hsame : lossesOf t1 q = lossesOf t q := by
              rw [lossesOf_third h1 (by rw [hu]; exact hfu),
                lossesOf_third hfp hfu, he]
            rw [hsame, hq] at hq1
            exact Nat.le_of_eq (Option.some.inj hq1)
  unfold generate_semi_final_matches
  split_ifs
  · exact LossesMonoAt_refl t
  · exact LossesMonoAt_refl t
  · exact main _ rfl rfl rfl

/-- Loss counts never decrease across `process_group_play_results`,
whether it succeeds or aborts part-way: losers gain losses, winners and
bystanders keep theirs, and eliminated players keep their final counts. -/
theorem process_group_play_losses_mono (t : Tournament)
    (hnd : (ids (t.players ++ t.unused_players ++
      t.eliminated_players)).Nodup) :
    LossesMonoAt t (process_group_play_results t).1 := by
  obtain ⟨hndP, hndU, hndE, hdisjP, hdisjU⟩ := nodup_three hnd
  unfold process_group_play_results
  split_ifs
  · exact LossesMonoAt_refl t
  · exact LossesMonoAt_refl t
  · simp only []
    rcases hpm : processMatches t.max_losses
        (t.matches_.map (fun m => (m.team_1, m.team_2,
          (mapLookup t.match_results m.id).getD Team.one)))
        { t with last_eliminated_players := [] } with ⟨t1m, rm⟩
    obtain ⟨hA, hB, hC, ex, hex1, hex2, hex3⟩ :=
      processMatches_pointwise t.max_losses _ _ _ _ hpm
    have hB' : ids t1m.players = ids t.players := hB
    have hC' : PMono t.players t1m.players := hC
    have hex1' : t1m.last_eliminated_players = ex := by
      have h9 : t1m.last_eliminated_players = ([] : List Player) ++ ex := hex1
      rw [List.nil_append] at h9
      exact h9
    have hunb : t1m.unused_players = t.unused_players := by rw [hA]
    have heli : t1m.eliminated_players = t.eliminated_players := by rw [hA]
    rcases rm with _ | e
    · simp only [hpm]
      have hcore : ∀ t2 : Tournament,
          t2.players = t1m.players.filter (fun p => ¬ p.eliminated) →
          t2.unused_players = [] →
          t2.eliminated_players =
            t1m.eliminated_players ++ t1m.last_eliminated_players →
          LossesMonoAt t t2 := by
        intro t2 hp2 hu2 he2 q l l1 hq hq1
        cases hfp : findP t.players q with
        | some p =>
            have hs1 : (findP t1m.players q).isSome := by
              rw [hC'.1 q, hfp]
              rfl
            obtain ⟨p1, hp1⟩ := Option.isSome_iff_exists.mp hs1
            obtain ⟨hple, hpflag⟩ := hC'.2 q p p1 hfp hp1
            rw [lossesOf_first hfp] at hq
            obtain rfl := Option.some.inj hq
            by_cases hp1e : p1.eliminated = true
            · have h1 : findP t2.players q = none := by
                rw [hp2, findP_eq_none]
                intro hmem
                simp only [ids, List.mem_map] at hmem
                obtain ⟨y, hy1, hy2⟩ := hmem
                obtain ⟨hy3, hy4⟩ := List.mem_filter.mp hy1
                have h5 := findP_eq_of_mem_nodup
                  (by rw [hB']; exact hndP : (ids t1m.players).Nodup) hy3 hy2
                rw [h5] at hp1
                obtain rfl := Option.some.inj hp1
                simp [hp1e] at hy4
              have h2 : findP t2.unused_players q = none := by
                rw [hu2]
                rfl
              have hqP : q ∈ ids t.players := by
                obtain ⟨hpm2, hpid2⟩ := findP_mem hfp
                rw [← hpid2]
                exact List.mem_map_of_mem (fun p => p.id) hpm2
              have hE1 : findP t1m.eliminated_players q = none := by
                rw [heli]
                exact (findP_eq_none _ _).mpr (hdisjP q hqP).2
              rw [lossesOf_third h1 h2, he2, findP_append_right _ hE1,
                hex1'] at hq1
              cases hfe : findP ex q with
              | none =>
                  rw [hfe] at hq1
                  exact absurd hq1 (by simp)
              | some x =>
                  rw [hfe] at hq1
                  obtain ⟨hxmem, hxid⟩ := findP_mem hfe
                  obtain ⟨-, ⟨p0, hp0f, hp0l⟩, -⟩ := hex3 x hxmem
                  have hp0f2 : findP t.players q = some p0 := by
                    rw [← hxid]
                    exact hp0f
                  rw [hfp] at hp0f2
                  obtain rfl := (Option.some.inj hp0f2).symm
                  obtain rfl := Option.some.inj hq1
                  exact hp0l
            · have hmem1 : p1 ∈ t1m.players := (findP_mem hp1).1
              have hid1 : p1.id = q := (findP_mem hp1).2
              have h1 : findP t2.players q = some p1 := by
                rw [hp2]
                apply findP_eq_of_mem_nodup
                · have hsub : (ids (t1m.players.filter
                      (fun p => ¬ p.eliminated))).Sublist (ids t1m.players) := by
                    unfold ids
                    exact (List.filter_sublist _).map (fun p : Player => p.id)
                  exact List.Nodup.sublist hsub (by rw [hB']; exact hndP)
                · exact List.mem_filter.mpr ⟨hmem1, by simp [hp1e]⟩
                · exact hid1
              rw [lossesOf_first h1] at hq1
              obtain rfl := Option.some.inj hq1
              exact hple
        | none =>
            have hqnot : q ∉ ids t.players := (findP_eq_none _ _).mp hfp
            have h1 : findP t2.players q = none := by
              rw [hp2, findP_eq_none]
              intro hmem
              apply hqnot
              rw [← hB']
              simp only [ids, List.mem_map] at hmem ⊢
              obtain ⟨y, hy1, hy2⟩ := hmem
              exact ⟨y, (List.mem_filter.mp hy1).1, hy2⟩
            have h2 : findP t2.unused_players q = none := by
              rw [hu2]
              rfl
            have hexnone : findP ex q = none := by
              cases hfe : findP ex q with
              | none => rfl
              | some x =>
                  obtain ⟨hxmem, hxid⟩ := findP_mem hfe
                  obtain ⟨-, ⟨p0, hp0f, -⟩, -⟩ := hex3 x hxmem
                  have hp0f2 : findP t.players q = some p0 := by
                    rw [← hxid]
                    exact hp0f
                  rw [hfp] at hp0f2
                  exact absurd hp0f2 (by simp)
            have hafter : lossesOf t2 q =
                (findP t.eliminated_players q).map (fun p => p.losses) := by
              rw [lossesOf_third h1 h2, he2]
              congr 1
              rw [hex1', heli]
              cases hfe : findP t.eliminated_players q with
              | some e0 => exact findP_append_left _ hfe
              | none =>
                  rw [findP_append_right _ hfe]
                  exact hexnone
            cases hfu : findP t.unused_players q with
            | some u =>
                obtain ⟨humem, huid⟩ := findP_mem hfu
                have hqU : q ∈ ids t.unused_players := by
                  rw [← huid]
                  exact List.mem_map_of_mem (fun p => p.id) humem
                have h4 : lossesOf t2 q = none := by
                  rw [hafter, (findP_eq_none _ _).mpr (hdisjU q hqU)]
                  rfl
                rw [h4] at hq1
                exact absurd hq1 (by simp)
            | none =>
                rw [lossesOf_third hfp hfu] at hq
                rw [hafter, hq] at hq1
                exact Nat.le_of_eq (Option.some.inj hq1)
      split_ifs
      · exact hcore _ rfl rfl rfl
      · exact hcore _ rfl rfl rfl
    · simp only [hpm]
      exact lossesOf_mono_of_segments heli hC' (PMono_of_eq hunb)

/-- Loss counts never decrease across `process_semi_final_results`,
whether it succeeds or aborts part-way. -/
theorem process_semi_final_losses_mono (t : Tournament)
    (hnd : (ids (t.players ++ t.unused_players ++
      t.eliminated_players)).Nodup) :
    LossesMonoAt t (process_semi_final_results t).1 := by
  obtain ⟨hndP, hndU, hndE, hdisjP, hdisjU⟩ := nodup_three hnd
  unfold process_semi_final_results
  split_ifs
  · exact LossesMonoAt_refl t
  · exact LossesMonoAt_refl t
  · exact LossesMonoAt_refl t
  · simp only []
    rcases hpm : playoffMatches
        (t.matches_.map (fun m => (m.team_1, m.team_2,
          (mapLookup t.final_match_results m.id).getD Team.one))) t
      with ⟨t1m, rm⟩
    obtain ⟨hA, hBp, hBu, hCp, hCu⟩ := playoffMatches_pointwise _ _ _ _ hpm
    have heli : t1m.eliminated_players = t.eliminated_players := by rw [hA]
    rcases rm with _ | e
    · simp only [hpm]
      have hcore : ∀ t2 : Tournament,
          t2.players = t1m.players.filter (fun p =>
            (t1m.matches_.flatMap (fun m => winnerIds m
              ((mapLookup t1m.final_match_results m.id).getD
                Team.one))).contains p.id) →
          t2.unused_players = t1m.unused_players →
          t2.eliminated_players = t1m.eliminated_players →
          LossesMonoAt t t2 := by
        intro t2 hp2 hu2 he2 q l l1 hq hq1
        cases hfp : findP t.players q with
        | some p =>
            have hs1 : (findP t1m.players q).isSome := by
              rw [hCp.1 q, hfp]
              rfl
            obtain ⟨p1, hp1⟩ := Option.isSome_iff_exists.mp hs1
            obtain ⟨hple, -⟩ := hCp.2 q p p1 hfp hp1
            rw [lossesOf_first hfp] at hq
            obtain rfl := Option.some.inj hq
            cases hf2 : findP t2.players q with
            | some p2 =>
                obtain ⟨hp2mem, hp2id⟩ := findP_mem hf2
                rw [hp2] at hp2mem
                have hp2mem2 : p2 ∈ t1m.players := (List.mem_filter.mp hp2mem).1
                have h5 := findP_eq_of_mem_nodup
                  (by rw [hBp]; exact hndP : (ids t1m.players).Nodup)
                  hp2mem2 hp2id
                rw [h5] at hp1
                obtain rfl := Option.some.inj hp1
                rw [lossesOf_first hf2] at hq1
                obtain rfl := Option.some.inj hq1
                exact hple
            | none =>
                have hqP : q ∈ ids t.players := by
                  obtain ⟨hm2, hi2⟩ := findP_mem hfp
                  rw [← hi2]
                  exact List.mem_map_of_mem (fun p => p.id) hm2
                have h2 : findP t2.unused_players q = none := by
                  rw [hu2, findP_eq_none]
                  intro hmem
                  rw [hBu] at hmem
                  exact (hdisjP q hqP).1 hmem
                have h4 : lossesOf t2 q = none := by
                  rw [lossesOf_third hf2 h2, he2, heli,
                    (findP_eq_none _ _).mpr (hdisjP q hqP).2]
                  rfl
                rw [h4] at hq1
                exact absurd hq1 (by simp)
        | none =>
            have hqnot : q ∉ ids t.players := (findP_eq_none _ _).mp hfp
            have h1 : findP t2.players q = none := by
              rw [hp2, findP_eq_none]
              intro hmem
              apply hqnot
              rw [← hBp]
              simp only [ids, List.mem_map] at hmem ⊢
              obtain ⟨y, hy1, hy2⟩ := hmem
              exact ⟨y, (List.mem_filter.mp hy1).1, hy2⟩
            cases hfu : findP t.unused_players q with
            | some u =>
                have hs1 : (findP t1m.unused_players q).isSome := by
                  rw [hCu.1 q, hfu]
                  rfl
                obtain ⟨u1, hu1⟩ := Option.isSome_iff_exists.mp hs1
                obtain ⟨hule, -⟩ := hCu.2 q u u1 hfu hu1
                rw [lossesOf_second hfp hfu] at hq
                obtain rfl := Option.some.inj hq
                rw [lossesOf_second h1 (by rw [hu2]; exact hu1)] at hq1
                obtain rfl := Option.some.inj hq1
                exact hule
            | none =>
                have h2 : findP t2.unused_players q = none := by
                  rw [hu2]
                  cases hx : findP t1m.unused_players q with
                  | none => rfl
                  | some xx =>
                      have h7 := hCu.1 q
                      rw [hx, hfu] at h7
                      simp at h7
                have hsame : lossesOf t2 q = lossesOf t q := by
                  rw [lossesOf_third h1 h2, he2, heli, lossesOf_third hfp hfu]
                rw [hsame, hq] at hq1
                exact Nat.le_of_eq (Option.some.inj hq1)
      exact hcore _ rfl rfl rfl
    · simp only [hpm]
      exact lossesOf_mono_of_segments heli hCp hCu

/-- Loss counts never decrease across `process_finals_results`, whether it
succeeds or aborts part-way. -/
theorem process_finals_losses_mono (t : Tournament) :
    LossesMonoAt t (process_finals_results t).1 := by
  unfold process_finals_results
  split_ifs
  · exact LossesMonoAt_refl t
  · exact LossesMonoAt_refl t
  · simp only []
    rcases hlk : mapLookup t.final_match_results
        (t.matches_.getD 0 dummyMatch).id with _ | w
    · simp only [hlk]
      exact LossesMonoAt_refl t
    · simp only [hlk]
      rcases ha : apply_playoff_match_result t
          (t.matches_.getD 0 dummyMatch).team_1
          (t.matches_.getD 0 dummyMatch).team_2 w with ⟨t1m, rm⟩
      obtain ⟨hA, hBp, hBu, hCp, hCu⟩ := apply_playoff_pointwise ha
      have heli : t1m.eliminated_players = t.eliminated_players := by rw [hA]
      rcases rm with _ | e
      · simp only [ha]
        exact lossesOf_mono_of_segments heli hCp hCu
      · simp only [ha]
        exact lossesOf_mono_of_segments heli hCp hCu

/-- On a successful `add_players_back_from_last_eliminated`, each selected
last-eliminated player re-enters the roster as the same record with only
the eliminated flag cleared: same id, same loss count, same wins. -/
theorem add_back_readded (t : Tournament) (pids : List Nat)
    (hndL : (ids t.last_eliminated_players).Nodup)
    (hdisj : ∀ pid ∈ ids t.last_eliminated_players, pid ∉ ids t.players)
    (hsucc : (add_players_back_from_last_eliminated t pids).2 = none) :
    ∀ p ∈ t.last_eliminated_players, p.id ∈ pids →
      findP (add_players_back_from_last_eliminated t pids).1.players p.id =
        some { p with eliminated := false } := by
  intro p hp hin
  have hpid : p.id ∈ ids t.last_eliminated_players :=
    List.mem_map_of_mem (fun p => p.id) hp
  have hnotP : findP t.players p.id = none :=
    (findP_eq_none _ _).mpr (hdisj p.id hpid)
  have hc : pids.contains p.id = true := List.elem_iff.mpr hin
  have hmemf : p ∈ t.last_eliminated_players.filter
      (fun x => pids.contains x.id) :=
    List.mem_filter.mpr ⟨hp, hc⟩
  have hmemm : ({ p with eliminated := false } : Player) ∈
      (t.last_eliminated_players.filter
        (fun x => pids.contains x.id)).map
        (fun x => { x with eliminated := false }) :=
    List.mem_map_of_mem (fun x => { x with eliminated := false }) hmemf
  have hndm : (ids ((t.last_eliminated_players.filter
      (fun x => pids.contains x.id)).map
      (fun x => { x with eliminated := false }))).Nodup := by
    have hsub : (ids ((t.last_eliminated_players.filter
        (fun x => pids.contains x.id)).map
        (fun x => { x with eliminated := false }))).Sublist
        (ids t.last_eliminated_players) := by
      unfold ids
      rw [List.map_map]
      exact (List.filter_sublist _).map (fun x : Player => x.id)
    exact List.Nodup.sublist hsub hndL
  have hgoal : findP (t.players ++
      (t.last_eliminated_players.filter
        (fun x => pids.contains x.id)).map
        (fun x => { x with eliminated := false })) p.id =
      some { p with eliminated := false } := by
    rw [findP_append_right _ hnotP]
    exact findP_eq_of_mem_nodup hndm hmemm rfl
  unfold add_players_back_from_last_eliminated at hsucc ⊢
  simp only [] at hsucc ⊢
  by_cases h1 : t.state ≠ TournamentState.finalSelection
  · rw [if_pos h1] at hsucc
    simp at hsucc
  · rw [if_neg h1] at hsucc ⊢
    by_cases h2 : t.players_required_for_semi ≤ t.players.length
    · rw [if_pos h2] at hsucc
      simp at hsucc
    · rw [if_neg h2] at hsucc ⊢
      by_cases h3 : pids.length ≠ t.players_required_for_semi - t.players.length
      · rw [if_pos h3] at hsucc
        simp at hsucc
      · rw [if_neg h3] at hsucc ⊢
        rcases hfind : pids.find?
            (fun pid => ¬ t.last_eliminated_players.any (fun p => p.id == pid))
          with _ | bad
        · simp only [hfind] at hsucc ⊢
          exact hgoal
        · simp only [hfind] at hsucc
          simp at hsucc

/-- Loss counts are untouched by `set_max_losses`. -/
theorem set_max_losses_losses_mono (t : Tournament) (n : Nat) :
    LossesMonoAt t (t.set_max_losses n).1 := by
  unfold Tournament.set_max_losses
  split_ifs
  · exact LossesMonoAt_refl t
  · exact LossesMonoAt_of_eq rfl rfl rfl

/-- Loss counts are untouched by `start_tournament`. -/
theorem start_tournament_losses_mono (t : Tournament) :
    LossesMonoAt t (start_tournament t).1 := by
  unfold start_tournament
  simp only []
  split_ifs
  · exact LossesMonoAt_refl t
  · exact LossesMonoAt_refl t
  · exact LossesMonoAt_of_eq rfl rfl rfl
  · exact LossesMonoAt_of_eq rfl rfl rfl

/-- Loss counts are untouched by `set_match_winner`. -/
theorem set_match_winner_losses_mono (t : Tournament) (mid : Nat) (team : Team) :
    LossesMonoAt t (t.set_match_winner mid team).1 := by
  unfold Tournament.set_match_winner
  split_ifs
  · exact LossesMonoAt_of_eq rfl rfl rfl
  · exact LossesMonoAt_refl t

/-- Loss counts are untouched by `start_semi_finals`. -/
theorem start_semi_finals_losses_mono (t : Tournament) :
    LossesMonoAt t (start_semi_finals t).1 := by
  unfold start_semi_finals
  split_ifs
  · exact LossesMonoAt_refl t
  · exact LossesMonoAt_refl t
  · exact LossesMonoAt_of_eq rfl rfl rfl

/-- Loss counts are untouched by `set_finals_match_winner`. -/
theorem set_finals_match_winner_losses_mono (t : Tournament) (mid : Nat)
    (team : Team) :
    LossesMonoAt t (set_finals_match_winner t mid team).1 := by
  unfold set_finals_match_winner
  split_ifs
  · exact LossesMonoAt_of_eq rfl rfl rfl
  · exact LossesMonoAt_refl t

/-!
Preservation of the state invariant `Inv` by every core operation,
culminating in the amended C2 disjointness theorem for reachable states.
-/

/-- Ids distribute over concatenation. -/
theorem ids_append (A B : List Player) : ids (A ++ B) = ids A ++ ids B := by
  simp [ids]

/-- A player list with no ids is empty. -/
theorem eq_nil_of_ids_nil {l : List Player} (h : ids l = []) : l = [] := by
  cases l with
  | nil => rfl
  | cons a rest => simp [ids] at h

/-- Transport of an id bound along an id-list inclusion. -/
theorem id_bound_of_ids_sub {L1 L0 : List Player} {n : Nat}
    (h : ∀ q ∈ ids L1, q ∈ ids L0) (hb : ∀ p ∈ L0, p.id < n) :
    ∀ p ∈ L1, p.id < n := by
  intro p hp
  have h2 : p.id ∈ ids L0 := h p.id (List.mem_map_of_mem (fun p => p.id) hp)
  simp only [ids, List.mem_map] at h2
  obtain ⟨x, hx1, hx2⟩ := h2
  rw [← hx2]
  exact hb x hx1

/-- Transport of an id bound along an id-list equality. -/
theorem id_bound_of_ids_eq {L1 L0 : List Player} {n : Nat}
    (h : ids L1 = ids L0) (hb : ∀ p ∈ L0, p.id < n) :
    ∀ p ∈ L1, p.id < n :=
  id_bound_of_ids_sub (fun _ hq => h ▸ hq) hb

/-- Splitting the freshness conjunct of the invariant. -/
theorem inv4_split {t : Tournament}
    (h4 : ∀ p ∈ t.players ++ t.unused_players ++ t.eliminated_players ++
      t.last_eliminated_players, p.id < t.next_id) :
    (∀ p ∈ t.players, p.id < t.next_id) ∧
    (∀ p ∈ t.unused_players, p.id < t.next_id) ∧
    (∀ p ∈ t.eliminated_players, p.id < t.next_id) ∧
    (∀ p ∈ t.last_eliminated_players, p.id < t.next_id) := by
  refine ⟨fun p hp => h4 p ?_, fun p hp => h4 p ?_,
    fun p hp => h4 p ?_, fun p hp => h4 p ?_⟩ <;> simp [hp]

/-- Rebuilding the freshness conjunct of the invariant. -/
theorem inv4_join {P U E L : List Player} {n : Nat}
    (h1 : ∀ p ∈ P, p.id < n) (h2 : ∀ p ∈ U, p.id < n)
    (h3 : ∀ p ∈ E, p.id < n) (h4 : ∀ p ∈ L, p.id < n) :
    ∀ p ∈ P ++ U ++ E ++ L, p.id < n := by
  intro p hp
  simp only [List.mem_append] at hp
  rcases hp with ((hp | hp) | hp) | hp
  · exact h1 p hp
  · exact h2 p hp
  · exact h3 p hp
  · exact h4 p hp

/-- The invariant holds in any state with empty collections in Setup. -/
theorem Inv_of_fresh {t : Tournament} (hp : t.players = [])
    (hu : t.unused_players = []) (he : t.eliminated_players = [])
    (hl : t.last_eliminated_players = []) (hm : t.matches_ = [])
    (hs : t.state = .setup) : Inv t := by
  unfold Inv
  rw [hp, hu, he, hl, hm, hs]
  refine ⟨by simp [ids], by simp [ids], by simp [ids], by simp, ?_, ?_, ?_, ?_⟩
  · intro h
    simp at h
  · intro h
    simp at h
  · intro h
    exact ⟨rfl, rfl⟩
  · intro h
    rfl

/-- A fresh tournament satisfies the invariant. -/
theorem Inv_new (ml : Nat) (mode : TournamentMode) :
    Inv (Tournament.new ml mode) :=
  Inv_of_fresh rfl rfl rfl rfl rfl rfl

/-- The invariant only reads the five collections, the state and the
counter, and tolerates a larger counter. -/
theorem Inv_congr {t t1 : Tournament} (h : Inv t)
    (hp : t1.players = t.players) (hu : t1.unused_players = t.unused_players)
    (he : t1.eliminated_players = t.eliminated_players)
    (hl : t1.last_eliminated_players = t.last_eliminated_players)
    (hm : t1.matches_ = t.matches_) (hs : t1.state = t.state)
    (hn : t.next_id ≤ t1.next_id) : Inv t1 := by
  obtain ⟨I1, I2, I3, I4, I5, I6, I7, I8⟩ := h
  unfold Inv teamIds
  rw [hp, hu, he, hl, hm, hs]
  refine ⟨I1, I2, I3, ?_, I5, ?_, I7, I8⟩
  · intro p hpm
    exact Nat.lt_of_lt_of_le (I4 p hpm) hn
  · intro hgp
    exact I6 hgp

/-- The invariant is preserved by `add_player` on every path. -/
theorem Inv_add_player (t : Tournament) (name : String) (h : Inv t) :
    Inv (t.add_player name).1 := by
  obtain ⟨I1, I2, I3, I4, I5, I6, I7, I8⟩ := h
  obtain ⟨B1, B2, B3, B4⟩ := inv4_split I4
  have main : ∀ t1 : Tournament,
      t1.players = t.players ++ [mkPlayer t.next_id (strTrim name)] →
      t1.unused_players = t.unused_players →
      t1.eliminated_players = t.eliminated_players →
      t1.last_eliminated_players = t.last_eliminated_players →
      t1.matches_ = t.matches_ →
      t1.state = t.state →
      t1.next_id = t.next_id + 1 →
      Inv t1 := by
    intro t1 hp hu he hl hm hs hn
    unfold Inv teamIds
    rw [hp, hu, he, hl, hm, hs, hn]
    have hfreshP : t.next_id ∉ ids t.players := by
      intro hmem
      simp only [ids, List.mem_map] at hmem
      obtain ⟨x, hx1, hx2⟩ := hmem
      exact absurd (B1 x hx1) (by omega)
    refine ⟨?_, ?_, ?_, ?_, ?_, I6, I7, I8⟩
    · rw [ids_append]
      rw [List.nodup_append]
      refine ⟨I1, by simp [ids, mkPlayer], ?_⟩
      intro a ha hb
      simp only [ids, mkPlayer, List.map_cons, List.map_nil,
        List.mem_cons, List.not_mem_nil, or_false] at hb
      subst hb
      exact hfreshP ha
    · intro pid hpid
      rw [ids_append] at hpid
      rcases List.mem_append.mp hpid with hpid | hpid
      · exact I2 pid hpid
      · simp only [ids, mkPlayer, List.map_cons, List.map_nil,
          List.mem_cons, List.not_mem_nil, or_false] at hpid
        subst hpid
        intro hmem
        simp only [ids, List.mem_map] at hmem
        obtain ⟨x, hx1, hx2⟩ := hmem
        exact absurd (B3 x hx1) (by omega)
    · intro pid hpid
      rw [ids_append]
      exact List.mem_append_left _ (I3 pid hpid)
    · refine inv4_join ?_ ?_ ?_ ?_
      · intro p hpm
        rcases List.mem_append.mp hpm with hpm | hpm
        · exact Nat.lt_succ_of_lt (B1 p hpm)
        · simp only [List.mem_cons, List.not_mem_nil, or_false] at hpm
          subst hpm
          simp [mkPlayer]
      · intro p hpm
        exact Nat.lt_succ_of_lt (B2 p hpm)
      · intro p hpm
        exact Nat.lt_succ_of_lt (B3 p hpm)
      · intro p hpm
        exact Nat.lt_succ_of_lt (B4 p hpm)
    · intro hfs
      obtain ⟨J1, J2⟩ := I5 hfs
      refine ⟨J1, ?_⟩
      intro pid hpid
      rw [ids_append]
      intro hmem
      rcases List.mem_append.mp hmem with hmem | hmem
      · exact J2 pid hpid hmem
      · simp only [ids, mkPlayer, List.map_cons, List.map_nil,
          List.mem_cons, List.not_mem_nil, or_false] at hmem
        subst hmem
        simp only [ids, List.mem_map] at hpid
        obtain ⟨x, hx1, hx2⟩ := hpid
        exact absurd (B4 x hx1) (by omega)
  unfold Tournament.add_player
  split
  all_goals
    first
      | exact ⟨I1, I2, I3, I4, I5, I6, I7, I8⟩
      | (simp only []
         split_ifs
         · exact ⟨I1, I2, I3, I4, I5, I6, I7, I8⟩
         · exact ⟨I1, I2, I3, I4, I5, I6, I7, I8⟩
         · exact main _ rfl rfl rfl rfl rfl rfl rfl)

/-- The in-place loss update keeps the id. -/
theorem setLossesUpdate_id (a b : Nat) (c : Bool) (p : Player) :
    (setLossesUpdate a b c p).id = p.id := by
  unfold setLossesUpdate
  simp only []
  split_ifs <;> rfl

/-- Ids surviving an id-removing filter differ from the removed id. -/
theorem mem_ids_filter_ne {l : List Player} {pid q : Nat}
    (hq : q ∈ ids (l.filter (fun x => ¬ x.id == pid))) : q ≠ pid := by
  simp only [ids, List.mem_map] at hq
  obtain ⟨x, hx1, hx2⟩ := hq
  have hx3 := (List.mem_filter.mp hx1).2
  simp at hx3
  intro hqq
  exact hx3 (hx2.trans hqq)

/-- The id list of an id-removing filter is a sublist of the original. -/
theorem ids_filter_sublist (l : List Player) (g : Player → Bool) :
    (ids (l.filter g)).Sublist (ids l) := by
  unfold ids
  exact (List.filter_sublist _).map (fun x : Player => x.id)

/-- The invariant is preserved by `remove_player` on every path. -/
theorem Inv_remove_player (t : Tournament) (pid : Nat) (h : Inv t) :
    Inv (t.remove_player pid).1 := by
  obtain ⟨I1, I2, I3, I4, I5, I6, I7, I8⟩ := h
  obtain ⟨B1, B2, B3, B4⟩ := inv4_split I4
  unfold Tournament.remove_player
  split_ifs with hst
  · exact ⟨I1, I2, I3, I4, I5, I6, I7, I8⟩
  · have hsetup : t.state = .setup := not_not.mp hst
    have main : ∀ t1 : Tournament,
        t1.players = t.players.eraseP (fun p => p.id == pid) →
        t1.unused_players = t.unused_players →
        t1.eliminated_players = t.eliminated_players →
        t1.last_eliminated_players = t.last_eliminated_players →
        t1.matches_ = t.matches_ →
        t1.state = t.state →
        t1.next_id = t.next_id → Inv t1 := by
      intro t1 hp hu he hl hm hs hn
      unfold Inv teamIds
      rw [hp, hu, he, hl, hm, hs, hn]
      have hsubP : (ids (t.players.eraseP (fun p => p.id == pid))).Sublist
          (ids t.players) := by
        unfold ids
        exact (List.eraseP_sublist _).map (fun x : Player => x.id)
      refine ⟨List.Nodup.sublist hsubP I1, ?_, ?_, ?_, ?_, I6, I7, I8⟩
      · intro q hq
        exact I2 q (hsubP.subset hq)
      · intro q hq
        rw [I8 (by rw [hsetup]; simp)] at hq
        simp [ids] at hq
      · exact inv4_join
          (id_bound_of_ids_sub (fun q hq => hsubP.subset hq) B1) B2 B3 B4
      · intro hfs
        rw [hsetup] at hfs
        simp at hfs
    split
    · exact ⟨I1, I2, I3, I4, I5, I6, I7, I8⟩
    · exact main _ rfl rfl rfl rfl rfl rfl rfl

/-- The invariant is preserved by `set_max_losses` on every path. -/
theorem Inv_set_max_losses (t : Tournament) (n : Nat) (h : Inv t) :
    Inv (t.set_max_losses n).1 := by
  unfold Tournament.set_max_losses
  split_ifs
  · exact h
  · exact Inv_congr h rfl rfl rfl rfl rfl rfl (Nat.le_refl t.next_id)

/-- The invariant is preserved by `set_player_losses` on every path. -/
theorem Inv_set_player_losses (t : Tournament) (pid n : Nat) (h : Inv t) :
    Inv (t.set_player_losses pid n).1 := by
  obtain ⟨I1, I2, I3, I4, I5, I6, I7, I8⟩ := h
  obtain ⟨B1, B2, B3, B4⟩ := inv4_split I4
  have hfid : ∀ q : Player,
      (setLossesUpdate n t.max_losses (¬ t.matches_.isEmpty) q).id = q.id :=
    fun q => setLossesUpdate_id n t.max_losses (¬ t.matches_.isEmpty) q
  unfold Tournament.set_player_losses
  split_ifs with hst
  · exact ⟨I1, I2, I3, I4, I5, I6, I7, I8⟩
  · simp only []
    rcases hup : t.updateAny pid
        (setLossesUpdate n t.max_losses (¬ t.matches_.isEmpty)) with _ | tmid
    · simp only [hup]
      exact ⟨I1, I2, I3, I4, I5, I6, I7, I8⟩
    · simp only [hup]
      have mainP : ∀ t1 : Tournament,
          t1.players = updateFirstP t.players pid
            (setLossesUpdate n t.max_losses (¬ t.matches_.isEmpty)) →
          t1.unused_players = t.unused_players →
          t1.eliminated_players = t.eliminated_players →
          t1.last_eliminated_players = t.last_eliminated_players →
          t1.matches_ = t.matches_ →
          t1.state = t.state →
          t1.next_id = t.next_id → Inv t1 := by
        intro t1 hp hu he hl hm hs hn
        unfold Inv teamIds
        rw [hp, hu, he, hl, hm, hs, hn]
        have hids := updateFirstP_ids_total t.players pid _ hfid
        refine ⟨by rw [hids]; exact I1, ?_, ?_, ?_, ?_, I6, I7, I8⟩
        · intro q hq
          rw [hids] at hq
          exact I2 q hq
        · intro q hq
          rw [hids]
          exact I3 q hq
        · exact inv4_join (id_bound_of_ids_eq hids B1) B2 B3 B4
        · intro hfs
          obtain ⟨J1, J2⟩ := I5 hfs
          refine ⟨J1, ?_⟩
          intro q hq
          rw [hids]
          exact J2 q hq
      have mainU : ∀ t1 : Tournament,
          t1.players = t.players →
          t1.unused_players = updateFirstP t.unused_players pid
            (setLossesUpdate n t.max_losses (¬ t.matches_.isEmpty)) →
          t1.eliminated_players = t.eliminated_players →
          t1.last_eliminated_players = t.last_eliminated_players →
          t1.matches_ = t.matches_ →
          t1.state = t.state →
          t1.next_id = t.next_id → Inv t1 := by
        intro t1 hp hu he hl hm hs hn
        unfold Inv teamIds
        rw [hp, hu, he, hl, hm, hs, hn]
        have hids := updateFirstP_ids_total t.unused_players pid _ hfid
        refine ⟨I1, I2, ?_, ?_, I5, I6, I7, ?_⟩
        · intro q hq
          rw [hids] at hq
          exact I3 q hq
        · exact inv4_join B1 (id_bound_of_ids_eq hids B2) B3 B4
        · intro hne
          rw [I8 hne]
          rfl
      unfold Tournament.updateAny at hup
      by_cases hpp : (findP t.players pid).isSome
      · rw [if_pos hpp] at hup
        obtain rfl := Option.some.inj hup
        exact mainP _ rfl rfl rfl rfl rfl rfl rfl
      · rw [if_neg hpp] at hup
        by_cases hpu : (findP t.unused_players pid).isSome
        · rw [if_pos hpu] at hup
          obtain rfl := Option.some.inj hup
          exact mainU _ rfl rfl rfl rfl rfl rfl rfl
        · rw [if_neg hpu] at hup
          exact absurd hup (by simp)

/-- The invariant is preserved by `eliminate_player` on every path. -/
theorem Inv_eliminate_player (t : Tournament) (pid : Nat) (h : Inv t) :
    Inv (t.eliminate_player pid).1 := by
  obtain ⟨I1, I2, I3, I4, I5, I6, I7, I8⟩ := h
  obtain ⟨B1, B2, B3, B4⟩ := inv4_split I4
  unfold Tournament.eliminate_player
  split_ifs with hst
  · exact ⟨I1, I2, I3, I4, I5, I6, I7, I8⟩
  · rcases hfind : findP (t.players ++ t.unused_players) pid with _ | p
    · simp only [hfind]
      exact ⟨I1, I2, I3, I4, I5, I6, I7, I8⟩
    · simp only [hfind]
      have hpid : p.id = pid := (findP_mem hfind).2
      have hpmem : p ∈ t.players ++ t.unused_players := (findP_mem hfind).1
      have main : ∀ t1 : Tournament,
          t1.players = t.players.filter (fun x => ¬ x.id == pid) →
          t1.unused_players = t.unused_players.filter (fun x => ¬ x.id == pid) →
          t1.eliminated_players = t.eliminated_players ++ [p.eliminate] →
          t1.last_eliminated_players = t.last_eliminated_players →
          t1.matches_ = t.matches_ →
          t1.state = t.state →
          t1.next_id = t.next_id → Inv t1 := by
        intro t1 hp hu he hl hm hs hn
        unfold Inv teamIds
        rw [hp, hu, he, hl, hm, hs, hn]
        have hsubP := ids_filter_sublist t.players (fun x => ¬ x.id == pid)
        have hsubU := ids_filter_sublist t.unused_players (fun x => ¬ x.id == pid)
        refine ⟨List.Nodup.sublist hsubP I1, ?_, ?_, ?_, ?_, I6, I7, ?_⟩
        · intro q hq
          rw [ids_append]
          intro hmem
          rcases List.mem_append.mp hmem with hmem | hmem
          · exact I2 q (hsubP.subset hq) hmem
          · simp only [ids, Player.eliminate, List.map_cons, List.map_nil,
              List.mem_cons, List.not_mem_nil, or_false] at hmem
            exact mem_ids_filter_ne hq (hmem.trans hpid)
        · intro q hq
          have hqU : q ∈ ids t.unused_players := hsubU.subset hq
          have hqP : q ∈ ids t.players := I3 q hqU
          have hqne : q ≠ pid := mem_ids_filter_ne hq
          simp only [ids, List.mem_map] at hqP ⊢
          obtain ⟨x, hx1, hx2⟩ := hqP
          exact ⟨x, List.mem_filter.mpr ⟨hx1, by simp [hx2, hqne]⟩, hx2⟩
        · refine inv4_join
            (id_bound_of_ids_sub (fun q hq => hsubP.subset hq) B1)
            (id_bound_of_ids_sub (fun q hq => hsubU.subset hq) B2) ?_ B4
          intro x hx
          rcases List.mem_append.mp hx with hx | hx
          · exact B3 x hx
          · simp only [List.mem_cons, List.not_mem_nil, or_false] at hx
            subst hx
            show p.eliminate.id < t.next_id
            rw [show p.eliminate.id = p.id from rfl]
            rcases List.mem_append.mp hpmem with hm2 | hm2
            · exact B1 p hm2
            · exact B2 p hm2
        · intro hfs
          obtain ⟨J1, J2⟩ := I5 hfs
          exact ⟨J1, fun q hq hmem => J2 q hq (hsubP.subset hmem)⟩
        · intro hne
          rw [I8 hne]
          rfl
      exact main _ rfl rfl rfl rfl rfl rfl rfl

/-- The invariant is preserved by `restart_tournament` on every path. -/
theorem Inv_restart_tournament (t : Tournament) (h : Inv t) :
    Inv t.restart_tournament.1 := by
  unfold Tournament.restart_tournament
  split_ifs
  · exact h
  · simp only []
    have hfold : ∀ (names : List String) (acc : Tournament), Inv acc →
        Inv (names.foldl (fun acc n => (acc.add_player n).1) acc) := by
      intro names
      induction names with
      | nil =>
          intro acc hacc
          exact hacc
      | cons nm rest ih =>
          intro acc hacc
          simp only [List.foldl_cons]
          exact ih _ (Inv_add_player acc nm hacc)
    exact hfold _ _ (Inv_of_fresh rfl rfl rfl rfl rfl rfl)

/-- The invariant is preserved by `start_tournament` on every path. -/
theorem Inv_start_tournament (t : Tournament) (h : Inv t) :
    Inv (start_tournament t).1 := by
  obtain ⟨I1, I2, I3, I4, I5, I6, I7, I8⟩ := h
  unfold start_tournament
  simp only []
  split_ifs with h1 h2 h3
  · exact ⟨I1, I2, I3, I4, I5, I6, I7, I8⟩
  · exact ⟨I1, I2, I3, I4, I5, I6, I7, I8⟩
  · have hsetup : t.state = .setup := not_not.mp h1
    obtain ⟨hm0, hl0⟩ := I7 hsetup
    have main : ∀ t1 : Tournament,
        t1.players = t.players →
        t1.unused_players = t.unused_players →
        t1.eliminated_players = t.eliminated_players →
        t1.last_eliminated_players = t.last_eliminated_players →
        t1.matches_ = t.matches_ →
        t1.state = TournamentState.groupPlay →
        t1.next_id = t.next_id → Inv t1 := by
      intro t1 hp hu he hl hm hs hn
      unfold Inv teamIds
      rw [hp, hu, he, hl, hm, hs, hn]
      refine ⟨I1, I2, I3, I4, ?_, ?_, ?_, ?_⟩
      · intro hx
        simp at hx
      · intro hx
        rw [hm0]
        simp
      · intro hx
        simp at hx
      · intro hx
        exact absurd rfl hx
    exact main _ rfl rfl rfl rfl rfl rfl rfl
  · have hsetup : t.state = .setup := not_not.mp h1
    obtain ⟨hm0, hl0⟩ := I7 hsetup
    have hu8 : t.unused_players = [] := I8 (by rw [hsetup]; simp)
    have main : ∀ t1 : Tournament,
        t1.players = t.players →
        t1.unused_players = t.unused_players →
        t1.eliminated_players = t.eliminated_players →
        t1.last_eliminated_players = t.last_eliminated_players →
        t1.matches_ = t.matches_ →
        t1.state = TournamentState.finalSelection →
        t1.next_id = t.next_id → Inv t1 := by
      intro t1 hp hu he hl hm hs hn
      unfold Inv teamIds
      rw [hp, hu, he, hl, hm, hs, hn]
      refine ⟨I1, I2, I3, I4, ?_, ?_, ?_, ?_⟩
      · intro hx
        rw [hl0]
        exact ⟨by simp [ids], by simp [ids]⟩
      · intro hx
        simp at hx
      · intro hx
        simp at hx
      · intro hx
        exact hu8
    exact main _ rfl rfl rfl rfl rfl rfl rfl

/-- The invariant is preserved by `set_match_winner` on every path. -/
theorem Inv_set_match_winner (t : Tournament) (mid : Nat) (team : Team)
    (h : Inv t) : Inv (t.set_match_winner mid team).1 := by
  unfold Tournament.set_match_winner
  split_ifs
  · exact Inv_congr h rfl rfl rfl rfl rfl rfl (Nat.le_refl t.next_id)
  · exact h

/-- The invariant is preserved by `set_finals_match_winner` on every
path. -/
theorem Inv_set_finals_match_winner (t : Tournament) (mid : Nat)
    (team : Team) (h : Inv t) : Inv (set_finals_match_winner t mid team).1 := by
  unfold set_finals_match_winner
  split_ifs
  · exact Inv_congr h rfl rfl rfl rfl rfl rfl (Nat.le_refl t.next_id)
  · exact h

/-- The invariant is preserved by `start_semi_finals` on every path. -/
theorem Inv_start_semi_finals (t : Tournament) (h : Inv t) :
    Inv (start_semi_finals t).1 := by
  obtain ⟨I1, I2, I3, I4, I5, I6, I7, I8⟩ := h
  unfold start_semi_finals
  split_ifs with h1 h2
  · exact ⟨I1, I2, I3, I4, I5, I6, I7, I8⟩
  · exact ⟨I1, I2, I3, I4, I5, I6, I7, I8⟩
  · have hfs : t.state = .finalSelection := not_not.mp h1
    have hu8 : t.unused_players = [] := I8 (by rw [hfs]; simp)
    have main : ∀ t1 : Tournament,
        t1.players = t.players →
        t1.unused_players = t.unused_players →
        t1.eliminated_players = t.eliminated_players →
        t1.last_eliminated_players = t.last_eliminated_players →
        t1.matches_ = t.matches_ →
        t1.state = TournamentState.semiFinals →
        t1.next_id = t.next_id → Inv t1 := by
      intro t1 hp hu he hl hm hs hn
      unfold Inv teamIds
      rw [hp, hu, he, hl, hm, hs, hn]
      refine ⟨I1, I2, I3, I4, ?_, ?_, ?_, ?_⟩
      · intro hx
        simp at hx
      · intro hx
        simp at hx
      · intro hx
        simp at hx
      · intro hx
        exact hu8
    exact main _ rfl rfl rfl rfl rfl rfl rfl

/-- The invariant is preserved by `generate_semi_final_matches` on every
path. -/
theorem Inv_generate_semi_finals (sh : List Player → List Player)
    (hsh : ∀ l : List Player, (sh l).Perm l) (t : Tournament) (h : Inv t) :
    Inv (generate_semi_final_matches sh t).1 := by
  obtain ⟨I1, I2, I3, I4, I5, I6, I7, I8⟩ := h
  obtain ⟨B1, B2, B3, B4⟩ := inv4_split I4
  unfold generate_semi_final_matches
  split_ifs with h1 h2
  · exact ⟨I1, I2, I3, I4, I5, I6, I7, I8⟩
  · exact ⟨I1, I2, I3, I4, I5, I6, I7, I8⟩
  · have hsemis : t.state = .semiFinals := not_not.mp h1
    have hu8 : t.unused_players = [] := I8 (by rw [hsemis]; simp)
    have hperm := hsh t.players
    have hidsperm : (ids (sh t.players)).Perm (ids t.players) := by
      unfold ids
      exact hperm.map (fun p => p.id)
    have main : ∀ t1 : Tournament,
        t1.players = sh t.players →
        t1.unused_players = t.unused_players →
        t1.eliminated_players = t.eliminated_players →
        t1.last_eliminated_players = t.last_eliminated_players →
        t1.state = t.state →
        t1.next_id = t.next_id + 2 → Inv t1 := by
      intro t1 hp hu he hl hs hn
      unfold Inv teamIds
      rw [hp, hu, he, hl, hs, hn]
      have hB1 : ∀ p ∈ sh t.players, p.id < t.next_id :=
        id_bound_of_ids_sub (fun q hq => hidsperm.mem_iff.mp hq) B1
      refine ⟨hidsperm.nodup_iff.mpr I1, ?_, ?_, ?_, ?_, ?_, ?_, ?_⟩
      · intro q hq
        exact I2 q (hidsperm.mem_iff.mp hq)
      · intro q hq
        rw [hu8] at hq
        simp [ids] at hq
      · refine inv4_join (fun p hp => ?_) (fun p hp => ?_)
          (fun p hp => ?_) (fun p hp => ?_)
        · exact Nat.lt_of_lt_of_le (hB1 p hp) (Nat.le_add_right _ 2)
        · exact Nat.lt_of_lt_of_le (B2 p hp) (Nat.le_add_right _ 2)
        · exact Nat.lt_of_lt_of_le (B3 p hp) (Nat.le_add_right _ 2)
        · exact Nat.lt_of_lt_of_le (B4 p hp) (Nat.le_add_right _ 2)
      · intro hx
        rw [hsemis] at hx
        simp at hx
      · intro hx
        rw [hsemis] at hx
        simp at hx
      · intro hx
        rw [hsemis] at hx
        simp at hx
      · intro hx
        exact hu8
    exact main _ rfl rfl rfl rfl rfl rfl

/-- The invariant is preserved by `generate_group_play_matches` on every
path: the non-eliminated roster is partitioned into the round's teams and
the sit-out list, so team ids stay duplicate-free and the sit-out ids stay
inside the roster. -/
theorem Inv_generate_group_play (tb : Nat → Nat) (sh : List Player → List Player)
    (hsh : ∀ l : List Player, (sh l).Perm l) (t : Tournament) (h : Inv t) :
    Inv (generate_group_play_matches tb sh t).1 := by
  obtain ⟨I1, I2, I3, I4, I5, I6, I7, I8⟩ := h
  obtain ⟨B1, B2, B3, B4⟩ := inv4_split I4
  unfold generate_group_play_matches
  split_ifs with h1 h2
  · exact ⟨I1, I2, I3, I4, I5, I6, I7, I8⟩
  · exact ⟨I1, I2, I3, I4, I5, I6, I7, I8⟩
  · have hgp : t.state = .groupPlay := not_not.mp h1
    obtain ⟨hids, hpm⟩ := gpPlayers_props tb t
    have hnodAvail : (ids (gpAvailable t)).Nodup :=
      (ids_filter_sublist t.players _).nodup I1
    have hteam : ((gpMatches tb sh t).flatMap
        (fun m => m.team_1 ++ m.team_2)).Nodup :=
      (((gp_partition_perm tb sh t hsh).nodup_iff).mpr hnodAvail).of_append_left
    have main : ∀ t1 : Tournament,
        t1.players = gpPlayers tb t →
        t1.unused_players = gpUnused tb t →
        t1.eliminated_players = t.eliminated_players →
        t1.last_eliminated_players = t.last_eliminated_players →
        t1.matches_ = gpMatches tb sh t →
        t1.state = t.state →
        t1.next_id = t.next_id + (gpChunks tb sh t).length → Inv t1 := by
      intro t1 hp hu he hl hm hs hn
      unfold Inv teamIds
      rw [hp, hu, he, hl, hm, hs, hn]
      refine ⟨?_, ?_, ?_, ?_, ?_, ?_, ?_, ?_⟩
      · rw [hids]
        exact I1
      · intro q hq
        rw [hids] at hq
        exact I2 q hq
      · intro q hq
        rw [hids]
        exact gpUnused_ids_sub tb t q hq
      · refine inv4_join (fun p hp2 => ?_) (fun p hp2 => ?_)
          (fun p hp2 => ?_) (fun p hp2 => ?_)
        · exact Nat.lt_of_lt_of_le (id_bound_of_ids_eq hids B1 p hp2)
            (Nat.le_add_right _ _)
        · exact Nat.lt_of_lt_of_le
            (id_bound_of_ids_sub (gpUnused_ids_sub tb t) B1 p hp2)
            (Nat.le_add_right _ _)
        · exact Nat.lt_of_lt_of_le (B3 p hp2) (Nat.le_add_right _ _)
        · exact Nat.lt_of_lt_of_le (B4 p hp2) (Nat.le_add_right _ _)
      · intro hx
        rw [hgp] at hx
        simp at hx
      · intro hx
        exact hteam
      · intro hx
        rw [hgp] at hx
        simp at hx
      · intro hx
        rw [hgp] at hx
        exact absurd rfl hx
    exact main _ rfl rfl rfl rfl rfl rfl rfl

/-- The invariant is preserved by `process_group_play_results` on every
path, including the partially-mutated `PlayerNotFound` exit. -/
theorem Inv_process_group_play (t : Tournament) (h : Inv t) :
    Inv (process_group_play_results t).1 := by
  obtain ⟨I1, I2, I3, I4, I5, I6, I7, I8⟩ := h
  obtain ⟨B1, B2, B3, B4⟩ := inv4_split I4
  unfold process_group_play_results
  split_ifs with h1 h2
  · exact ⟨I1, I2, I3, I4, I5, I6, I7, I8⟩
  · exact ⟨I1, I2, I3, I4, I5, I6, I7, I8⟩
  · have hgp : t.state = .groupPlay := not_not.mp h1
    simp only []
    rcases hpm : processMatches t.max_losses
        (t.matches_.map (fun m => (m.team_1, m.team_2,
          (mapLookup t.match_results m.id).getD Team.one)))
        { t with last_eliminated_players := [] } with ⟨t1m, rm⟩
    obtain ⟨hA, hB, hC, ex, hex1, hex2, hex3⟩ :=
      processMatches_pointwise t.max_losses _ _ _ _ hpm
    have hB' : ids t1m.players = ids t.players := hB
    have hex1' : t1m.last_eliminated_players = ex := by
      have h9 : t1m.last_eliminated_players = ([] : List Player) ++ ex := hex1
      rw [List.nil_append] at h9
      exact h9
    have hunb : t1m.unused_players = t.unused_players := by rw [hA]
    have heli : t1m.eliminated_players = t.eliminated_players := by rw [hA]
    have hmt : t1m.matches_ = t.matches_ := by rw [hA]
    have hstt : t1m.state = t.state := by rw [hA]
    have hni : t1m.next_id = t.next_id := by rw [hA]
    have hnd1 : (ids t1m.players).Nodup := by
      rw [hB']
      exact I1
    have hexT : (ids ex).Sublist (teamIds t) := by
      have h9 := hex2
      rw [flatMap_map_list] at h9
      exact h9
    have hexnd : (ids ex).Nodup := hexT.nodup (I6 hgp)
    have hexBound : ∀ x ∈ ex, x.id < t.next_id := by
      intro x hx
      obtain ⟨-, ⟨p0, hp0f, -⟩, -⟩ := hex3 x hx
      have hp0f2 : findP t.players x.id = some p0 := hp0f
      obtain ⟨hp0m, hp0id⟩ := findP_mem hp0f2
      rw [← hp0id]
      exact B1 p0 hp0m
    rcases rm with _ | e
    · simp only [hpm]
      have hdisjEx : ∀ pid ∈ ids ex,
          pid ∉ ids (t1m.players.filter (fun p => ¬ p.eliminated)) := by
        intro pid hpid hmem
        simp only [ids, List.mem_map] at hpid hmem
        obtain ⟨x, hx1, hx2⟩ := hpid
        obtain ⟨y, hy1, hy2⟩ := hmem
        obtain ⟨hy3, hy4⟩ := List.mem_filter.mp hy1
        have h5 := findP_eq_of_mem_nodup hnd1 hy3 (hy2.trans hx2.symm)
        obtain ⟨-, -, hflag⟩ := hex3 x hx1
        have h6 := hflag y h5
        simp [h6] at hy4
      have hcore : ∀ t2 : Tournament,
          t2.players = t1m.players.filter (fun p => ¬ p.eliminated) →
          t2.unused_players = [] →
          t2.eliminated_players =
            t1m.eliminated_players ++ t1m.last_eliminated_players →
          t2.last_eliminated_players = t1m.last_eliminated_players →
          t2.matches_ = [] →
          (t2.state = TournamentState.finalSelection ∨
            t2.state = t1m.state) →
          t2.next_id = t1m.next_id → Inv t2 := by
        intro t2 hp2 hu2 he2 hl2 hm2 hst2 hn2
        unfold Inv teamIds
        rw [hp2, hu2, he2, hl2, hm2, hn2, heli, hex1', hni]
        refine ⟨?_, ?_, ?_, ?_, ?_, ?_, ?_, ?_⟩
        · exact (ids_filter_sublist t1m.players _).nodup hnd1
        · intro q hq
          rw [ids_append]
          intro hmem
          rcases List.mem_append.mp hmem with hmE | hmX
          · have hq2 : q ∈ ids t.players := by
              rw [← hB']
              exact (ids_filter_sublist t1m.players _).subset hq
            exact I2 q hq2 hmE
          · exact hdisjEx q hmX hq
        · intro q hq
          simp [ids] at hq
        · refine inv4_join ?_ ?_ ?_ hexBound
          · exact id_bound_of_ids_sub
              (fun q hq => by
                rw [← hB']
                exact (ids_filter_sublist t1m.players _).subset hq) B1
          · intro p hp
            simp at hp
          · intro p hp
            rcases List.mem_append.mp hp with hp | hp
            · exact B3 p hp
            · exact hexBound p hp
        · intro hx
          exact ⟨hexnd, hdisjEx⟩
        · intro hx
          simp
        · intro hx
          rcases hst2 with h9 | h9
          · rw [h9] at hx
            simp at hx
          · rw [h9, hstt, hgp] at hx
            simp at hx
        · intro hx
          rfl
      split_ifs
      · exact hcore _ rfl rfl rfl rfl rfl (Or.inl rfl) rfl
      · exact hcore _ rfl rfl rfl rfl rfl (Or.inr rfl) rfl
    · simp only [hpm]
      show Inv t1m
      have hstgp : t1m.state = TournamentState.groupPlay := hstt.trans hgp
      unfold Inv teamIds
      rw [hunb, heli, hex1', hni, hmt]
      refine ⟨?_, ?_, ?_, ?_, ?_, ?_, ?_, ?_⟩
      · rw [hB']
        exact I1
      · intro q hq
        rw [hB'] at hq
        exact I2 q hq
      · intro q hq
        rw [hB']
        exact I3 q hq
      · exact inv4_join (id_bound_of_ids_eq hB' B1) B2 B3 hexBound
      · intro hx
        rw [hstgp] at hx
        simp at hx
      · intro hx
        exact I6 hgp
      · intro hx
        rw [hstgp] at hx
        simp at hx
      · intro hx
        rw [hstgp] at hx
        exact absurd rfl hx

/-- Clearing the eliminated flag does not change the id list. -/
theorem ids_map_uneliminate (l : List Player) :
    ids (l.map (fun p => { p with eliminated := false })) = ids l := by
  unfold ids
  rw [List.map_map]
  rfl

/-- The invariant is preserved by `add_players_back_from_last_eliminated`
on every path: the re-added players come from the duplicate-free
`last_eliminated_players` record, which is disjoint from the roster, and
their ids are simultaneously filtered out of `eliminated_players`. -/
theorem Inv_add_players_back (t : Tournament) (pids : List Nat) (h : Inv t) :
    Inv (add_players_back_from_last_eliminated t pids).1 := by
  obtain ⟨I1, I2, I3, I4, I5, I6, I7, I8⟩ := h
  obtain ⟨B1, B2, B3, B4⟩ := inv4_split I4
  have main : t.state = TournamentState.finalSelection →
      ∀ t1 : Tournament,
      t1.players = t.players ++
        List.map (fun p : Player => { p with eliminated := false })
        (t.last_eliminated_players.filter (fun p => pids.contains p.id)) →
      t1.unused_players = t.unused_players →
      t1.eliminated_players = t.eliminated_players.filter
        (fun p => ¬ pids.contains p.id) →
      t1.last_eliminated_players = [] →
      t1.matches_ = t.matches_ →
      (t1.state = TournamentState.semiFinals ∨ t1.state = t.state) →
      t1.next_id = t.next_id → Inv t1 := by
    intro hfs t1 hp hu he hl hm hst hn
    have hu8 : t.unused_players = [] := I8 (by rw [hfs]; simp)
    obtain ⟨L5nd, L5dj⟩ := I5 hfs
    unfold Inv teamIds
    rw [hp, hu, he, hl, hm, hn]
    have hidsAdd : ids (List.map (fun p : Player => { p with eliminated := false })
        (t.last_eliminated_players.filter (fun p => pids.contains p.id))) =
        ids (t.last_eliminated_players.filter (fun p => pids.contains p.id)) :=
      ids_map_uneliminate _
    refine ⟨?_, ?_, ?_, ?_, ?_, ?_, ?_, ?_⟩
    · rw [ids_append, hidsAdd]
      refine List.Nodup.append I1 ((ids_filter_sublist _ _).nodup L5nd) ?_
      intro q hq1 hq2
      exact L5dj q ((ids_filter_sublist _ _).subset hq2) hq1
    · intro q hq
      rw [ids_append, hidsAdd] at hq
      intro hmem
      simp only [ids, List.mem_map] at hmem
      obtain ⟨x, hx1, hx2⟩ := hmem
      obtain ⟨hx3, hx4⟩ := List.mem_filter.mp hx1
      rcases List.mem_append.mp hq with hqP | hqA
      · exact I2 q hqP
          (by rw [← hx2]; exact List.mem_map_of_mem (fun p => p.id) hx3)
      · simp only [ids, List.mem_map] at hqA
        obtain ⟨y, hy1, hy2⟩ := hqA
        obtain ⟨hy3, hy4⟩ := List.mem_filter.mp hy1
        simp at hx4 hy4
        rw [hy2] at hy4
        rw [hx2] at hx4
        exact hx4 hy4
    · intro q hq
      rw [ids_append]
      exact List.mem_append_left _ (I3 q hq)
    · refine inv4_join ?_ B2 ?_ ?_
      · intro p hp2
        rcases List.mem_append.mp hp2 with hp2 | hp2
        · exact B1 p hp2
        · simp only [List.mem_map] at hp2
          obtain ⟨x, hx1, rfl⟩ := hp2
          exact B4 x (List.mem_of_mem_filter hx1)
      · intro p hp2
        exact B3 p (List.mem_of_mem_filter hp2)
      · intro p hp2
        simp at hp2
    · intro hx
      exact ⟨by simp [ids], by intro pid hpid; simp [ids] at hpid⟩
    · intro hx
      rcases hst with h9 | h9
      · rw [h9] at hx
        simp at hx
      · rw [h9, hfs] at hx
        simp at hx
    · intro hx
      rcases hst with h9 | h9
      · rw [h9] at hx
        simp at hx
      · rw [h9, hfs] at hx
        simp at hx
    · intro hx
      exact hu8
  unfold add_players_back_from_last_eliminated
  simp only []
  split_ifs with h1 h2 h3 h4
  · exact ⟨I1, I2, I3, I4, I5, I6, I7, I8⟩
  · exact ⟨I1, I2, I3, I4, I5, I6, I7, I8⟩
  · exact ⟨I1, I2, I3, I4, I5, I6, I7, I8⟩
  · rcases hfind : pids.find? (fun pid =>
        ¬ t.last_eliminated_players.any (fun p => p.id == pid)) with _ | pid
    · simp only [hfind]
      exact main (not_not.mp h1) _ rfl rfl rfl rfl rfl (Or.inl rfl) rfl
    · simp only [hfind]
      exact ⟨I1, I2, I3, I4, I5, I6, I7, I8⟩
  · rcases hfind : pids.find? (fun pid =>
        ¬ t.last_eliminated_players.any (fun p => p.id == pid)) with _ | pid
    · simp only [hfind]
      exact main (not_not.mp h1) _ rfl rfl rfl rfl rfl (Or.inr rfl) rfl
    · simp only [hfind]
      exact ⟨I1, I2, I3, I4, I5, I6, I7, I8⟩

/-- The invariant is preserved by `process_semi_final_results` on every
path: the loss/win loops only touch loss counters, and the advancing
roster is a filtered sub-roster. -/
theorem Inv_process_semi (t : Tournament) (h : Inv t) :
    Inv (process_semi_final_results t).1 := by
  obtain ⟨I1, I2, I3, I4, I5, I6, I7, I8⟩ := h
  obtain ⟨B1, B2, B3, B4⟩ := inv4_split I4
  unfold process_semi_final_results
  split_ifs with h1 h2 h3
  · exact ⟨I1, I2, I3, I4, I5, I6, I7, I8⟩
  · exact ⟨I1, I2, I3, I4, I5, I6, I7, I8⟩
  · exact ⟨I1, I2, I3, I4, I5, I6, I7, I8⟩
  · have hsemi : t.state = .semiFinals := not_not.mp h1
    have hu8 : t.unused_players = [] := I8 (by rw [hsemi]; simp)
    simp only []
    rcases hpm : playoffMatches
        (t.matches_.map (fun m => (m.team_1, m.team_2,
          (mapLookup t.final_match_results m.id).getD Team.one))) t with ⟨t1m, rm⟩
    obtain ⟨hA, hidsP, hidsU, hmP, hmU⟩ := playoffMatches_pointwise _ _ _ _ hpm
    have heli : t1m.eliminated_players = t.eliminated_players := by rw [hA]
    have hlel : t1m.last_eliminated_players = t.last_eliminated_players := by
      rw [hA]
    have hmt : t1m.matches_ = t.matches_ := by rw [hA]
    have hstt : t1m.state = t.state := by rw [hA]
    have hni : t1m.next_id = t.next_id := by rw [hA]
    have hun : t1m.unused_players = [] := by
      apply eq_nil_of_ids_nil
      rw [hidsU, hu8]
      rfl
    rcases rm with _ | e
    · simp only [hpm]
      have main : ∀ t1 : Tournament,
          (ids t1.players).Sublist (ids t1m.players) →
          t1.unused_players = t1m.unused_players →
          t1.eliminated_players = t1m.eliminated_players →
          t1.last_eliminated_players = t1m.last_eliminated_players →
          t1.state = TournamentState.finals →
          t1.next_id = t1m.next_id + 1 → Inv t1 := by
        intro t1 hsub hu he hl hst hn
        unfold Inv teamIds
        rw [hu, he, hl, hn, hun, heli, hlel, hni]
        refine ⟨?_, ?_, ?_, ?_, ?_, ?_, ?_, ?_⟩
        · exact hsub.nodup (by rw [hidsP]; exact I1)
        · intro q hq
          have hq2 : q ∈ ids t.players := by
            rw [← hidsP]
            exact hsub.subset hq
          exact I2 q hq2
        · intro q hq
          simp [ids] at hq
        · have hbP : ∀ p ∈ t1.players, p.id < t.next_id :=
            id_bound_of_ids_sub
              (fun q hq => by rw [← hidsP]; exact hsub.subset hq) B1
          refine inv4_join (fun p hp => Nat.lt_succ_of_lt (hbP p hp))
            (fun p hp => by simp at hp)
            (fun p hp => Nat.lt_succ_of_lt (B3 p hp))
            (fun p hp => Nat.lt_succ_of_lt (B4 p hp))
        · intro hx
          rw [hst] at hx
          simp at hx
        · intro hx
          rw [hst] at hx
          simp at hx
        · intro hx
          rw [hst] at hx
          simp at hx
        · intro hx
          rfl
      exact main _ (ids_filter_sublist t1m.players _) rfl rfl rfl rfl rfl
    · simp only [hpm]
      show Inv t1m
      have hsts : t1m.state = TournamentState.semiFinals := hstt.trans hsemi
      unfold Inv teamIds
      rw [heli, hlel, hni, hmt, hun]
      refine ⟨?_, ?_, ?_, ?_, ?_, ?_, ?_, ?_⟩
      · rw [hidsP]
        exact I1
      · intro q hq
        rw [hidsP] at hq
        exact I2 q hq
      · intro q hq
        simp [ids] at hq
      · exact inv4_join (id_bound_of_ids_eq hidsP B1)
          (fun p hp => by simp at hp) B3 B4
      · intro hx
        rw [hsts] at hx
        simp at hx
      · intro hx
        rw [hsts] at hx
        simp at hx
      · intro hx
        rw [hsts] at hx
        simp at hx
      · intro hx
        rfl

/-- The invariant is preserved by `process_finals_results` on every
path. -/
theorem Inv_process_finals (t : Tournament) (h : Inv t) :
    Inv (process_finals_results t).1 := by
  obtain ⟨I1, I2, I3, I4, I5, I6, I7, I8⟩ := h
  obtain ⟨B1, B2, B3, B4⟩ := inv4_split I4
  unfold process_finals_results
  split_ifs with h1 h2
  · exact ⟨I1, I2, I3, I4, I5, I6, I7, I8⟩
  · exact ⟨I1, I2, I3, I4, I5, I6, I7, I8⟩
  · have hfin : t.state = .finals := not_not.mp h1
    have hu8 : t.unused_players = [] := I8 (by rw [hfin]; simp)
    simp only []
    rcases hlook : mapLookup t.final_match_results
        (t.matches_.getD 0 dummyMatch).id with _ | w
    · simp only [hlook]
      exact ⟨I1, I2, I3, I4, I5, I6, I7, I8⟩
    · simp only [hlook]
      rcases happ : apply_playoff_match_result t
          (t.matches_.getD 0 dummyMatch).team_1
          (t.matches_.getD 0 dummyMatch).team_2 w with ⟨t1m, rm⟩
      obtain ⟨hA, hidsP, hidsU, hmP, hmU⟩ := apply_playoff_pointwise happ
      have heli : t1m.eliminated_players = t.eliminated_players := by rw [hA]
      have hlel : t1m.last_eliminated_players = t.last_eliminated_players := by
        rw [hA]
      have hmt : t1m.matches_ = t.matches_ := by rw [hA]
      have hstt : t1m.state = t.state := by rw [hA]
      have hni : t1m.next_id = t.next_id := by rw [hA]
      have hun : t1m.unused_players = [] := by
        apply eq_nil_of_ids_nil
        rw [hidsU, hu8]
        rfl
      rcases rm with _ | e
      · simp only [happ]
        have main : ∀ t1 : Tournament,
            t1.players = t1m.players →
            t1.unused_players = t1m.unused_players →
            t1.eliminated_players = t1m.eliminated_players →
            t1.last_eliminated_players = t1m.last_eliminated_players →
            t1.state = TournamentState.completed →
            t1.next_id = t1m.next_id → Inv t1 := by
          intro t1 hp hu he hl hst hn
          unfold Inv teamIds
          rw [hp, hu, he, hl, hn, hun, heli, hlel, hni]
          refine ⟨?_, ?_, ?_, ?_, ?_, ?_, ?_, ?_⟩
          · rw [hidsP]
            exact I1
          · intro q hq
            rw [hidsP] at hq
            exact I2 q hq
          · intro q hq
            simp [ids] at hq
          · exact inv4_join (id_bound_of_ids_eq hidsP B1)
              (fun p hp => by simp at hp) B3 B4
          · intro hx
            rw [hst] at hx
            simp at hx
          · intro hx
            rw [hst] at hx
            simp at hx
          · intro hx
            rw [hst] at hx
            simp at hx
          · intro hx
            rfl
        exact main _ rfl rfl rfl rfl rfl rfl
      · simp only [happ]
        show Inv t1m
        have hsts : t1m.state = TournamentState.finals := hstt.trans hfin
        unfold Inv teamIds
        rw [heli, hlel, hni, hmt, hun]
        refine ⟨?_, ?_, ?_, ?_, ?_, ?_, ?_, ?_⟩
        · rw [hidsP]
          exact I1
        · intro q hq
          rw [hidsP] at hq
          exact I2 q hq
        · intro q hq
          simp [ids] at hq
        · exact inv4_join (id_bound_of_ids_eq hidsP B1)
            (fun p hp => by simp at hp) B3 B4
        · intro hx
          rw [hsts] at hx
          simp at hx
        · intro hx
          rw [hsts] at hx
          simp at hx
        · intro hx
          rw [hsts] at hx
          simp at hx
        · intro hx
          rfl

/-- Every single core-operation invocation, successful or failed,
preserves the invariant. -/
theorem Inv_step {t t1 : Tournament} (h : Inv t) (hs : Step t t1) : Inv t1 := by
  cases hs with
  | add_player name => exact Inv_add_player t name h
  | remove_player pid => exact Inv_remove_player t pid h
  | set_max_losses n => exact Inv_set_max_losses t n h
  | set_player_losses pid n => exact Inv_set_player_losses t pid n h
  | eliminate_player pid => exact Inv_eliminate_player t pid h
  | restart_tournament => exact Inv_restart_tournament t h
  | start_tournament => exact Inv_start_tournament t h
  | set_match_winner mid team => exact Inv_set_match_winner t mid team h
  | generate_group_play tb sh hsh => exact Inv_generate_group_play tb sh hsh t h
  | process_group_play => exact Inv_process_group_play t h
  | add_players_back pids => exact Inv_add_players_back t pids h
  | start_semi_finals => exact Inv_start_semi_finals t h
  | generate_semi_finals sh hsh => exact Inv_generate_semi_finals sh hsh t h
  | set_finals_match_winner mid team =>
      exact Inv_set_finals_match_winner t mid team h
  | process_semi_finals => exact Inv_process_semi t h
  | process_finals => exact Inv_process_finals t h

/-- Every reachable tournament state satisfies the invariant. -/
theorem Inv_reachable {t : Tournament} (h : Reachable t) : Inv t := by
  obtain ⟨ml, mode, hr⟩ := h
  induction hr with
  | refl => exact Inv_new ml mode
  | tail _ hbc ih => exact Inv_step ih hbc

/-- C2 corrected: in every reachable state the roster and the eliminated
record are id-disjoint and the sit-out list is id-disjoint from the
eliminated record, but sit-out entries are copies of roster players, so an
id may appear in both `players` and `unused_players` (the as-stated claim
fails, see the counterexample). -/
theorem C2_amended_mutual_exclusion (t : Tournament) (h : Reachable t) :
    (∀ pid ∈ ids t.players, pid ∉ ids t.eliminated_players) ∧
    (∀ pid ∈ ids t.unused_players, pid ∉ ids t.eliminated_players) ∧
    (∀ pid ∈ ids t.unused_players, pid ∈ ids t.players) := by
  obtain ⟨I1, I2, I3, I4, I5, I6, I7, I8⟩ := Inv_reachable h
  exact ⟨I2, fun pid hp => I2 pid (I3 pid hp), I3⟩

/-- Witness: the amended mutual-exclusion property evaluated at the
reachable five-player group-play state `exT3`. -/
theorem C2_amended_mutual_exclusion_witness :
    (∀ pid ∈ ids exT3.players, pid ∉ ids exT3.eliminated_players) ∧
    (∀ pid ∈ ids exT3.unused_players, pid ∉ ids exT3.eliminated_players) ∧
    (∀ pid ∈ ids exT3.unused_players, pid ∈ ids exT3.players) :=
  C2_amended_mutual_exclusion exT3 reach_exT3

/-- C7 counterexample: the claim excepts only `restart_tournament` and
`add_players_back_from_last_eliminated`, but the core operation
`set_player_losses` also decreases a loss count: on a GroupPlay state
whose only player holds one loss, `set_player_losses 0 0` succeeds and
lowers that count from 1 to 0. -/
theorem C7_counterexample :
    (cexC7.set_player_losses 0 0).2 = none ∧
    lossesOf cexC7 0 = some 1 ∧
    lossesOf (cexC7.set_player_losses 0 0).1 0 = some 0 := by decide

/-- C7 amended: under distinct ids across the three authoritative
collections and a fresh id counter, every core operation other than
`restart_tournament`, `add_players_back_from_last_eliminated` and
`set_player_losses` never decreases any loss count observable both before
and after the call, whether the call succeeds or fails; and a successful
`add_players_back_from_last_eliminated` re-enters each selected player as
the identical record with only the eliminated flag cleared, so its loss
count persists. -/
theorem C7_amended_loss_monotonicity (t : Tournament)
    (hnd : (ids (t.players ++ t.unused_players ++
      t.eliminated_players)).Nodup)
    (hfresh : ∀ p ∈ t.players ++ t.unused_players ++ t.eliminated_players,
      p.id < t.next_id) :
    (∀ name, LossesMonoAt t (t.add_player name).1) ∧
    (∀ pid, LossesMonoAt t (t.remove_player pid).1) ∧
    (∀ n, LossesMonoAt t (t.set_max_losses n).1) ∧
    (∀ pid, LossesMonoAt t (t.eliminate_player pid).1) ∧
    LossesMonoAt t (start_tournament t).1 ∧
    (∀ mid team, LossesMonoAt t (t.set_match_winner mid team).1) ∧
    (∀ tb sh, LossesMonoAt t (generate_group_play_matches tb sh t).1) ∧
    LossesMonoAt t (process_group_play_results t).1 ∧
    LossesMonoAt t (start_semi_finals t).1 ∧
    (∀ sh, (∀ l : List Player, (sh l).Perm l) →
      LossesMonoAt t (generate_semi_final_matches sh t).1) ∧
    (∀ mid team, LossesMonoAt t (set_finals_match_winner t mid team).1) ∧
    LossesMonoAt t (process_semi_final_results t).1 ∧
    LossesMonoAt t (process_finals_results t).1 ∧
    (∀ pids, (ids t.last_eliminated_players).Nodup →
      (∀ pid ∈ ids t.last_eliminated_players, pid ∉ ids t.players) →
      (add_players_back_from_last_eliminated t pids).2 = none →
      ∀ p ∈ t.last_eliminated_players, p.id ∈ pids →
        findP (add_players_back_from_last_eliminated t pids).1.players p.id =
          some { p with eliminated := false }) :=
  ⟨fun name => add_player_losses_mono t name hfresh,
   fun pid => remove_player_losses_mono t pid hnd,
   fun n => set_max_losses_losses_mono t n,
   fun pid => eliminate_player_losses_mono t pid hnd,
   start_tournament_losses_mono t,
   fun mid team => set_match_winner_losses_mono t mid team,
   fun tb sh => generate_group_play_losses_mono tb sh t hnd,
   process_group_play_losses_mono t hnd,
   start_semi_finals_losses_mono t,
   fun sh hsh => generate_semi_finals_losses_mono sh hsh t hnd,
   fun mid team => set_finals_match_winner_losses_mono t mid team,
   process_semi_final_losses_mono t hnd,
   process_finals_losses_mono t,
   fun pids h1 h2 h3 => add_back_readded t pids h1 h2 h3⟩

/-- Witness for the amended C7 theorem at the concrete five-player Setup
state (distinct ids 0 to 4, fresh counter 5). -/
theorem C7_amended_loss_monotonicity_witness :
    (∀ name, LossesMonoAt exT1 (exT1.add_player name).1) ∧
    (∀ pid, LossesMonoAt exT1 (exT1.remove_player pid).1) ∧
    (∀ n, LossesMonoAt exT1 (exT1.set_max_losses n).1) ∧
    (∀ pid, LossesMonoAt exT1 (exT1.eliminate_player pid).1) ∧
    LossesMonoAt exT1 (start_tournament exT1).1 ∧
    (∀ mid team, LossesMonoAt exT1 (exT1.set_match_winner mid team).1) ∧
    (∀ tb sh, LossesMonoAt exT1 (generate_group_play_matches tb sh exT1).1) ∧
    LossesMonoAt exT1 (process_group_play_results exT1).1 ∧
    LossesMonoAt exT1 (start_semi_finals exT1).1 ∧
    (∀ sh, (∀ l : List Player, (sh l).Perm l) →
      LossesMonoAt exT1 (generate_semi_final_matches sh exT1).1) ∧
    (∀ mid team, LossesMonoAt exT1 (set_finals_match_winner exT1 mid team).1) ∧
    LossesMonoAt exT1 (process_semi_final_results exT1).1 ∧
    LossesMonoAt exT1 (process_finals_results exT1).1 ∧
    (∀ pids, (ids exT1.last_eliminated_players).Nodup →
      (∀ pid ∈ ids exT1.last_eliminated_players, pid ∉ ids exT1.players) →
      (add_players_back_from_last_eliminated exT1 pids).2 = none →
      ∀ p ∈ exT1.last_eliminated_players, p.id ∈ pids →
        findP (add_players_back_from_last_eliminated exT1 pids).1.players p.id =
          some { p with eliminated := false }) :=
  C7_amended_loss_monotonicity exT1 (by decide) (by decide)

end Dart
